import Mathlib

/-!
The message codec and the multicast connection multiplexer of find-my-device.

A shallow embedding of the packages `fmd/msg`, `fmd/conf` and `fmd/str` of the
Go program and the properties of its specification that were checked against it.

Conventions of the embedding:

* Go strings handled by the coder and by `fmd/str` are sequences of characters
  (`List Char`); configuration strings are `String`.
* A Go `error` is a `GoError`; a `nil` error is `none`.
* A nilable pointer `*T` is an `Option T`; a call that ends in a run-time panic
  has the outcome `Outcome.panic`, or `none` where nothing else can fail.
* Library calls whose code is not part of the repository (`encoding/json` on the
  payload structs, `net.ResolveUDPAddr`, `net.DialUDP`, `net.Interfaces`, the
  behaviour of an opened connection, the case mapping of `unicode`,
  `dedent.Dedent`) are parameters of the embedding.
* Goroutines and channels are modelled by the order in which results arrive
  (`Write`) and by a step relation (`Stop` against the polling goroutines).
-/

namespace Fmd

/-! ## Go errors -/

/-- A Go error value: `leaf` is made by `fmt.Errorf` without `%w`, `wrap` by
`fmt.Errorf` with one `%w` operand, which it keeps as the wrapped error. -/
inductive GoError where
  | leaf (msg : String)
  | wrap (msg : String) (inner : GoError)
deriving DecidableEq, Repr

/-- The method `Error()`: the message of an error. -/
def GoError.Error : GoError → String
  | .leaf msg => msg
  | .wrap msg _ => msg

/-- The function `errors.Unwrap`: the error wrapped by `%w`, if any. -/
def GoError.Unwrap : GoError → Option GoError
  | .leaf _ => none
  | .wrap _ inner => some inner

deriving instance DecidableEq for Except

/-! ## msg/types.go -/

/-- The struct `net.Interface` (embedded in `NetworkInterface`). -/
structure Interface where
  Index : Int
  MTU : Int
  Name : String
  HardwareAddr : List UInt8
  Flags : Nat
deriving DecidableEq, Repr

/-- The constant `net.FlagUp` (`1 << 0`). -/
def FlagUp : Nat := 1

/-- The constant `net.FlagMulticast` (`1 << 4`). -/
def FlagMulticast : Nat := 16

structure NetworkAddress where
  Network : String
  Address : String
deriving DecidableEq, Repr

structure NetworkInterface where
  Interface : Interface
  Addresses : List NetworkAddress
  Multicast : List NetworkAddress
deriving DecidableEq, Repr

/-- Generic request from client to device. -/
structure ClientRequestMessage where
  Request : String
  Parameters : List String
deriving DecidableEq, Repr

/-- Local device advertisement multicast. -/
structure DeviceAdvertisementMessage where
  Group : String
  DeviceName : String
  HostName : String
deriving DecidableEq, Repr

/-- Detailed device information. -/
structure DeviceInformationMessage where
  Group : String
  DeviceName : String
  HostName : String
  OperatingSystem : String
  NetworkInterfaces : List NetworkInterface
deriving DecidableEq, Repr

/-- Main message structure: three pointer fields, each of which may be nil. -/
structure Message where
  ClientRequest : Option ClientRequestMessage
  DeviceAdvertisement : Option DeviceAdvertisementMessage
  DeviceInformation : Option DeviceInformationMessage
deriving DecidableEq, Repr

/-- The zero value `Message{}`: all three pointers nil. -/
def Message.zero : Message := ⟨none, none, none⟩

/-- Number of populated (non-nil) variants of a message. -/
def Message.populated (m : Message) : Nat :=
  (if m.ClientRequest.isSome then 1 else 0) +
  (if m.DeviceAdvertisement.isSome then 1 else 0) +
  (if m.DeviceInformation.isSome then 1 else 0)

/-- Names of the populated variants, in field order. -/
def Message.populatedNames (m : Message) : List String :=
  (if m.ClientRequest.isSome then ["ClientRequest"] else []) ++
  (if m.DeviceAdvertisement.isSome then ["DeviceAdvertisement"] else []) ++
  (if m.DeviceInformation.isSome then ["DeviceInformation"] else [])

/-! ## msg/encoder.go -/

/-- The calls into `encoding/json` that handle a payload struct. The code of
the library is not part of the repository, so these are parameters.

* `encodeX v` is what `jsonEncoder.Encode` leaves in `jsonBuffer` for a non-nil
  pointer to `v`, or the error it returns.
* `decodeX cur text` decodes the JSON value at the head of `text` into a field
  of type `*X` whose current value is `cur`; it returns the new value of the
  field and the text after the value, or `none` on an error.
* `skipValue text` skips the JSON value at the head of `text` (used for object
  keys that match no field). -/
structure JsonLib where
  encodeClientRequest : ClientRequestMessage → Except GoError (List Char)
  encodeDeviceAdvertisement : DeviceAdvertisementMessage → Except GoError (List Char)
  encodeDeviceInformation : DeviceInformationMessage → Except GoError (List Char)
  decodeClientRequest :
    Option ClientRequestMessage → List Char → Option (Option ClientRequestMessage × List Char)
  decodeDeviceAdvertisement :
    Option DeviceAdvertisementMessage → List Char →
      Option (Option DeviceAdvertisementMessage × List Char)
  decodeDeviceInformation :
    Option DeviceInformationMessage → List Char →
      Option (Option DeviceInformationMessage × List Char)
  skipValue : List Char → Option (List Char)

/-- The predicate `unicode.IsSpace`: the characters `strings.TrimSpace` removes. -/
def isSpace (c : Char) : Bool :=
  let n := c.toNat
  n == 0x09 || n == 0x0A || n == 0x0B || n == 0x0C || n == 0x0D || n == 0x20 ||
  n == 0x85 || n == 0xA0 || n == 0x1680 || (0x2000 ≤ n && n ≤ 0x200A) ||
  n == 0x2028 || n == 0x2029 || n == 0x202F || n == 0x205F || n == 0x3000

/-- The function `strings.TrimSpace`: leading and trailing white space removed. -/
def TrimSpace (s : List Char) : List Char :=
  ((s.dropWhile isSpace).reverse.dropWhile isSpace).reverse

/-- The reflection view of a message that `Write` iterates over: for each field
in declaration order its name (`messageType.Field(i).Name`) and, unless the
field is zero (`fieldValue.IsZero()`), the result of `jsonEncoder.Encode` on it. -/
def Message.fields (lib : JsonLib) (message : Message) :
    List (String × Option (Except GoError (List Char))) :=
  [ ("ClientRequest", message.ClientRequest.map lib.encodeClientRequest),
    ("DeviceAdvertisement", message.DeviceAdvertisement.map lib.encodeDeviceAdvertisement),
    ("DeviceInformation", message.DeviceInformation.map lib.encodeDeviceInformation) ]

/-- The loop of `Write` over the fields, from field `i` on: `emptyObject` and
`builder` are the loop's variables. -/
def writeFields :
    List (String × Option (Except GoError (List Char))) → Bool → List Char →
      Except GoError (List Char)
  | [], _, builder => .ok builder
  | (_, none) :: rest, emptyObject, builder => writeFields rest emptyObject builder
  | (name, some encoded) :: rest, emptyObject, builder =>
    let builder := if !emptyObject then builder ++ [','] else builder
    let builder := builder ++ ['"'] ++ name.toList ++ ['"', ':']
    match encoded with
    | .error err => .error err
    | .ok jsonBuffer => writeFields rest false (builder ++ TrimSpace jsonBuffer)

/-- The method `MessageCoderStruct.Write`, up to the call that hands the text
to the gzip writer: the result is that text (`builder.String()`), or the error
returned early. -/
def MessageCoderStruct.Write (lib : JsonLib) (message : Message) : Except GoError (List Char) :=
  match writeFields (message.fields lib) true ['{'] with
  | .error err => .error err
  | .ok builder => .ok (builder ++ ['}'])

/-- White space between JSON tokens: space, tab, line feed, carriage return. -/
def isJsonSpace (c : Char) : Bool :=
  c == ' ' || c == '\t' || c == '\n' || c == '\r'

/-- Skip the white space before a JSON token. -/
def skipSpace (text : List Char) : List Char :=
  text.dropWhile isJsonSpace

/-- Scan an object key after its opening quote: the characters of the key and
the text after the closing quote. Keys with an escape sequence or a control
character are not decoded by this embedding (`none`). -/
def scanKey : List Char → Option (List Char × List Char)
  | [] => none
  | c :: rest =>
    if c = '"' then some ([], rest)
    else if c = '\\' ∨ c.toNat < 0x20 then none
    else match scanKey rest with
      | none => none
      | some (key, rest) => some (c :: key, rest)

/-- Case folding of a key character as far as it can reach an ASCII letter:
the two non-ASCII characters that fold to `s` and `k`, and ASCII upper case. -/
def foldChar (c : Char) : Char :=
  if c.toNat = 0x17F then 's' else if c.toNat = 0x212A then 'k' else c.toLower

/-- Field lookup of the decoder: a key names a field when it is the field's
name exactly or equals it under case folding. -/
def keyMatches (key : List Char) (name : String) : Bool :=
  key == name.toList || key.map foldChar == name.toList.map foldChar

/-- Decode the value at the head of `text` into the field of `message` that
`key` names; a key that names no field has its value skipped. -/
def decodeField (lib : JsonLib) (key : List Char) (text : List Char) (message : Message) :
    Option (Message × List Char) :=
  if keyMatches key "ClientRequest" then
    match lib.decodeClientRequest message.ClientRequest text with
    | none => none
    | some (v, rest) => some ({ message with ClientRequest := v }, rest)
  else if keyMatches key "DeviceAdvertisement" then
    match lib.decodeDeviceAdvertisement message.DeviceAdvertisement text with
    | none => none
    | some (v, rest) => some ({ message with DeviceAdvertisement := v }, rest)
  else if keyMatches key "DeviceInformation" then
    match lib.decodeDeviceInformation message.DeviceInformation text with
    | none => none
    | some (v, rest) => some ({ message with DeviceInformation := v }, rest)
  else
    match lib.skipValue text with
    | none => none
    | some rest => some (message, rest)

/-- Decode the members of an object, `text` standing at the opening quote of a
key; `fuel` bounds the number of members. The result is the message and the
text after the closing brace. -/
def decodeMembers (lib : JsonLib) : Nat → List Char → Message → Option (Message × List Char)
  | 0, _, _ => none
  | fuel + 1, text, message =>
    match text with
    | '"' :: afterQuote =>
      match scanKey afterQuote with
      | none => none
      | some (key, rest) =>
        match skipSpace rest with
        | ':' :: rest =>
          match decodeField lib key (skipSpace rest) message with
          | none => none
          | some (message, rest) =>
            match skipSpace rest with
            | ',' :: rest => decodeMembers lib fuel (skipSpace rest) message
            | '}' :: rest => some (message, rest)
            | _ => none
        | _ => none
    | _ => none

/-- The method `MessageCoderStruct.Read`, that is `jsonDecoder.Decode(&message)`
on a fresh zero message, applied to the decompressed stream: the next value of
the stream must be an object (or `null`); the result is the decoded message and
the rest of the stream, `none` for a decoding error. A member needs at least
one character, so the length of the stream is enough fuel. -/
def MessageCoderStruct.Read (lib : JsonLib) (stream : List Char) : Option (Message × List Char) :=
  match skipSpace stream with
  | '{' :: rest =>
    match skipSpace rest with
    | '}' :: rest => some (Message.zero, rest)
    | rest => decodeMembers lib rest.length rest Message.zero
  | 'n' :: 'u' :: 'l' :: 'l' :: rest => some (Message.zero, rest)
  | _ => none

/-! ### A concrete instance of the library interface

`plainJson` implements the interface for the part of JSON needed to evaluate the
coder on examples: strings whose characters are written verbatim, arrays of such
strings, `null`, and objects of these. Anything else is an error. -/

/-- Characters that the string encoder writes verbatim. -/
def isPlainChar (c : Char) : Bool :=
  0x20 ≤ c.toNat && c != '"' && c != '\\' && c != '<' && c != '>' && c != '&' &&
  c.toNat != 0x2028 && c.toNat != 0x2029

/-- Encode a string as a JSON string literal. -/
def plainString (s : String) : Except GoError (List Char) :=
  if s.toList.all isPlainChar then .ok (['"'] ++ s.toList ++ ['"'])
  else .error (.leaf "json: string outside the plain fragment")

/-- Encode a list of strings as a JSON array. -/
def plainArray : List String → Except GoError (List Char)
  | [] => .ok ['[', ']']
  | [s] => do
    let t ← plainString s
    pure (['['] ++ t ++ [']'])
  | s :: rest => do
    let t ← plainString s
    let ts ← plainArray rest
    pure (['['] ++ t ++ [','] ++ ts.drop 1)

/-- Render one object member, `"name":value`. -/
def plainMember (name : String) (value : List Char) : List Char :=
  ['"'] ++ name.toList ++ ['"', ':'] ++ value

/-- The values of the plain fragment. -/
inductive PlainValue where
  | null
  | str (s : List Char)
  | arr (items : List (List Char))
deriving DecidableEq, Repr

/-- Parse the items of an array of strings, `text` standing at the opening
quote of an item. -/
def parseItems : Nat → List Char → Option (List (List Char) × List Char)
  | 0, _ => none
  | fuel + 1, text =>
    match text with
    | '"' :: afterQuote =>
      match scanKey afterQuote with
      | none => none
      | some (item, rest) =>
        match skipSpace rest with
        | ',' :: rest =>
          match parseItems fuel (skipSpace rest) with
          | none => none
          | some (items, rest) => some (item :: items, rest)
        | ']' :: rest => some ([item], rest)
        | _ => none
    | _ => none

/-- Parse one value of the plain fragment. -/
def parseValue (text : List Char) : Option (PlainValue × List Char) :=
  match text with
  | 'n' :: 'u' :: 'l' :: 'l' :: rest => some (.null, rest)
  | '"' :: afterQuote =>
    match scanKey afterQuote with
    | none => none
    | some (s, rest) => some (.str s, rest)
  | '[' :: rest =>
    match skipSpace rest with
    | ']' :: rest => some (.arr [], rest)
    | rest =>
      match parseItems rest.length rest with
      | none => none
      | some (items, rest) => some (.arr items, rest)
  | _ => none

/-- Parse the members of an object of the plain fragment, `text` standing at
the opening quote of a key. -/
def parseMembers : Nat → List Char → Option (List (List Char × PlainValue) × List Char)
  | 0, _ => none
  | fuel + 1, text =>
    match text with
    | '"' :: afterQuote =>
      match scanKey afterQuote with
      | none => none
      | some (key, rest) =>
        match skipSpace rest with
        | ':' :: rest =>
          match parseValue (skipSpace rest) with
          | none => none
          | some (value, rest) =>
            match skipSpace rest with
            | ',' :: rest =>
              match parseMembers fuel (skipSpace rest) with
              | none => none
              | some (members, rest) => some ((key, value) :: members, rest)
            | '}' :: rest => some ([(key, value)], rest)
            | _ => none
        | _ => none
    | _ => none

/-- Parse a value into a pointer to a struct: `null` gives `none`, an object
gives the list of its members. -/
def parseStruct (text : List Char) :
    Option (Option (List (List Char × PlainValue)) × List Char) :=
  match text with
  | 'n' :: 'u' :: 'l' :: 'l' :: rest => some (none, rest)
  | '{' :: rest =>
    match skipSpace rest with
    | '}' :: rest => some (some [], rest)
    | rest =>
      match parseMembers rest.length rest with
      | none => none
      | some (members, rest) => some (some members, rest)
  | _ => none

/-- Store a string member into the field it names, with `set`. -/
def setString {α : Type} (value : PlainValue) (v : α) (set : α → String → α) : Option α :=
  match value with
  | .str s => some (set v (String.mk s))
  | .null => some v
  | .arr _ => none

/-- Store the decoded members into a client request. -/
def fillClientRequest :
    List (List Char × PlainValue) → ClientRequestMessage → Option ClientRequestMessage
  | [], v => some v
  | (key, value) :: rest, v =>
    if keyMatches key "Request" then
      match setString value v (fun v s => { v with Request := s }) with
      | none => none
      | some v => fillClientRequest rest v
    else if keyMatches key "Parameters" then
      match value with
      | .arr items => fillClientRequest rest { v with Parameters := items.map String.mk }
      | .null => fillClientRequest rest { v with Parameters := [] }
      | .str _ => none
    else fillClientRequest rest v

/-- Store the decoded members into a device advertisement. -/
def fillDeviceAdvertisement :
    List (List Char × PlainValue) → DeviceAdvertisementMessage →
      Option DeviceAdvertisementMessage
  | [], v => some v
  | (key, value) :: rest, v =>
    if keyMatches key "Group" then
      match setString value v (fun v s => { v with Group := s }) with
      | none => none
      | some v => fillDeviceAdvertisement rest v
    else if keyMatches key "DeviceName" then
      match setString value v (fun v s => { v with DeviceName := s }) with
      | none => none
      | some v => fillDeviceAdvertisement rest v
    else if keyMatches key "HostName" then
      match setString value v (fun v s => { v with HostName := s }) with
      | none => none
      | some v => fillDeviceAdvertisement rest v
    else fillDeviceAdvertisement rest v

/-- Store the decoded members into a device information; only an empty list of
network interfaces is in the plain fragment. -/
def fillDeviceInformation :
    List (List Char × PlainValue) → DeviceInformationMessage →
      Option DeviceInformationMessage
  | [], v => some v
  | (key, value) :: rest, v =>
    if keyMatches key "Group" then
      match setString value v (fun v s => { v with Group := s }) with
      | none => none
      | some v => fillDeviceInformation rest v
    else if keyMatches key "DeviceName" then
      match setString value v (fun v s => { v with DeviceName := s }) with
      | none => none
      | some v => fillDeviceInformation rest v
    else if keyMatches key "HostName" then
      match setString value v (fun v s => { v with HostName := s }) with
      | none => none
      | some v => fillDeviceInformation rest v
    else if keyMatches key "OperatingSystem" then
      match setString value v (fun v s => { v with OperatingSystem := s }) with
      | none => none
      | some v => fillDeviceInformation rest v
    else if keyMatches key "NetworkInterfaces" then
      match value with
      | .arr [] => fillDeviceInformation rest { v with NetworkInterfaces := [] }
      | .null => fillDeviceInformation rest { v with NetworkInterfaces := [] }
      | _ => none
    else fillDeviceInformation rest v

/-- Decode into a pointer field: `null` sets it to nil, an object is decoded
into the struct already there or into a new zero struct. -/
def decodePointer {α : Type} (zero : α)
    (fill : List (List Char × PlainValue) → α → Option α)
    (cur : Option α) (text : List Char) : Option (Option α × List Char) :=
  match parseStruct text with
  | none => none
  | some (none, rest) => some (none, rest)
  | some (some members, rest) =>
    match fill members (cur.getD zero) with
    | none => none
    | some v => some (some v, rest)

/-- The plain fragment as an instance of the library interface. `Encode` ends
its output with a line feed. -/
def plainJson : JsonLib where
  encodeClientRequest v := do
    let request ← plainString v.Request
    let parameters ← plainArray v.Parameters
    pure (['{'] ++ plainMember "Request" request ++ [','] ++
      plainMember "Parameters" parameters ++ ['}', '\n'])
  encodeDeviceAdvertisement v := do
    let group ← plainString v.Group
    let deviceName ← plainString v.DeviceName
    let hostName ← plainString v.HostName
    pure (['{'] ++ plainMember "Group" group ++ [','] ++
      plainMember "DeviceName" deviceName ++ [','] ++
      plainMember "HostName" hostName ++ ['}', '\n'])
  encodeDeviceInformation v := do
    let group ← plainString v.Group
    let deviceName ← plainString v.DeviceName
    let hostName ← plainString v.HostName
    let operatingSystem ← plainString v.OperatingSystem
    if v.NetworkInterfaces.isEmpty then
      pure (['{'] ++ plainMember "Group" group ++ [','] ++
        plainMember "DeviceName" deviceName ++ [','] ++
        plainMember "HostName" hostName ++ [','] ++
        plainMember "OperatingSystem" operatingSystem ++ [','] ++
        plainMember "NetworkInterfaces" ['[', ']'] ++ ['}', '\n'])
    else .error (.leaf "json: network interfaces outside the plain fragment")
  decodeClientRequest := decodePointer ⟨"", []⟩ fillClientRequest
  decodeDeviceAdvertisement := decodePointer ⟨"", "", ""⟩ fillDeviceAdvertisement
  decodeDeviceInformation := decodePointer ⟨"", "", "", "", []⟩ fillDeviceInformation
  skipValue text :=
    match parseValue text with
    | some (_, rest) => some rest
    | none =>
      match parseStruct text with
      | some (_, rest) => some rest
      | none => none

/-- The advertisement of the specification's scenario. -/
def deskAdvertisement : Message :=
  { ClientRequest := none
    DeviceAdvertisement := some { Group := "", DeviceName := "desk1", HostName := "desk1" }
    DeviceInformation := none }


/-! ## conf/conf.go -/

/-- General configuration values for all commands. `Port` is a `uint32`. -/
structure GeneralConfig where
  MulticastIP4 : String := ""
  MulticastIP6 : String := ""
  InterfaceIP6 : String := ""
  Port : Nat := 0
  URL : String := ""
  Username : String := ""
  Password : String := ""
  Interactive : Bool := false
deriving DecidableEq, Repr

/-- Configuration of the command `advertise`; `Interval` counts seconds. -/
structure AdvertiseConfig where
  Respond : Bool := false
  Multicast : Bool := false
  Registry : Bool := false
  Interval : Nat := 0
  Group : String := ""
  DeviceName : String := ""
  SecretKey : String := ""
  AuthKey : String := ""
deriving DecidableEq, Repr

/-- The central program configuration (the parts read by `fmd/msg` and by the
command `advertise`); the default of every field is Go's zero value. -/
structure Config where
  General : GeneralConfig := {}
  Advertise : AdvertiseConfig := {}
deriving DecidableEq, Repr

/-! ## msg/connections.go -/

/-- An opened endpoint (a `net.PacketConn` held by the multiplexer) as far as
the multiplexer uses it. Its behaviour is a parameter: `writes` lists the
results of the successive calls of its `Write`, each the number of bytes it
accepts of the bytes offered and the error it reports (a call beyond the list
never returns); `close` is the result of its `Close`. -/
structure Conn where
  LocalAddr : String
  writes : List (Nat × Option GoError) := []
  close : Option GoError := none
deriving DecidableEq, Repr

/-- The explicit state of the multiplexer: the endpoints, the flag `started`
and the map `notify` from an endpoint to its cancel channel. An endpoint is
identified by its index in `connections` (every opened connection is an object
of its own), a channel by the number it was made under. -/
structure ConnectionsStruct where
  connections : List Conn := []
  started : Bool := false
  notify : List (Nat × Nat) := []
deriving DecidableEq, Repr

/-- Concurrent `Write()`: written number of bytes and last error. -/
structure writeResult where
  n : Nat := 0
  err : Option GoError := none
deriving DecidableEq, Repr

/-- The struct `net.UDPAddr`. -/
structure UDPAddr where
  IP : String
  Port : Nat
  Zone : String := ""
deriving DecidableEq, Repr

/-- The environment of `DialMulticast`: the results of the calls into package
`net` (network `"udp"`, no local address). -/
structure Net where
  ResolveUDPAddr : String → Except GoError UDPAddr
  DialUDP : UDPAddr → Except GoError Conn
  Interfaces : Except GoError (List Interface)

/-- A call into package `net` made by `DialMulticast`. -/
inductive NetCall where
  | ResolveUDPAddr (address : String)
  | DialUDP (raddr : UDPAddr)
  | Interfaces
deriving DecidableEq, Repr

/-- Check, if the configuration allows dialling at least one address. -/
def ValidateConfig (config : Config) : Option GoError :=
  if config.General.MulticastIP4 = "" ∧ config.General.MulticastIP6 = "" then
    some (.leaf "Neither IPv4 nor IPv6 multicast address has been defined")
  else if config.General.Port = 0 then
    some (.leaf "No UDP port number has been defined")
  else none

/-- The body shared by both loops of `DialMulticast`: resolve `addr`, dial it,
append the connection; a failure of either call continues with the next
iteration. The state is the connections opened and the calls made so far. -/
def dialAddr (net : Net) (addr : String) (st : List Conn × List NetCall) :
    List Conn × List NetCall :=
  match net.ResolveUDPAddr addr with
  | .error _ => (st.1, st.2 ++ [.ResolveUDPAddr addr])
  | .ok UDPAddr =>
    match net.DialUDP UDPAddr with
    | .error _ => (st.1, st.2 ++ [.ResolveUDPAddr addr, .DialUDP UDPAddr])
    | .ok conn => (st.1 ++ [conn], st.2 ++ [.ResolveUDPAddr addr, .DialUDP UDPAddr])

/-- The target `fmt.Sprintf("%v:%v", MulticastIP4, Port)`. -/
def addrIP4 (config : Config) : String :=
  config.General.MulticastIP4 ++ ":" ++ toString config.General.Port

/-- The target `fmt.Sprintf("[%v%%%v]:%v", MulticastIP6, netInterface.Name, Port)`. -/
def addrIP6 (config : Config) (name : String) : String :=
  "[" ++ config.General.MulticastIP6 ++ "%" ++ name ++ "]:" ++ toString config.General.Port

/-- The loop of `DialMulticast` over the network interfaces. -/
def dialInterfaces (config : Config) (net : Net) (allowedInterfaces : List String) :
    List Interface → List Conn × List NetCall → List Conn × List NetCall
  | [], st => st
  | netInterface :: rest, st =>
    if netInterface.Flags &&& FlagUp = 0 then
      dialInterfaces config net allowedInterfaces rest st
    else if netInterface.Flags &&& FlagMulticast = 0 then
      dialInterfaces config net allowedInterfaces rest st
    else if allowedInterfaces.length > 0 ∧ ¬ allowedInterfaces.contains netInterface.Name then
      dialInterfaces config net allowedInterfaces rest st
    else
      dialInterfaces config net allowedInterfaces rest
        (dialAddr net (addrIP6 config netInterface.Name) st)

/-- The end of `DialMulticast`: an error when no connection was opened. -/
def dialResult (st : List Conn × List NetCall) :
    Except GoError ConnectionsStruct × List NetCall :=
  if st.1.length = 0 then (.error (.leaf "Unable to dial any address"), st.2)
  else (.ok { connections := st.1, started := false }, st.2)

/-- Dial all IPv4 and IPv6 multicast addresses from global config. The result
is what the function returns, together with the calls into package `net` it
made, in order. The value of `strings.Split` is discarded by the source, so
`allowedInterfaces` stays the empty slice it was made as. -/
def DialMulticast (config : Config) (net : Net) :
    Except GoError ConnectionsStruct × List NetCall :=
  let st : List Conn × List NetCall := ([], [])
  let st :=
    if config.General.MulticastIP4 ≠ "" then dialAddr net (addrIP4 config) st else st
  if config.General.MulticastIP6 ≠ "" then
    let allowedInterfaces : List String := []
    let _discarded :=
      if config.General.InterfaceIP6.contains ',' then config.General.InterfaceIP6.splitOn ","
      else []
    match net.Interfaces with
    | .error err => (.error err, st.2 ++ [.Interfaces])
    | .ok netInterfaces =>
      dialResult (dialInterfaces config net allowedInterfaces netInterfaces
        (st.1, st.2 ++ [.Interfaces]))
  else dialResult st

/-- The loop of one goroutine of `Write` on the remaining results of its
connection: every call offers the whole of `b`. The result is what the
goroutine sends to the channel (`none` when a call never returns) and the bytes
the connection has accepted. -/
def writeLoop (b : List UInt8) :
    List (Nat × Option GoError) → writeResult → List UInt8 → Option writeResult × List UInt8
  | [], result, accepted =>
    if result.n < b.length then (none, accepted) else (some result, accepted)
  | (n1, err1) :: script, result, accepted =>
    if result.n < b.length then
      let result := { result with n := result.n + n1 }
      let accepted := accepted ++ b.take n1
      match err1 with
      | some e => (some { result with err := some e }, accepted)
      | none => writeLoop b script result accepted
    else (some result, accepted)

/-- The goroutine `Write` starts for one connection. -/
def writeGoroutine (b : List UInt8) (connection : Conn) : Option writeResult × List UInt8 :=
  writeLoop b connection.writes {} []

/-- Wrap multiple connection errors by added newErr to oldErr.
oldErr can be nil, if there is no previous error. -/
def wrapError (conn : Conn) (err : Option GoError) (add : GoError) : GoError :=
  match err with
  | none => .leaf (conn.LocalAddr ++ " - " ++ add.Error)
  | some err => .wrap (err.Error ++ "; " ++ conn.LocalAddr ++ " - " ++ add.Error) err

/-- The second loop of `Write`: the connections in list order, each paired with
the result received from the channel in that iteration. The comparison with `n`
assigns to `result.n`. -/
def collectResults : List (Conn × writeResult) → Nat → Option GoError → Nat × Option GoError
  | [], n, err => (n, err)
  | (connection, result) :: rest, n, err =>
    let result := if result.n > n then { result with n := n } else result
    match result.err with
    | some err1 => collectResults rest n (some (wrapError connection err err1))
    | none => collectResults rest n err

/-- The results in the order the channel delivers them: `order` lists the
indices of the connections in the order their goroutines send. -/
def arrivedResults (this : ConnectionsStruct) (b : List UInt8) (order : List Nat) :
    List writeResult :=
  order.filterMap (fun i =>
    match this.connections.get? i with
    | none => none
    | some connection => (writeGoroutine b connection).1)

/-- Write data to all connections. `order` is the order in which the goroutines
deliver their results; every goroutine writes to the connection of its own
iteration. The result is `(n, err)`, or `none` when the call never returns
because a result is missing. -/
def ConnectionsStruct.Write (this : ConnectionsStruct) (b : List UInt8) (order : List Nat) :
    Option (Nat × Option GoError) :=
  let results := arrivedResults this b order
  if results.length < this.connections.length then none
  else some (collectResults (this.connections.zip results) 0 none)

/-- The bytes each connection has accepted during one `Write(b)`, in list order. -/
def ConnectionsStruct.accepted (this : ConnectionsStruct) (b : List UInt8) :
    List (List UInt8) :=
  this.connections.map (fun connection => (writeGoroutine b connection).2)

/-- The per-connection counts of bytes written, in list order (`none` for a
goroutine that never finishes). -/
def ConnectionsStruct.counts (this : ConnectionsStruct) (b : List UInt8) :
    List (Option Nat) :=
  this.connections.map (fun connection => (writeGoroutine b connection).1.map (·.n))

/-! ### Example data for the connection multiplexer -/

/-- The loopback interface: up and running, not multicast-capable. -/
def ifLo : Interface := { Index := 1, MTU := 65536, Name := "lo", HardwareAddr := [], Flags := 37 }

/-- A wired interface: up, broadcast, multicast, running. -/
def ifEth0 : Interface :=
  { Index := 2, MTU := 1500, Name := "eth0", HardwareAddr := [2, 0, 0, 0, 0, 1], Flags := 51 }

/-- A wireless interface: up, broadcast, multicast, running. -/
def ifWlan0 : Interface :=
  { Index := 3, MTU := 1500, Name := "wlan0", HardwareAddr := [2, 0, 0, 0, 0, 2], Flags := 51 }

/-- A network on which the multicast addresses of the configuration resolve and
every dial succeeds; the host has the interfaces `lo`, `eth0` and `wlan0`. -/
def lanNet : Net where
  ResolveUDPAddr address :=
    if address = "224.0.0.1:54321" then .ok { IP := "224.0.0.1", Port := 54321 }
    else if address = "224.0.0.1:0" then .ok { IP := "224.0.0.1", Port := 0 }
    else if address = "[ff02::1%eth0]:54321" then
      .ok { IP := "ff02::1", Port := 54321, Zone := "eth0" }
    else if address = "[ff02::1%wlan0]:54321" then
      .ok { IP := "ff02::1", Port := 54321, Zone := "wlan0" }
    else .error (.leaf ("address " ++ address ++ ": no such host"))
  DialUDP raddr :=
    if raddr.Zone = "" then .ok { LocalAddr := "192.168.1.5:40000" }
    else .ok { LocalAddr := "[fe80::1%" ++ raddr.Zone ++ "]:40000" }
  Interfaces := .ok [ifLo, ifEth0, ifWlan0]

/-- The network `lanNet` on a host where the interfaces cannot be enumerated. -/
def lanNetNoInterfaces : Net :=
  { lanNet with Interfaces := .error (.leaf "route ip+net: netlinkrib: permission denied") }

/-- The configuration of the specification's scenario: IPv4 only. -/
def configIP4 : Config :=
  { General := { MulticastIP4 := "224.0.0.1", MulticastIP6 := "", Port := 54321 } }

/-- The configuration that `main` sets up. -/
def configMain : Config :=
  { General := { MulticastIP4 := "224.0.0.1", MulticastIP6 := "ff02::1", Port := 54321 },
    Advertise := { Respond := true, Multicast := true, Interval := 15 } }

/-- An IPv4 configuration without a port. -/
def configPortZero : Config :=
  { General := { MulticastIP4 := "224.0.0.1", MulticastIP6 := "", Port := 0 } }

/-- An IPv6 configuration with an allow-list that does not name `wlan0`. -/
def configAllowList : Config :=
  { General := { MulticastIP4 := "", MulticastIP6 := "ff02::1", InterfaceIP6 := "eth0,eth1",
                 Port := 54321 } }

/-- An endpoint that accepts three bytes in one write. -/
def connOk : Conn := { LocalAddr := "192.168.1.5:40000", writes := [(3, none)] }

/-- A second endpoint that accepts three bytes in one write. -/
def connOk6 : Conn := { LocalAddr := "[fe80::1%wlan0]:40002", writes := [(3, none)] }

/-- An endpoint whose write fails. -/
def connFailing : Conn :=
  { LocalAddr := "[fe80::1%eth0]:40001",
    writes := [(0, some (.leaf "write: network is unreachable"))] }

/-- An endpoint that accepts one byte per write. -/
def connPartial : Conn := { LocalAddr := "192.168.1.5:40000", writes := [(1, none), (1, none)] }

/-- The connections opened by the dial calls among `calls`. -/
def opened (net : Net) (calls : List NetCall) : List Conn :=
  calls.filterMap (fun call =>
    match call with
    | .DialUDP raddr => (net.DialUDP raddr).toOption
    | _ => none)

/-- The calls of one dial attempt to `addr`: the resolution, and the dial if
the address resolved. -/
def attemptCalls (net : Net) (addr : String) : List NetCall :=
  .ResolveUDPAddr addr ::
    (match net.ResolveUDPAddr addr with
      | .ok raddr => [.DialUDP raddr]
      | .error _ => [])

/-- The endpoint one dial attempt to `addr` opens, if any. -/
def attemptConns (net : Net) (addr : String) : List Conn :=
  match net.ResolveUDPAddr addr with
  | .error _ => []
  | .ok raddr =>
    match net.DialUDP raddr with
    | .error _ => []
    | .ok conn => [conn]

/-- The configuration with the IPv4 multicast address removed. -/
def Config.withoutIP4 (config : Config) : Config :=
  { config with General := { config.General with MulticastIP4 := "" } }

/-! ### Specification-side definitions for the coder -/

/-- The library returns a payload it has encoded: `Encode` succeeds on `v`, and
the decoder, started with a nil field on the trimmed output followed by `tail`,
returns `v` and stops at `tail`. -/
def roundTrips {α : Type} [DecidableEq α] (encode : α → Except GoError (List Char))
    (decode : Option α → List Char → Option (Option α × List Char))
    (v : α) (tail : List Char) : Bool :=
  match encode v with
  | .error _ => false
  | .ok t => decode none (TrimSpace t ++ tail) == some (some v, tail)

/-- The library returns each populated payload of the message. -/
def JsonLib.roundTripsMessage (lib : JsonLib) (m : Message) (tail : List Char) : Bool :=
  (match m.ClientRequest with
    | none => true
    | some v => roundTrips lib.encodeClientRequest lib.decodeClientRequest v tail) &&
  (match m.DeviceAdvertisement with
    | none => true
    | some v => roundTrips lib.encodeDeviceAdvertisement lib.decodeDeviceAdvertisement v tail) &&
  (match m.DeviceInformation with
    | none => true
    | some v => roundTrips lib.encodeDeviceInformation lib.decodeDeviceInformation v tail)

/-- The members of the sparse object as the specification words them: one per
non-empty variant, in field order, keyed by the variant's name, the value being
the library's encoding of that variant. -/
def sparseMembers (lib : JsonLib) (m : Message) : List (String × Except GoError (List Char)) :=
  (match m.ClientRequest with
    | none => []
    | some v => [("ClientRequest", lib.encodeClientRequest v)]) ++
  (match m.DeviceAdvertisement with
    | none => []
    | some v => [("DeviceAdvertisement", lib.encodeDeviceAdvertisement v)]) ++
  (match m.DeviceInformation with
    | none => []
    | some v => [("DeviceInformation", lib.encodeDeviceInformation v)])

/-- The member texts `"key":value`, the value trimmed; the first encoding error
ends the list. -/
def memberTexts : List (String × Except GoError (List Char)) → Except GoError (List (List Char))
  | [] => .ok []
  | (_, .error err) :: _ => .error err
  | (key, .ok value) :: rest =>
    match memberTexts rest with
    | .error err => .error err
    | .ok texts => .ok ((['"'] ++ key.toList ++ ['"', ':'] ++ TrimSpace value) :: texts)

/-- Join texts with commas. -/
def commaJoin : List (List Char) → List Char
  | [] => []
  | [t] => t
  | t :: rest => t ++ [','] ++ commaJoin rest

/-- The text of the sparse object: the member texts, comma separated, in braces. -/
def sparseObject (lib : JsonLib) (m : Message) : Except GoError (List Char) :=
  match memberTexts (sparseMembers lib m) with
  | .error err => .error err
  | .ok texts => .ok (['{'] ++ commaJoin texts ++ ['}'])

/-! ### The coder with its optional sides (msg/encoder.go) -/

/-- The outcome of a call that may end in a run-time panic instead of
returning. -/
inductive Outcome (α : Type) where
  | returned (value : α)
  | panic (msg : String)
deriving DecidableEq, Repr

/-- The message of the panic raised by a method call through a nil pointer. -/
def nilDereference : String :=
  "runtime error: invalid memory address or nil pointer dereference"

/-- The read side of a coder: the gzip reader with the JSON decoder on it.
`stream` is the decompressed text not yet decoded, `closeErr` what its `Close`
returns, `closeCalled` whether `Close` has been called on it. -/
structure GzipReader where
  stream : List Char := []
  closeErr : Option GoError := none
  closeCalled : Bool := false
deriving DecidableEq, Repr

/-- The write side of a coder: the gzip writer. `written` is the text handed to
it so far, `writeErr` what its `Write` returns, `closeErr` what its `Close`
returns, `closeCalled` whether `Close` has been called on it. -/
structure GzipWriter where
  written : List Char := []
  writeErr : Option GoError := none
  closeErr : Option GoError := none
  closeCalled : Bool := false
deriving DecidableEq, Repr

/-- The struct behind a `MessageCoder`. `jsonDecoder` is non-nil exactly when
`gzipReader` is, `jsonEncoder` exactly when `gzipWriter` is; `none` is nil. -/
structure MessageCoderStruct where
  gzipReader : Option GzipReader := none
  gzipWriter : Option GzipWriter := none
deriving DecidableEq, Repr

/-- Create new message encoder/decoder instance. `reader` is nil or the result
of `gzip.NewReader` on the reader given, `writer` is nil or the gzip writer made
for the writer given. -/
def NewMessageCoder (reader : Option (Except GoError GzipReader)) (writer : Option GzipWriter) :
    Except GoError MessageCoderStruct :=
  match reader with
  | some (.error err) => .error err
  | some (.ok gzipReader) => .ok { gzipReader := some gzipReader, gzipWriter := writer }
  | none => .ok { gzipReader := none, gzipWriter := writer }

/-- The call `Write(message)` on a coder. Without a write side `jsonEncoder`
and `gzipWriter` are nil: the first use of either, `jsonEncoder.Encode` for a
message with a non-zero field and `io.WriteString(gzipWriter, ...)` otherwise,
is a method call through a nil pointer. -/
def MessageCoder.Write (lib : JsonLib) (this : MessageCoderStruct) (message : Message) :
    Outcome (Option GoError × MessageCoderStruct) :=
  match this.gzipWriter with
  | none => .panic nilDereference
  | some gzipWriter =>
    match MessageCoderStruct.Write lib message with
    | .error err => .returned (some err, this)
    | .ok text =>
      match gzipWriter.writeErr with
      | some err => .returned (some err, this)
      | none =>
        .returned (none,
          { this with
            gzipWriter := some { gzipWriter with written := gzipWriter.written ++ text } })

/-- The call `Read()` on a coder: the message decoded, or `none` for the error
the decoder returns. Without a read side `jsonDecoder` is nil and
`jsonDecoder.Decode` is a method call through a nil pointer. -/
def MessageCoder.Read (lib : JsonLib) (this : MessageCoderStruct) :
    Outcome (Option Message × MessageCoderStruct) :=
  match this.gzipReader with
  | none => .panic nilDereference
  | some gzipReader =>
    match MessageCoderStruct.Read lib gzipReader.stream with
    | none => .returned (none, this)
    | some (message, rest) =>
      .returned (some message, { this with gzipReader := some { gzipReader with stream := rest } })

/-- The second half of `Close`: the gzip writer, if present. -/
def closeWriter (this : MessageCoderStruct) : Option GoError × MessageCoderStruct :=
  match this.gzipWriter with
  | some gzipWriter =>
    (gzipWriter.closeErr, { this with gzipWriter := some { gzipWriter with closeCalled := true } })
  | none => (none, this)

/-- Close internal readers and writers: the error returned and the coder
afterwards. An error of the gzip reader's `Close` is returned at once. -/
def MessageCoder.Close (this : MessageCoderStruct) : Option GoError × MessageCoderStruct :=
  match this.gzipReader with
  | some gzipReader =>
    let this := { this with gzipReader := some { gzipReader with closeCalled := true } }
    match gzipReader.closeErr with
    | some err => (some err, this)
    | none => closeWriter this
  | none => closeWriter this

/-! ### The lifecycle of the multiplexer (msg/connections.go) -/

/-- A polling goroutine launched by `Start`. The closure takes no argument: it
holds the channel `notify` made in the iteration that launched it, `launched`
being the index of that iteration, and it refers to the range variable
`connection` of the loop, which it reads whenever it runs. -/
structure PollTask where
  launched : Nat
  notify : Nat
deriving DecidableEq, Repr

/-- The endpoint a goroutine finds in the range variable `connection` when it
reads the variable while the loop of `Start` stands at the index `position`
(after the loop: at the last index). Where every iteration has a variable of its
own (the language from Go 1.22 on) that is the endpoint of the iteration that
launched the goroutine; where one variable serves the whole loop (the language
before Go 1.22) it is the endpoint the loop stands at. -/
def PollTask.connection (task : PollTask) (perIteration : Bool) (position : Nat) : Nat :=
  if perIteration then task.launched else position

/-- The assignment `m[key] = value` on a map kept as a list of entries. -/
def mapSet : List (Nat × Nat) → Nat → Nat → List (Nat × Nat)
  | [], key, value => [(key, value)]
  | (k, v) :: rest, key, value =>
    if k = key then (key, value) :: rest else (k, v) :: mapSet rest key value

/-- The lookup `m[key]` on a map kept as a list of entries. -/
def mapGet : List (Nat × Nat) → Nat → Option Nat
  | [], _ => none
  | (k, v) :: rest, key => if k = key then some v else mapGet rest key

/-- The loop of `Start` over the connections, standing at the endpoint with
index `i`; `fresh` numbers the next channel made. Each iteration makes a
channel, records it in `notify` under the endpoint of the iteration and launches
a goroutine that holds the channel and refers to the range variable. -/
def startLoop :
    List Conn → Nat → Nat → List (Nat × Nat) → List PollTask →
      List (Nat × Nat) × List PollTask
  | [], _, _, notify, tasks => (notify, tasks)
  | _ :: rest, i, fresh, notify, tasks =>
    startLoop rest (i + 1) (fresh + 1) (mapSet notify i fresh)
      (tasks ++ [{ launched := i, notify := fresh }])

/-- Listen for incoming data: the multiplexer afterwards and the goroutines
launched. `fresh` numbers the first channel made. -/
def ConnectionsStruct.Start (this : ConnectionsStruct) (fresh : Nat) :
    ConnectionsStruct × List PollTask :=
  if this.started then (this, [])
  else
    let r := startLoop this.connections 0 fresh this.notify []
    ({ this with started := true, notify := r.1 }, r.2)

/-- Stop listening for incoming data, as far as the explicit state goes: the
multiplexer afterwards and the channels on which `"quit"` is sent (Go leaves the
order of a map's entries open; they are listed in the order of the entries).
Whether the sends can complete is the subject of `Step` below. -/
def ConnectionsStruct.Stop (this : ConnectionsStruct) : ConnectionsStruct × List Nat :=
  if !this.started then (this, [])
  else ({ this with started := false }, this.notify.map (fun entry => entry.2))

/-- Concurrent Read: Channel with available data or error. The connection is
given by its index. -/
structure ReadResult where
  Connection : Nat
  Error : Option GoError
deriving DecidableEq, Repr

/-- What one iteration of the polling loop does: whether it called `ReadFrom`,
the events it sent to the channel `read`, and whether the loop goes on. -/
structure PollStep where
  received : Bool
  events : List ReadResult
  continues : Bool
deriving DecidableEq, Repr

/-- One iteration of the polling goroutine of `connection`. Its inputs are the
results of the calls it makes: `deadline` of `SetReadDeadline`, `pending` the
message waiting on its channel `notify` at the `select` (`none` takes the
default case), `readFrom` of `ReadFrom`; `isDeadlineExceeded err` is
`errors.Is(err, os.ErrDeadlineExceeded)`. -/
def pollIteration (isDeadlineExceeded : GoError → Bool) (connection : Nat)
    (deadline : Option GoError) (pending : Option String) (readFrom : Option GoError) :
    PollStep :=
  let action : String := match pending with
    | some message => message
    | none => "read"
  if deadline = none ∧ action = "quit" then
    { received := false, events := [], continues := false }
  else
    let err : Option GoError := if deadline = none then readFrom else deadline
    let received : Bool := decide (deadline = none)
    match err with
    | none =>
      { received := received, events := [{ Connection := connection, Error := none }],
        continues := true }
    | some err =>
      if !isDeadlineExceeded err then
        { received := received, events := [{ Connection := connection, Error := some err }],
          continues := false }
      else { received := received, events := [], continues := true }

/-- The inputs of one iteration of a polling goroutine. -/
structure PollInput where
  deadline : Option GoError := none
  pending : Option String := none
  readFrom : Option GoError := none
deriving DecidableEq, Repr

/-- The events a polling goroutine sends over the iterations whose inputs are
given, until it terminates. -/
def pollTask (isDeadlineExceeded : GoError → Bool) (connection : Nat) :
    List PollInput → List ReadResult
  | [] => []
  | input :: rest =>
    let step := pollIteration isDeadlineExceeded connection input.deadline input.pending
      input.readFrom
    step.events ++ (if step.continues then pollTask isDeadlineExceeded connection rest else [])

/-- Where a polling goroutine stands: before `SetReadDeadline`, at the
`select`, in `ReadFrom`, at the send of an event to the channel `read` (with
whether the loop goes on after it), or terminated. -/
inductive TaskPc where
  | arm
  | select
  | recv
  | emit (event : ReadResult) (continues : Bool)
  | done
deriving DecidableEq, Repr

/-- A started multiplexer at run time. Goroutine `i` polls endpoint `i` and owns
cancel channel `i`. `stop` is `none` while `Stop` has not been called, and
otherwise lists the channels on which `Stop` has still to send `"quit"` (it is
blocked in the send on the first of them; with none left it has returned).
`consumerReads` says whether a consumer is receiving from the channel `read`;
`delivered` are the events it has received. -/
structure Sys where
  tasks : List TaskPc
  stop : Option (List Nat) := none
  consumerReads : Bool := true
  delivered : List ReadResult := []
deriving DecidableEq, Repr

/-- The steps of a started multiplexer. A send on an unbuffered channel and the
matching receive happen together: `quit` is the send of `Stop` on channel `i`
meeting the `select` of goroutine `i`, `deliver` the send of an event meeting a
reading consumer. The `select` takes its default case only when no message is
offered on the channel. -/
inductive Step (isDeadlineExceeded : GoError → Bool) : Sys → Sys → Prop where
  | armed (s : Sys) (i : Nat) :
      s.tasks.get? i = some .arm →
      Step isDeadlineExceeded s { s with tasks := s.tasks.set i .select }
  | armFailed (s : Sys) (i : Nat) (err : GoError) :
      s.tasks.get? i = some .arm →
      Step isDeadlineExceeded s
        { s with
          tasks :=
            s.tasks.set i (if isDeadlineExceeded err then .arm else .emit ⟨i, some err⟩ false) }
  | quit (s : Sys) (i : Nat) (rest : List Nat) :
      s.tasks.get? i = some .select → s.stop = some (i :: rest) →
      Step isDeadlineExceeded s { s with tasks := s.tasks.set i .done, stop := some rest }
  | read (s : Sys) (i : Nat) :
      s.tasks.get? i = some .select → (∀ rest, s.stop ≠ some (i :: rest)) →
      Step isDeadlineExceeded s { s with tasks := s.tasks.set i .recv }
  | received (s : Sys) (i : Nat) :
      s.tasks.get? i = some .recv →
      Step isDeadlineExceeded s { s with tasks := s.tasks.set i (.emit ⟨i, none⟩ true) }
  | failed (s : Sys) (i : Nat) (err : GoError) :
      s.tasks.get? i = some .recv →
      Step isDeadlineExceeded s
        { s with
          tasks :=
            s.tasks.set i (if isDeadlineExceeded err then .arm else .emit ⟨i, some err⟩ false) }
  | deliver (s : Sys) (i : Nat) (event : ReadResult) (continues : Bool) :
      s.tasks.get? i = some (.emit event continues) → s.consumerReads = true →
      Step isDeadlineExceeded s
        { s with tasks := s.tasks.set i (if continues then .arm else .done),
                 delivered := s.delivered ++ [event] }
  | stopCalled (s : Sys) :
      s.stop = none →
      Step isDeadlineExceeded s { s with stop := some (List.range s.tasks.length) }

/-- The states a started multiplexer can reach from `s`. -/
def Reachable (isDeadlineExceeded : GoError → Bool) (s s' : Sys) : Prop :=
  Relation.ReflTransGen (Step isDeadlineExceeded) s s'

/-- The multiplexer right after `Start`: every goroutine at the top of its
loop. -/
def Sys.started (endpoints : Nat) (consumerReads : Bool) : Sys :=
  { tasks := List.replicate endpoints .arm, consumerReads := consumerReads }

/-- The call of `Stop` has returned. -/
def Sys.stopReturned (s : Sys) : Bool :=
  s.stop == some []

/-- The error of a receive on a connection that the peer refuses. -/
def errRefused : GoError := .leaf "read: connection refused"

/-- An instance of `errors.Is(err, os.ErrDeadlineExceeded)`: only the error
`i/o timeout` is a deadline error. -/
def timeoutOnly (err : GoError) : Bool :=
  decide (err = .leaf "i/o timeout")

/-- One endpoint whose goroutine has terminated after a failed receive, the
consumer has taken the error event, and `Stop` is sending `"quit"`. -/
def sysTerminated : Sys :=
  { tasks := [.done], stop := some [0], consumerReads := true,
    delivered := [{ Connection := 0, Error := some errRefused }] }

/-- One endpoint whose goroutine is handing a success event to a consumer that
does not read, and `Stop` is sending `"quit"`. -/
def sysBlocked : Sys :=
  { tasks := [.emit { Connection := 0, Error := none } true], stop := some [0],
    consumerReads := false }

/-! ## str/str.go -/

/-- The case mapping of package `unicode` that `strings.ToUpper` and
`strings.ToLower` apply to every rune. The package is not part of the
repository, so the mapping is a parameter. -/
structure CaseMap where
  ToUpper : Char → Char
  ToLower : Char → Char

/-- The case mapping on ASCII: only the basic Latin letters change. -/
def asciiCase : CaseMap :=
  { ToUpper := Char.toUpper, ToLower := Char.toLower }

/-- The branches of the loop body of `SplitCamelCaseString` that test the rune:
the new values of `acronym`, `builder` and `result`. -/
def splitRune (runeOriginal runeUpper runeLower : Char) (acronym : Nat) (builder : List Char)
    (result : List (List Char)) : Nat × List Char × List (List Char) :=
  if runeOriginal = '_' then (0, [], result ++ [builder])
  else if runeUpper ≠ runeLower ∧ runeOriginal = runeUpper then
    if acronym = 0 then (acronym + 1, [], result ++ [builder])
    else (acronym + 1, builder, result)
  else if runeOriginal = runeLower then
    if acronym > 1 then (0, [], result ++ [builder])
    else (0, builder, result)
  else (acronym, builder, result)

/-- The loop `for i, runeOriginal := range original`: `i` is the byte offset of
the rune in the string, and it indexes the rune slices `uppers` and `lowers`.
An index out of range is a run-time panic (`none`). -/
def splitLoop (uppers lowers : List Char) :
    List Char → Nat → Nat → List Char → List (List Char) → Option (List (List Char))
  | [], _, _, builder, result => some (result ++ [builder])
  | runeOriginal :: rest, i, acronym, builder, result =>
    match uppers.get? i with
    | none => none
    | some runeUpper =>
      match lowers.get? i with
      | none => none
      | some runeLower =>
        let r := splitRune runeOriginal runeUpper runeLower acronym builder result
        if runeOriginal = '_' ∧ i > 0 then
          splitLoop uppers lowers rest (i + runeOriginal.utf8Size) r.1 r.2.1 r.2.2
        else
          splitLoop uppers lowers rest (i + runeOriginal.utf8Size) r.1 (r.2.1 ++ [runeOriginal])
            r.2.2

/-- Takes a CamelCasedString and splits it into individual words: the words
returned, or `none` for a run-time panic. -/
def SplitCamelCaseString (unicode : CaseMap) (original : List Char) :
    Option (List (List Char)) :=
  match splitLoop (original.map unicode.ToUpper) (original.map unicode.ToLower) original 0 0 []
      [] with
  | none => none
  | some result => some (result.filter (fun word => word ≠ []))

/-- An uppercase letter of an identifier. -/
def isUpperLetter (c : Char) : Bool :=
  65 ≤ c.toNat && c.toNat ≤ 90

/-- A lowercase letter of an identifier. -/
def isLowerLetter (c : Char) : Bool :=
  97 ≤ c.toNat && c.toNat ≤ 122

/-- Whether the specification cuts before the character `c` that follows the
characters `prev2` and `prev1`: at an underscore, before an uppercase letter not
preceded by an uppercase letter, and between a run of two or more uppercase
letters and a directly following character of the class `afterAcronym`. -/
def cutBefore (afterAcronym : Char → Bool) (prev2 prev1 : Option Char) (c : Char) : Bool :=
  c == '_' ||
  (isUpperLetter c && !(prev1.any isUpperLetter)) ||
  (afterAcronym c && prev1.any isUpperLetter && prev2.any isUpperLetter)

/-- The words of the specification from a position on: `first` says whether
the position is 0, `word` is the word begun. An underscore is dropped unless it
stands at position 0. -/
def wordsFrom (afterAcronym : Char → Bool) :
    List Char → Bool → Option Char → Option Char → List Char → List (List Char)
  | [], _, _, _, word => [word]
  | c :: rest, first, prev2, prev1, word =>
    let kept : List Char := if c = '_' ∧ first = false then [] else [c]
    if cutBefore afterAcronym prev2 prev1 c then
      word :: wordsFrom afterAcronym rest false prev1 (some c) kept
    else wordsFrom afterAcronym rest false prev1 (some c) (word ++ kept)

/-- The words of an identifier as the specification words them, empty words
dropped. -/
def splitWords (afterAcronym : Char → Bool) (original : List Char) : List (List Char) :=
  (wordsFrom afterAcronym original true none none []).filter (fun word => word ≠ [])

/-- The character class after an acronym as the claim has it: a lowercase
letter. -/
def claimedAfterAcronym (c : Char) : Bool :=
  isLowerLetter c

/-- The character class after an acronym that the code implements: any
character that is not an uppercase letter (a lowercase letter, a digit, ...). -/
def actualAfterAcronym (c : Char) : Bool :=
  !isUpperLetter c

/-- The value of `acronym` after a character, on characters whose case forms
are the ASCII ones: the length of the run of uppercase letters that ends with
the character. -/
def nextAcronym (c : Char) (acronym : Nat) : Nat :=
  if c = '_' then 0 else if isUpperLetter c then acronym + 1 else 0

/-- The cases of `Test_SplitCamelCaseString`: input and expected words. -/
def splitTests : List (String × List String) :=
  [ ("HelloWorld", ["Hello", "World"]),
    ("Hello_WorldAgain", ["Hello", "World", "Again"]),
    ("hello_world_again", ["hello", "world", "again"]),
    ("_hello_world", ["_hello", "world"]),
    ("HelloWORLD", ["Hello", "WORLD"]),
    ("HelloWORLDagain", ["Hello", "WORLD", "again"]),
    ("HelloWORLD_Again", ["Hello", "WORLD", "Again"]),
    ("HELLO_World", ["HELLO", "World"]) ]

/-- Space or tab, the indentation characters of `dedent`. -/
def isBlank (c : Char) : Bool :=
  c == ' ' || c == '\t'

/-- Split a text into its lines at the line feeds. -/
def splitLines : List Char → List (List Char)
  | [] => [[]]
  | c :: rest =>
    if c = '\n' then [] :: splitLines rest
    else
      match splitLines rest with
      | [] => [[c]]
      | line :: lines => (c :: line) :: lines

/-- Join lines with line feeds. -/
def joinLines : List (List Char) → List Char
  | [] => []
  | [line] => line
  | line :: lines => line ++ '\n' :: joinLines lines

/-- The margin loop of `dedent.Dedent` over the indentations of the lines after
the first. -/
def marginLoop : List (List Char) → List Char → List Char
  | [], margin => margin
  | indent :: rest, margin =>
    if margin.isPrefixOf indent then marginLoop rest margin
    else if indent.isPrefixOf margin then marginLoop rest indent
    else []

/-- The margin that `dedent.Dedent` computes from the indentations: the first
one, taken through the margin loop over the others. -/
def marginOf : List (List Char) → List Char
  | [] => []
  | indent :: rest => marginLoop rest indent

/-- The library function `dedent.Dedent` (package `github.com/lithammer/dedent`),
following its algorithm: the lines of spaces and tabs only are emptied (the
pattern `^[ \t]+$` replaced by nothing), the indentations of the other non-empty
lines are collected (the pattern `(^[ \t]*)(?:[^ \t\n])`), the margin loop runs
over them, and a margin that is not empty is removed from the beginning of the
lines that begin with it. -/
def Dedent (text : List Char) : List Char :=
  let lines := (splitLines text).map (fun line => if line.all isBlank then [] else line)
  let indents := (lines.filter (fun line => line ≠ [])).map (fun line => line.takeWhile isBlank)
  let margin := marginOf indents
  let lines :=
    if margin = [] then lines
    else lines.map (fun line => if margin.isPrefixOf line then line.drop margin.length else line)
  joinLines lines

/-- Dedent multi-line string and remove leading linebreaks. The function
`dedent.Dedent` of the library is a parameter. -/
def FixMultiLineString (dedent : List Char → List Char) (str : List Char) : List Char :=
  TrimSpace (dedent str)

/-- The multi-line literal of the test: an empty first line, the indented line
`Hello, world!` and an indented closing line. -/
def helloLiteral : List Char :=
  "\n             Hello, world!\n            ".toList

/-! ### Specification-side definitions for `FixMultiLineString` -/

/-- The longest text that begins both texts. -/
def commonPrefix : List Char → List Char → List Char
  | a :: as, b :: bs => if a = b then a :: commonPrefix as bs else []
  | _, _ => []

/-- The leading indentation of a line: its leading spaces and tabs. -/
def indentation (line : List Char) : List Char :=
  line.takeWhile isBlank

/-- The common leading indentation of lines, given their indentations: the
longest text that begins all of them. -/
def commonIndentation : List (List Char) → List Char
  | [] => []
  | indent :: rest => rest.foldl commonPrefix indent

/-- The text of the specification: the lines of the input with their common
leading indentation removed. -/
def indentationRemoved (text : List Char) : List Char :=
  let lines := splitLines text
  let margin := commonIndentation (lines.map indentation)
  joinLines (lines.map (fun line => line.drop margin.length))

/-- The lines of a text that hold more than spaces and tabs. -/
def contentLines (text : List Char) : List (List Char) :=
  (splitLines text).filter (fun line => !line.all isBlank)

/-- The lines of a text, those of spaces and tabs only emptied and the others
without their first characters, as many as `margin` has. -/
def linesWithout (margin : List Char) (text : List Char) : List Char :=
  joinLines ((splitLines text).map
    (fun line => if line.all isBlank then [] else line.drop margin.length))

/-- The dedented text: the lines of spaces and tabs only emptied, the other
lines without their common leading indentation. -/
def dedented (text : List Char) : List Char :=
  linesWithout (commonIndentation ((contentLines text).map indentation)) text

/-- Of any two lines that hold more than spaces and tabs, the indentation of
one begins the indentation of the other. Lines indented with spaces only, or
with tabs only, are so. -/
def indentsComparable (text : List Char) : Bool :=
  (contentLines text).all (fun a =>
    (contentLines text).all (fun b =>
      (indentation a).isPrefixOf (indentation b) || (indentation b).isPrefixOf (indentation a)))

/-! ## app/app.go -/

/-- The struct behind an `App`: `commands` holds the names under which commands
are registered (the keys of the map), the other fields are those of the source. -/
structure AppStruct where
  commands : List String := []
  program : String := ""
  command : String := ""
  arguments : List String := []
deriving DecidableEq, Repr

/-- Create new app instance: no arguments, the command `help` registered. -/
def NewApp : AppStruct :=
  { commands := ["help"], arguments := [] }

/-- The test `strings.HasPrefix(arg, "-")`. -/
def isFlag (arg : String) : Bool :=
  arg.toList.head? == some '-'

/-- The loop of `Run` over `args[2:]`, standing at index `i`: the arguments
collected and the flag index. -/
def argumentsLoop : List String → Nat → List String → Nat → List String × Nat
  | [], _, arguments, flagIndex => (arguments, flagIndex)
  | arg :: rest, i, arguments, flagIndex =>
    if isFlag arg then (arguments, flagIndex)
    else argumentsLoop rest (i + 1) (arguments ++ [arg]) (3 + i)

/-- What a call of `Run` leaves behind: the app, the error returned and, when
the flags were split off, the flag index and the flags. -/
structure RunResult where
  app : AppStruct
  err : Option GoError
  flagIndex : Option Nat := none
  flags : List String := []
deriving DecidableEq, Repr

/-- Run the command requested in the arguments. `run name app` is the method
`Run` of the command registered under `name`. An empty argument list and a
slice bound beyond the list are run-time panics. -/
def AppStruct.Run (run : String → AppStruct → Option GoError) (this : AppStruct)
    (args : List String) : Outcome RunResult :=
  match args with
  | [] => .panic "Argument list is empty, cannot determine program name"
  | program :: afterProgram =>
    let this := { this with program := program }
    match afterProgram with
    | [] =>
      .returned
        { app := this, err := some (.leaf ("Usage: " ++ this.program ++ " command [<flags...>]")) }
    | command :: _ =>
      let this := { this with command := command }
      if ¬ this.commands.contains this.command then
        .returned { app := this, err := some (.leaf ("Unknown command: " ++ this.command)) }
      else
        let r := argumentsLoop (args.drop 2) 0 this.arguments 2
        let this := { this with arguments := r.1 }
        let flagIndex := r.2
        if flagIndex > args.length then .panic "slice bounds out of range"
        else
          .returned
            { app := this, err := run this.command this, flagIndex := some flagIndex,
              flags := args.drop flagIndex }

/-- The text of a member, `"name":value` with the value trimmed, when the
library encodes the value; nothing when it fails. -/
def memberTextOf (name : String) (encoded : Except GoError (List Char)) : List (List Char) :=
  match encoded with
  | .ok value => ['"' :: (name.toList ++ '"' :: ':' :: TrimSpace value)]
  | .error _ => []

/-- What follows the value of a member in the written text: the closing brace
after the last member, otherwise a comma and the members still to come; then
the rest of the stream. -/
def closing (texts : List (List Char)) (stream : List Char) : List Char :=
  match texts with
  | [] => '}' :: stream
  | _ :: _ => ',' :: (commaJoin texts ++ '}' :: stream)

/-- The library returns each populated payload of the message at the place
where it stands in the written object: decoding starts on the trimmed encoding
followed by the rest of the object and of the stream, and stops there. -/
def JsonLib.roundTripsIn (lib : JsonLib) (m : Message) (stream : List Char) : Bool :=
  let information : List (List Char) :=
    match m.DeviceInformation with
    | none => []
    | some v => memberTextOf "DeviceInformation" (lib.encodeDeviceInformation v)
  let advertisement : List (List Char) :=
    match m.DeviceAdvertisement with
    | none => []
    | some v => memberTextOf "DeviceAdvertisement" (lib.encodeDeviceAdvertisement v)
  (match m.ClientRequest with
    | none => true
    | some v =>
      roundTrips lib.encodeClientRequest lib.decodeClientRequest v
        (closing (advertisement ++ information) stream)) &&
  (match m.DeviceAdvertisement with
    | none => true
    | some v =>
      roundTrips lib.encodeDeviceAdvertisement lib.decodeDeviceAdvertisement v
        (closing information stream)) &&
  (match m.DeviceInformation with
    | none => true
    | some v =>
      roundTrips lib.encodeDeviceInformation lib.decodeDeviceInformation v (closing [] stream))

/-- A message with all three variants populated (device information without
network interfaces). -/
def threeVariants : Message :=
  { ClientRequest := some { Request := "identify", Parameters := ["blink", "3"] }
    DeviceAdvertisement := some { Group := "lab", DeviceName := "desk1", HostName := "desk1" }
    DeviceInformation :=
      some { Group := "lab", DeviceName := "desk1", HostName := "desk1",
             OperatingSystem := "linux", NetworkInterfaces := [] } }

/-- A message with two variants populated. -/
def twoVariants : Message :=
  { threeVariants with DeviceAdvertisement := none }

/-! ### Specification-side definitions for the resolver and for `Close` -/

/-- An interface that is administratively up and supports multicast. -/
def Interface.eligible (netInterface : Interface) : Bool :=
  netInterface.Flags &&& FlagUp != 0 && netInterface.Flags &&& FlagMulticast != 0

/-- The calls of the IPv4 attempt: none without an IPv4 address. -/
def callsIP4 (config : Config) (net : Net) : List NetCall :=
  if config.General.MulticastIP4 = "" then [] else attemptCalls net (addrIP4 config)

/-- The endpoint opened by the IPv4 attempt, if any. -/
def connsIP4 (config : Config) (net : Net) : List Conn :=
  if config.General.MulticastIP4 = "" then [] else attemptConns net (addrIP4 config)

/-- One attempt for each eligible interface, in enumeration order. -/
def callsIP6 (config : Config) (net : Net) (netInterfaces : List Interface) : List NetCall :=
  (netInterfaces.filter Interface.eligible).flatMap
    (fun netInterface => attemptCalls net (addrIP6 config netInterface.Name))

/-- The endpoints opened by the attempts on the eligible interfaces, in
enumeration order. -/
def connsIP6 (config : Config) (net : Net) (netInterfaces : List Interface) : List Conn :=
  (netInterfaces.filter Interface.eligible).flatMap
    (fun netInterface => attemptConns net (addrIP6 config netInterface.Name))

/-- The loop of `Close` over the connections: `err` is the loop's variable, the
list collects the connections whose `Close` has been called. -/
def closeLoop : List Conn → Option GoError → List Conn → Option GoError × List Conn
  | [], err, closed => (err, closed)
  | connection :: rest, err, closed =>
    match connection.close with
    | some err1 => closeLoop rest (some (wrapError connection err err1)) (closed ++ [connection])
    | none => closeLoop rest err (closed ++ [connection])

/-- Close all connections. The result is the error returned and the connections
closed, in the order of the calls. -/
def ConnectionsStruct.Close (this : ConnectionsStruct) : Option GoError × List Conn :=
  closeLoop this.connections none []

/-- The entry of a failing endpoint in the aggregate error:
`<local address> - <cause>`. -/
def closeEntry (connection : Conn) (cause : GoError) : String :=
  connection.LocalAddr ++ " - " ++ cause.Error

/-- The entries of the endpoints whose `Close` fails, in endpoint order. -/
def closeEntries (connections : List Conn) : List String :=
  connections.filterMap (fun connection => connection.close.map (closeEntry connection))

/-- The aggregate error of a list of entries given latest first: the earliest
entry alone is a plain error, each later entry wraps the aggregate of the
earlier ones, its message being that aggregate's message, `; ` and the entry. -/
def aggregateRev : List String → Option GoError
  | [] => none
  | entry :: earlier =>
    match aggregateRev earlier with
    | none => some (.leaf entry)
    | some agg => some (.wrap (agg.Error ++ "; " ++ entry) agg)

/-- The aggregate error of a list of entries in endpoint order. -/
def aggregate (entries : List String) : Option GoError :=
  aggregateRev entries.reverse

/-- An endpoint whose `Close` fails. -/
def connCloseFails : Conn :=
  { LocalAddr := "192.168.1.5:40000", close := some (.leaf "use of closed network connection") }

/-- A second endpoint whose `Close` fails. -/
def connCloseFails6 : Conn :=
  { LocalAddr := "[fe80::1%eth0]:40001", close := some (.leaf "bad file descriptor") }

/-! # Theorems -/

/-! ## The message coder -/

theorem rdropWhile_head_eq {p : Char → Bool} (c : Char) (l : List Char) (hc : p c = false) :
    ∃ l', ((c :: l).reverse.dropWhile p).reverse = c :: l' := by
  have hpre : (c :: l).rdropWhile p <+: c :: l := List.rdropWhile_prefix p _
  have hne : (c :: l).rdropWhile p ≠ [] := by
    intro h
    rw [List.rdropWhile_eq_nil_iff] at h
    have := h c (List.mem_cons_self c l)
    simp [hc] at this
  unfold List.rdropWhile at hpre hne
  cases hr : ((c :: l).reverse.dropWhile p).reverse with
  | nil => exact absurd hr hne
  | cons d l' =>
    rw [hr] at hpre
    obtain ⟨t, ht⟩ := hpre
    simp only [List.cons_append, List.cons.injEq] at ht
    exact ⟨l', by rw [ht.1]⟩

theorem TrimSpace_head (t : List Char) :
    TrimSpace t = [] ∨ ∃ c l, TrimSpace t = c :: l ∧ isSpace c = false := by
  unfold TrimSpace
  cases hu : t.dropWhile isSpace with
  | nil => left; simp
  | cons c u =>
    right
    have hc : isSpace c = false := by
      have h := List.head_dropWhile_not isSpace t (by rw [hu]; simp)
      simpa [hu] using h
    obtain ⟨l', hl'⟩ := rdropWhile_head_eq (p := isSpace) c u hc
    exact ⟨c, l', hl', hc⟩

theorem isSpace_of_isJsonSpace (c : Char) (h : isJsonSpace c = true) : isSpace c = true := by
  simp only [isJsonSpace, Bool.or_eq_true, beq_iff_eq] at h
  rcases h with ((h | h) | h) | h <;> subst h <;> decide

theorem skipSpace_TrimSpace_append (t : List Char) (d : Char) (rest : List Char)
    (hd : isJsonSpace d = false) :
    skipSpace (TrimSpace t ++ d :: rest) = TrimSpace t ++ d :: rest := by
  rcases TrimSpace_head t with h | ⟨c, l, h, hc⟩
  · rw [h]; simp [skipSpace, List.dropWhile, hd]
  · rw [h]
    have hj : isJsonSpace c = false := by
      cases hcj : isJsonSpace c with
      | false => rfl
      | true => rw [isSpace_of_isJsonSpace c hcj] at hc; cases hc
    simp [skipSpace, List.dropWhile, hj]

theorem scanKey_append (key rest : List Char)
    (hkey : ∀ c ∈ key, c ≠ '"' ∧ c ≠ '\\' ∧ ¬ c.toNat < 0x20) :
    scanKey (key ++ '"' :: rest) = some (key, rest) := by
  induction key with
  | nil => simp [scanKey]
  | cons c key ih =>
    have hc := hkey c (List.mem_cons_self c key)
    have ih' := ih (fun d hd => hkey d (List.mem_cons_of_mem c hd))
    simp [scanKey, hc.1, hc.2.1, hc.2.2, ih']

theorem decodeMembers_single (lib : JsonLib) (name : String) (value stream : List Char)
    (m : Message) (fuel : Nat)
    (hname : ∀ c ∈ name.toList, c ≠ '"' ∧ c ≠ '\\' ∧ ¬ c.toNat < 0x20)
    (hdec : decodeField lib name.toList (TrimSpace value ++ '}' :: stream) Message.zero
      = some (m, '}' :: stream)) :
    decodeMembers lib (fuel + 1)
      ('"' :: (name.toList ++ '"' :: ':' :: (TrimSpace value ++ '}' :: stream))) Message.zero
      = some (m, stream) := by
  have hskip := skipSpace_TrimSpace_append value '}' stream (by decide)
  have hcolon : skipSpace (':' :: (TrimSpace value ++ '}' :: stream))
      = ':' :: (TrimSpace value ++ '}' :: stream) := by
    simp [skipSpace, List.dropWhile, isJsonSpace]
  have hbrace : skipSpace ('}' :: stream) = '}' :: stream := by
    simp [skipSpace, List.dropWhile, isJsonSpace]
  simp only [decodeMembers, scanKey_append _ _ hname, hcolon, hskip, hdec, hbrace]

theorem Read_single (lib : JsonLib) (name : String) (value stream : List Char) (m : Message)
    (hname : ∀ c ∈ name.toList, c ≠ '"' ∧ c ≠ '\\' ∧ ¬ c.toNat < 0x20)
    (hdec : decodeField lib name.toList (TrimSpace value ++ '}' :: stream) Message.zero
      = some (m, '}' :: stream)) :
    MessageCoderStruct.Read lib
        ('{' :: '"' :: (name.toList ++ '"' :: ':' :: (TrimSpace value ++ '}' :: stream)))
      = some (m, stream) := by
  have h1 : ∀ l : List Char, skipSpace ('{' :: l) = '{' :: l := by
    intro l; simp [skipSpace, List.dropWhile, isJsonSpace]
  have h2 : ∀ l : List Char, skipSpace ('"' :: l) = '"' :: l := by
    intro l; simp [skipSpace, List.dropWhile, isJsonSpace]
  simp only [MessageCoderStruct.Read, h1, h2, List.length_cons]
  exact decodeMembers_single lib name value stream m _ hname hdec

/-- C1. Round-trip law of the coder: for a message with exactly one populated
variant whose payload the JSON library returns as encoded, `Write` produces a
text, and `Read` on that text followed by the rest of the stream yields the very
same message (hence only that variant populated, field for field equal, the two
others nil) and leaves the rest of the stream. The compressor is a lossless
stream transform, so `Read` sees the text `Write` handed to it. -/
theorem Write_Read_roundtrip (lib : JsonLib) (message : Message) (stream : List Char)
    (hone : message.populated = 1)
    (hlib : lib.roundTripsMessage message ('}' :: stream) = true) :
    ∃ text, MessageCoderStruct.Write lib message = .ok text ∧
      MessageCoderStruct.Read lib (text ++ stream) = some (message, stream) := by
  obtain ⟨cr, da, di⟩ := message
  cases cr with
  | some v =>
    cases da with
    | some _ => cases di <;> simp [Message.populated] at hone
    | none =>
      cases di with
      | some _ => simp [Message.populated] at hone
      | none =>
        simp only [JsonLib.roundTripsMessage, roundTrips, Bool.and_true] at hlib
        cases henc : lib.encodeClientRequest v with
        | error e => rw [henc] at hlib; cases hlib
        | ok t =>
          rw [henc] at hlib
          have hdec := eq_of_beq hlib
          refine ⟨_, by
            simp [MessageCoderStruct.Write, Message.fields, writeFields, henc]; rfl, ?_⟩
          have := Read_single lib "ClientRequest" t stream ⟨some v, none, none⟩ (by decide)
            (by simp [decodeField, keyMatches, Message.zero, hdec])
          simpa using this
  | none =>
    cases da with
    | some v =>
      cases di with
      | some _ => simp [Message.populated] at hone
      | none =>
        simp only [JsonLib.roundTripsMessage, roundTrips, Bool.and_true, Bool.true_and] at hlib
        cases henc : lib.encodeDeviceAdvertisement v with
        | error e => rw [henc] at hlib; cases hlib
        | ok t =>
          rw [henc] at hlib
          have hdec := eq_of_beq hlib
          refine ⟨_, by
            simp [MessageCoderStruct.Write, Message.fields, writeFields, henc]; rfl, ?_⟩
          have := Read_single lib "DeviceAdvertisement" t stream ⟨none, some v, none⟩
            (by decide)
            (by simp [decodeField, keyMatches, Message.zero, hdec])
          simpa using this
    | none =>
      cases di with
      | none => simp [Message.populated] at hone
      | some v =>
        simp only [JsonLib.roundTripsMessage, roundTrips, Bool.and_true, Bool.true_and] at hlib
        cases henc : lib.encodeDeviceInformation v with
        | error e => rw [henc] at hlib; cases hlib
        | ok t =>
          rw [henc] at hlib
          have hdec := eq_of_beq hlib
          refine ⟨_, by
            simp [MessageCoderStruct.Write, Message.fields, writeFields, henc]; rfl, ?_⟩
          have := Read_single lib "DeviceInformation" t stream ⟨none, none, some v⟩ (by decide)
            (by simp [decodeField, keyMatches, Message.zero, hdec])
          simpa using this

/-- Witness for C1: the advertisement of the specification's scenario, with the
plain JSON fragment as the library, followed on the stream by an empty object. -/
theorem Write_Read_roundtrip_witness :
    deskAdvertisement.populated = 1 ∧
    plainJson.roundTripsMessage deskAdvertisement ['}', '{', '}'] = true ∧
    ∃ text, MessageCoderStruct.Write plainJson deskAdvertisement = .ok text ∧
      MessageCoderStruct.Read plainJson (text ++ ['{', '}'])
        = some (deskAdvertisement, ['{', '}']) :=
  ⟨by decide, by decide,
    Write_Read_roundtrip plainJson deskAdvertisement ['{', '}'] (by decide) (by decide)⟩


/-- C2. Sparse encoding: for every message the text `Write` hands to the
compressor is the sparse object of the specification, whose members are keyed
by exactly the names of the non-empty variants, in field order and each once,
every value being the encoding of a non-nil payload (never that of a nil
pointer); a message with only `DeviceAdvertisement` populated has the single key
`DeviceAdvertisement`, and the message with no variant has no key at all. -/
theorem Write_sparse (lib : JsonLib) (message : Message) :
    MessageCoderStruct.Write lib message = sparseObject lib message ∧
    (sparseMembers lib message).map Prod.fst = message.populatedNames ∧
    (message.ClientRequest = none → message.DeviceInformation = none →
      ∀ v, message.DeviceAdvertisement = some v →
        sparseMembers lib message
          = [("DeviceAdvertisement", lib.encodeDeviceAdvertisement v)]) ∧
    MessageCoderStruct.Write lib Message.zero = .ok ['{', '}'] := by
  obtain ⟨cr, da, di⟩ := message
  refine ⟨?_, ?_, ?_, ?_⟩
  · rcases cr with _ | a <;> rcases da with _ | b <;> rcases di with _ | c <;>
      simp only [MessageCoderStruct.Write, sparseObject, sparseMembers, Message.fields,
        Option.map] <;>
      (try (generalize lib.encodeClientRequest a = ea; cases ea)) <;>
      (try (generalize lib.encodeDeviceAdvertisement b = eb; cases eb)) <;>
      (try (generalize lib.encodeDeviceInformation c = ec; cases ec)) <;>
      simp [writeFields, memberTexts, commaJoin]
  · cases cr <;> cases da <;> cases di <;> simp [sparseMembers, Message.populatedNames]
  · intro h1 h2 v hv
    simp only at h1 h2 hv
    subst h1 h2 hv
    simp [sparseMembers]
  · rfl


/-! ## The connection multiplexer: `Write` -/

theorem collectResults_fst (l : List (Conn × writeResult)) (n : Nat) (err : Option GoError) :
    (collectResults l n err).1 = n := by
  induction l generalizing err with
  | nil => rfl
  | cons p l ih =>
    obtain ⟨connection, result⟩ := p
    simp only [collectResults]
    split <;> exact ih _

theorem collectResults_no_error (l : List (Conn × writeResult)) (n : Nat) (err : Option GoError)
    (h : ∀ p ∈ l, p.2.err = none) : collectResults l n err = (n, err) := by
  induction l generalizing err with
  | nil => rfl
  | cons p l ih =>
    obtain ⟨connection, result⟩ := p
    have hp : result.err = none := h (connection, result) (List.mem_cons_self _ _)
    have hl : ∀ q ∈ l, q.2.err = none := fun q hq => h q (List.mem_cons_of_mem _ hq)
    simp only [collectResults]
    split
    · rename_i e he
      split at he <;> simp_all
    · exact ih _ hl

theorem writeGoroutine_whole (b : List UInt8) (connection : Conn) (hb : b ≠ [])
    (h : connection.writes.head? = some (b.length, none)) :
    writeGoroutine b connection = (some { n := b.length, err := none }, b) := by
  have hpos : 0 < b.length := List.length_pos.mpr hb
  obtain ⟨rest, hrest⟩ : ∃ rest, connection.writes = (b.length, none) :: rest := by
    cases hw : connection.writes with
    | nil => rw [hw] at h; cases h
    | cons r rest =>
      rw [hw] at h
      simp only [List.head?_cons, Option.some.injEq] at h
      exact ⟨rest, by rw [h]⟩
  cases rest with
  | nil => simp [writeGoroutine, writeLoop, hrest, hpos]
  | cons r rest => simp [writeGoroutine, writeLoop, hrest, hpos]

theorem collectResults_snd_none (l : List (Conn × writeResult)) (n : Nat)
    (err : Option GoError) :
    (collectResults l n err).2 = none ↔ err = none ∧ ∀ p ∈ l, p.2.err = none := by
  induction l generalizing err with
  | nil => simp [collectResults]
  | cons p l ih =>
    obtain ⟨connection, result⟩ := p
    have hn : (if result.n > n then { result with n := n } else result).err = result.err := by
      split <;> rfl
    simp only [collectResults]
    split
    · rename_i e he
      rw [hn] at he
      rw [ih]
      simp [he]
    · rename_i he
      rw [hn] at he
      rw [ih]
      simp [he]

/-- The part of the fan-out error that holds in every arrival order: when every
goroutine delivers a result, `Write` returns, and its error is nil exactly when
no endpoint reported an error. -/
theorem Write_error_nil_iff (this : ConnectionsStruct) (b : List UInt8) (order : List Nat)
    (horder : order.Perm (List.range this.connections.length))
    (hfin : ∀ c ∈ this.connections, ((writeGoroutine b c).1).isSome = true) :
    ∃ n err, this.Write b order = some (n, err) ∧
      (err = none ↔ ∀ c ∈ this.connections, ∀ r, (writeGoroutine b c).1 = some r →
        r.err = none) := by
  have hlen : order.length = this.connections.length := by
    rw [horder.length_eq, List.length_range]
  have hmap : ∃ rs : List writeResult, arrivedResults this b order = rs ∧
      rs.length = order.length ∧
      (∀ r, r ∈ rs ↔ ∃ c ∈ this.connections, (writeGoroutine b c).1 = some r) := by
    refine ⟨_, rfl, ?_, ?_⟩
    · unfold arrivedResults
      have hsome : ∀ i ∈ order, ∃ r, (match this.connections.get? i with
          | none => none
          | some connection => (writeGoroutine b connection).1) = some r := by
        intro i hi
        have hlt : i < this.connections.length := List.mem_range.mp (horder.subset hi)
        rw [List.get?_eq_get hlt]
        exact Option.isSome_iff_exists.mp (hfin _ (List.get_mem _ _ _))
      clear horder hlen
      induction order with
      | nil => rfl
      | cons i rest ih =>
        obtain ⟨r, hr⟩ := hsome i (List.mem_cons_self _ _)
        simp only [List.filterMap_cons, hr, List.length_cons,
          ih (fun j hj => hsome j (List.mem_cons_of_mem _ hj))]
    · intro r
      unfold arrivedResults
      rw [List.mem_filterMap]
      constructor
      · rintro ⟨i, hi, hr⟩
        have hlt : i < this.connections.length := List.mem_range.mp (horder.subset hi)
        rw [List.get?_eq_get hlt] at hr
        exact ⟨_, List.get_mem _ _ _, hr⟩
      · rintro ⟨c, hc, hr⟩
        obtain ⟨i, hi⟩ := List.get_of_mem hc
        have hio : (i : Nat) ∈ order := horder.symm.subset (List.mem_range.mpr i.isLt)
        refine ⟨i, hio, ?_⟩
        rw [List.get?_eq_get i.isLt]
        simp only [Fin.eta, hi]
        exact hr
  obtain ⟨rs, hrs, hrslen, hrsmem⟩ := hmap
  refine ⟨(collectResults (this.connections.zip rs) 0 none).1,
    (collectResults (this.connections.zip rs) 0 none).2, ?_, ?_⟩
  · unfold ConnectionsStruct.Write
    simp only [hrs, hrslen, hlen, lt_self_iff_false, if_false]
  · rw [collectResults_snd_none]
    simp only [true_and]
    constructor
    · intro h c hc r hr
      have hmem : r ∈ rs := (hrsmem r).mpr ⟨c, hc, hr⟩
      obtain ⟨k, hk⟩ := List.get_of_mem hmem
      have hk1 : (k : Nat) < this.connections.length := by
        have := k.isLt
        omega
      have hz : (this.connections.get ⟨k, hk1⟩, r) ∈ this.connections.zip rs := by
        rw [List.mem_iff_get]
        refine ⟨⟨k, by simp [List.length_zip, hk1]⟩, ?_⟩
        simp [← hk]
      exact h _ hz
    · intro h p hp
      have hp2 := (List.of_mem_zip hp).2
      obtain ⟨c, hc, hr⟩ := (hrsmem p.2).mp hp2
      exact h c hc p.2 hr

theorem accepted_whole (this : ConnectionsStruct) (b : List UInt8) (hb : b ≠ []) (i : Nat)
    (c : Conn) (hc : this.connections.get? i = some c)
    (hw : c.writes.head? = some (b.length, none)) :
    (this.accepted b).get? i = some b := by
  unfold ConnectionsStruct.accepted
  rw [List.get?_eq_getElem?] at hc ⊢
  rw [List.getElem?_map, hc]
  simp [writeGoroutine_whole b c hb hw]

/-- C3. On two endpoints of which the second fails its write, the aggregate
error of `Write` names the endpoint whose turn it is in the receiving loop, not
the endpoint the failing result came from: when the failing endpoint's result
arrives first, the error names the local address of the endpoint that
succeeded; only when the results arrive in list order does it name the failing
endpoint. -/
theorem Write_error_names_wrong_endpoint :
    (writeGoroutine [1, 2, 3] connOk).1 = some { n := 3, err := none } ∧
    (writeGoroutine [1, 2, 3] connFailing).1
      = some { n := 0, err := some (.leaf "write: network is unreachable") } ∧
    ConnectionsStruct.Write { connections := [connOk, connFailing] } [1, 2, 3] [1, 0]
      = some (0, some (.leaf "192.168.1.5:40000 - write: network is unreachable")) ∧
    ConnectionsStruct.Write { connections := [connOk, connFailing] } [1, 2, 3] [0, 1]
      = some (0, some (.leaf "[fe80::1%eth0]:40001 - write: network is unreachable")) := by
  decide

/-- C4. An endpoint that accepts the payload `[1, 2]` one byte per write and
never reports an error is offered the whole payload again on the retry: the
bytes it accepts are `[1, 1]`, not the payload, while the goroutine counts two
bytes written and `Write` returns no error. -/
theorem Write_resends_whole_payload :
    ConnectionsStruct.accepted { connections := [connPartial] } [1, 2] = [[1, 1]] ∧
    ConnectionsStruct.counts { connections := [connPartial] } [1, 2] = [some 2] ∧
    ConnectionsStruct.Write { connections := [connPartial] } [1, 2] [0] = some (0, none) := by
  decide

/-- C5. Whatever the endpoints do and in whatever order their results arrive,
the byte count that `Write` returns is 0: the comparison in the receiving loop
assigns to the received result, never to `n`. So it is not the minimum of the
per-endpoint counts unless some endpoint wrote nothing. -/
theorem Write_count_always_zero (this : ConnectionsStruct) (b : List UInt8) (order : List Nat)
    (n : Nat) (err : Option GoError) (h : this.Write b order = some (n, err)) : n = 0 := by
  unfold ConnectionsStruct.Write at h
  simp only at h
  split at h
  · cases h
  · have h1 := congrArg (fun r => r.map Prod.fst) h
    simp only [Option.map_some', collectResults_fst] at h1
    exact (Option.some.inj h1).symm

/-- Witness for C5: one endpoint that writes all three bytes of the payload;
the only per-endpoint count is 3 and `Write` returns 0. -/
theorem Write_count_always_zero_witness :
    ConnectionsStruct.counts { connections := [connOk] } [7, 8, 9] = [some 3] ∧
    ConnectionsStruct.Write { connections := [connOk] } [7, 8, 9] [0] = some (0, none) ∧
    (0 : Nat) = 0 :=
  ⟨by decide, by decide,
    Write_count_always_zero { connections := [connOk] } [7, 8, 9] [0] 0 none (by decide)⟩

/-- C6. When every endpoint of a multiplexer writes the whole of a non-empty
payload in one call without error, then in whatever order the results arrive
`Write` returns the byte count 0 with a nil error, although every endpoint has
accepted exactly the payload and every per-endpoint count is `len(b)`. -/
theorem Write_all_succeed_returns_zero (this : ConnectionsStruct) (b : List UInt8)
    (order : List Nat) (hb : b ≠ [])
    (hall : ∀ c ∈ this.connections, c.writes.head? = some (b.length, none))
    (horder : order.Perm (List.range this.connections.length)) :
    this.Write b order = some (0, none) ∧ 0 ≠ b.length ∧
    this.counts b = List.replicate this.connections.length (some b.length) ∧
    this.accepted b = List.replicate this.connections.length b := by
  have hres : arrivedResults this b order
      = List.replicate order.length { n := b.length, err := none } := by
    unfold arrivedResults
    rw [List.eq_replicate_iff]
    constructor
    · have hsome : ∀ i ∈ order, (match this.connections.get? i with
          | none => none
          | some connection => (writeGoroutine b connection).1)
          = some ({ n := b.length, err := none } : writeResult) := by
        intro i hi
        have hlt : i < this.connections.length := List.mem_range.mp (horder.subset hi)
        rw [List.get?_eq_get hlt]
        simp only
        rw [writeGoroutine_whole b _ hb (hall _ (List.get_mem _ _ _))]
      rw [List.filterMap_congr hsome]
      simp
    · intro r hr
      rw [List.mem_filterMap] at hr
      obtain ⟨i, hi, hr⟩ := hr
      have hlt : i < this.connections.length := List.mem_range.mp (horder.subset hi)
      rw [List.get?_eq_get hlt] at hr
      simp only at hr
      rw [writeGoroutine_whole b _ hb (hall _ (List.get_mem _ _ _))] at hr
      exact (Option.some.inj hr).symm
  have hlen : order.length = this.connections.length := by
    rw [horder.length_eq, List.length_range]
  refine ⟨?_, ?_, ?_, ?_⟩
  · unfold ConnectionsStruct.Write
    simp only [hres, List.length_replicate, hlen, lt_self_iff_false, if_false]
    rw [collectResults_no_error]
    intro p hp
    have := (List.of_mem_zip hp).2
    rw [List.mem_replicate] at this
    rw [this.2]
  · exact (Nat.ne_of_lt (List.length_pos.mpr hb))
  · unfold ConnectionsStruct.counts
    rw [List.eq_replicate_iff]
    refine ⟨List.length_map _ _, ?_⟩
    intro r hr
    rw [List.mem_map] at hr
    obtain ⟨c, hc, hr⟩ := hr
    rw [writeGoroutine_whole b c hb (hall c hc)] at hr
    exact hr.symm
  · unfold ConnectionsStruct.accepted
    rw [List.eq_replicate_iff]
    refine ⟨List.length_map _ _, ?_⟩
    intro r hr
    rw [List.mem_map] at hr
    obtain ⟨c, hc, hr⟩ := hr
    rw [writeGoroutine_whole b c hb (hall c hc)] at hr
    exact hr.symm

/-- Witness for C6: two endpoints that both write the three bytes of the
payload, the second one reporting first. -/
theorem Write_all_succeed_returns_zero_witness :
    ConnectionsStruct.Write { connections := [connOk, connOk6] } [7, 8, 9] [1, 0]
      = some (0, none) ∧ 0 ≠ ([7, 8, 9] : List UInt8).length ∧
    ConnectionsStruct.counts { connections := [connOk, connOk6] } [7, 8, 9]
      = List.replicate 2 (some 3) ∧
    ConnectionsStruct.accepted { connections := [connOk, connOk6] } [7, 8, 9]
      = List.replicate 2 [7, 8, 9] :=
  Write_all_succeed_returns_zero { connections := [connOk, connOk6] } [7, 8, 9] [1, 0]
    (by decide) (by decide) (by decide)

/-! ## The socket set resolver: `DialMulticast` -/

theorem dialAddr_eq (net : Net) (addr : String) (st : List Conn × List NetCall) :
    dialAddr net addr st = (st.1 ++ attemptConns net addr, st.2 ++ attemptCalls net addr) := by
  unfold dialAddr attemptConns attemptCalls
  cases net.ResolveUDPAddr addr with
  | error e => simp
  | ok raddr =>
    cases h : net.DialUDP raddr with
    | error e => simp [h]
    | ok conn => simp [h]

theorem opened_append (net : Net) (xs ys : List NetCall) :
    opened net (xs ++ ys) = opened net xs ++ opened net ys := by
  simp [opened, List.filterMap_append]

theorem opened_attemptCalls (net : Net) (addr : String) :
    opened net (attemptCalls net addr) = attemptConns net addr := by
  unfold attemptConns attemptCalls opened
  cases net.ResolveUDPAddr addr with
  | error e => simp [List.filterMap]
  | ok raddr =>
    cases h : net.DialUDP raddr with
    | error e => simp [List.filterMap, h, Except.toOption]
    | ok conn => simp [List.filterMap, h, Except.toOption]

theorem dialAddr_opened (net : Net) (addr : String) (st : List Conn × List NetCall)
    (h : st.1 = opened net st.2) :
    (dialAddr net addr st).1 = opened net (dialAddr net addr st).2 := by
  rw [dialAddr_eq]
  simp only [opened_append, opened_attemptCalls, h]

theorem dialInterfaces_opened (config : Config) (net : Net) (allowed : List String)
    (netInterfaces : List Interface) (st : List Conn × List NetCall)
    (h : st.1 = opened net st.2) :
    (dialInterfaces config net allowed netInterfaces st).1
      = opened net (dialInterfaces config net allowed netInterfaces st).2 := by
  induction netInterfaces generalizing st with
  | nil => exact h
  | cons netInterface rest ih =>
    simp only [dialInterfaces]
    split
    · exact ih st h
    · split
      · exact ih st h
      · split
        · exact ih st h
        · exact ih _ (dialAddr_opened net _ st h)

theorem dialInterfaces_prefix (config : Config) (net : Net) (allowed : List String)
    (netInterfaces : List Interface) (conns : List Conn) (calls : List NetCall)
    (st : List Conn × List NetCall) :
    dialInterfaces config net allowed netInterfaces (conns ++ st.1, calls ++ st.2)
      = (conns ++ (dialInterfaces config net allowed netInterfaces st).1,
         calls ++ (dialInterfaces config net allowed netInterfaces st).2) := by
  induction netInterfaces generalizing st with
  | nil => rfl
  | cons netInterface rest ih =>
    simp only [dialInterfaces]
    split
    · exact ih st
    · split
      · exact ih st
      · split
        · exact ih st
        · have := ih (dialAddr net (addrIP6 config netInterface.Name) st)
          simp only [dialAddr_eq, List.append_assoc] at this ⊢
          exact this

theorem dialInterfaces_withoutIP4 (config : Config) (net : Net) (allowed : List String)
    (netInterfaces : List Interface) (st : List Conn × List NetCall) :
    dialInterfaces config.withoutIP4 net allowed netInterfaces st
      = dialInterfaces config net allowed netInterfaces st := by
  induction netInterfaces generalizing st with
  | nil => rfl
  | cons netInterface rest ih =>
    simp only [dialInterfaces, ih]
    rfl

/-- Counterexample for C7: with port 0 and an IPv4 address `DialMulticast` dials
`224.0.0.1:0` and, the dial succeeding, returns a multiplexer with one endpoint. -/
theorem DialMulticast_port_zero_dials :
    configPortZero.General.Port = 0 ∧
    DialMulticast configPortZero lanNet
      = (.ok { connections := [{ LocalAddr := "192.168.1.5:40000" }], started := false },
         [.ResolveUDPAddr "224.0.0.1:0", .DialUDP { IP := "224.0.0.1", Port := 0 }]) := by
  decide

/-- C7, amended. A configuration with port 0, or with both multicast addresses
empty, is rejected by `ValidateConfig` (the check the command runs before it
dials, which makes no call into the network). `DialMulticast` itself, given both
multicast addresses empty, makes no call into the network at all and fails,
whatever the network would have answered. -/
theorem DialMulticast_invalid_config (config : Config) (net : Net)
    (h : config.General.Port = 0 ∨
      (config.General.MulticastIP4 = "" ∧ config.General.MulticastIP6 = "")) :
    (∃ err, ValidateConfig config = some err) ∧
    ((config.General.MulticastIP4 = "" ∧ config.General.MulticastIP6 = "") →
      DialMulticast config net = (.error (.leaf "Unable to dial any address"), [])) := by
  constructor
  · unfold ValidateConfig
    by_cases hboth : config.General.MulticastIP4 = "" ∧ config.General.MulticastIP6 = ""
    · exact ⟨_, if_pos hboth⟩
    · rcases h with h | h
      · exact ⟨_, by rw [if_neg hboth, if_pos h]⟩
      · exact absurd h hboth
  · rintro ⟨h4, h6⟩
    simp [DialMulticast, h4, h6, dialResult]

/-- Witness for C7: the zero configuration, which has port 0 and no address. -/
theorem DialMulticast_invalid_config_witness :
    (∃ err, ValidateConfig {} = some err) ∧
    ((({} : Config).General.MulticastIP4 = "" ∧ ({} : Config).General.MulticastIP6 = "") →
      DialMulticast {} lanNet = (.error (.leaf "Unable to dial any address"), [])) :=
  DialMulticast_invalid_config {} lanNet (Or.inl rfl)

theorem dialResult_opened (net : Net) (st : List Conn × List NetCall)
    (h : st.1 = opened net st.2) :
    (opened net (dialResult st).2 = [] →
      (dialResult st).1 = .error (.leaf "Unable to dial any address")) ∧
    (opened net (dialResult st).2 ≠ [] →
      (dialResult st).1
        = .ok { connections := opened net (dialResult st).2, started := false }) := by
  have h2 : (dialResult st).2 = st.2 := by
    unfold dialResult; split <;> rfl
  rw [h2, ← h]
  unfold dialResult
  constructor
  · intro he; simp [he]
  · intro hne
    have : st.1.length ≠ 0 := fun h0 => hne (List.length_eq_zero.mp h0)
    simp [this]

/-- Counterexample for C8: the IPv4 dial succeeds and opens an endpoint, the
enumeration of the interfaces for IPv6 fails, and `DialMulticast` returns that
error instead of the multiplexer. -/
theorem DialMulticast_interfaces_error :
    DialMulticast configMain lanNetNoInterfaces
      = (.error (.leaf "route ip+net: netlinkrib: permission denied"),
         [.ResolveUDPAddr "224.0.0.1:54321", .DialUDP { IP := "224.0.0.1", Port := 54321 },
          .Interfaces]) ∧
    opened lanNetNoInterfaces (DialMulticast configMain lanNetNoInterfaces).2
      = [{ LocalAddr := "192.168.1.5:40000" }] := by
  decide

/-- C8, amended. When no IPv6 address is configured or the interfaces can be
enumerated, `DialMulticast` fails exactly when no dial it made has opened an
endpoint: then it returns the error "Unable to dial any address" and no
multiplexer; otherwise it returns no error and the multiplexer of all the
endpoints its dials have opened, in the order of the dials. -/
theorem DialMulticast_fails_iff_none_opened (config : Config) (net : Net)
    (h : config.General.MulticastIP6 = "" ∨ (net.Interfaces.toOption).isSome = true) :
    (opened net (DialMulticast config net).2 = [] →
      (DialMulticast config net).1 = .error (.leaf "Unable to dial any address")) ∧
    (opened net (DialMulticast config net).2 ≠ [] →
      (DialMulticast config net).1
        = .ok { connections := opened net (DialMulticast config net).2, started := false }) := by
  have h0 : (([], []) : List Conn × List NetCall).1
      = opened net (([], []) : List Conn × List NetCall).2 := rfl
  have h1 : ∀ st : List Conn × List NetCall, st.1 = opened net st.2 →
      (st.1, st.2 ++ [NetCall.Interfaces]).1
        = opened net (st.1, st.2 ++ [NetCall.Interfaces]).2 := by
    intro st hst
    simp only [opened_append, ← hst]
    simp [opened]
  unfold DialMulticast
  simp only
  by_cases h6 : config.General.MulticastIP6 = ""
  · rw [if_neg (not_not.mpr h6)]
    split
    · exact dialResult_opened net _ (dialAddr_opened net _ _ h0)
    · exact dialResult_opened net _ h0
  · rw [if_pos h6]
    have hifs : (net.Interfaces.toOption).isSome = true := h.resolve_left h6
    cases hi : net.Interfaces with
    | error e => rw [hi] at hifs; simp [Except.toOption] at hifs
    | ok netInterfaces =>
      simp only
      split
      · exact dialResult_opened net _
          (dialInterfaces_opened config net _ _ _ (h1 _ (dialAddr_opened net _ _ h0)))
      · exact dialResult_opened net _ (dialInterfaces_opened config net _ _ _ (h1 _ h0))

/-- Witness for C8: the configuration of `main` on a network where the
interfaces can be enumerated. -/
theorem DialMulticast_fails_iff_none_opened_witness :
    (opened lanNet (DialMulticast configMain lanNet).2 = [] →
      (DialMulticast configMain lanNet).1 = .error (.leaf "Unable to dial any address")) ∧
    (opened lanNet (DialMulticast configMain lanNet).2 ≠ [] →
      (DialMulticast configMain lanNet).1
        = .ok { connections := opened lanNet (DialMulticast configMain lanNet).2,
                started := false }) :=
  DialMulticast_fails_iff_none_opened configMain lanNet (Or.inr (by decide))

/-- C9. With the allow-list `eth0,eth1` configured, `DialMulticast` still dials
an IPv6 endpoint on `wlan0`, an up and multicast-capable interface that the
list does not name: the list read from the setting never reaches
`allowedInterfaces`. -/
theorem DialMulticast_ignores_allow_list :
    configAllowList.General.InterfaceIP6 = "eth0,eth1" ∧
    DialMulticast configAllowList lanNet
      = (.ok { connections := [{ LocalAddr := "[fe80::1%eth0]:40000" },
                               { LocalAddr := "[fe80::1%wlan0]:40000" }],
               started := false },
         [.Interfaces,
          .ResolveUDPAddr "[ff02::1%eth0]:54321",
          .DialUDP { IP := "ff02::1", Port := 54321, Zone := "eth0" },
          .ResolveUDPAddr "[ff02::1%wlan0]:54321",
          .DialUDP { IP := "ff02::1", Port := 54321, Zone := "wlan0" }]) := by
  decide

/-- C10. For a non-empty IPv4 multicast address the calls of `DialMulticast`
are one attempt to the target `address:port` (one resolution, and one dial if it
resolved) followed by the calls it makes without an IPv4 address. When that
attempt opens no endpoint, the failure is skipped: the outcome is that of
dialing without the IPv4 address, not the error of the attempt. With the IPv6
address empty a successful attempt yields exactly one endpoint. -/
theorem DialMulticast_IP4_single_attempt (config : Config) (net : Net)
    (h4 : config.General.MulticastIP4 ≠ "") :
    addrIP4 config = config.General.MulticastIP4 ++ ":" ++ toString config.General.Port ∧
    (DialMulticast config net).2
      = attemptCalls net (addrIP4 config) ++ (DialMulticast config.withoutIP4 net).2 ∧
    (attemptConns net (addrIP4 config) = [] →
      (DialMulticast config net).1 = (DialMulticast config.withoutIP4 net).1) ∧
    (config.General.MulticastIP6 = "" → ∀ conn, attemptConns net (addrIP4 config) = [conn] →
      DialMulticast config net
        = (.ok { connections := [conn], started := false },
           attemptCalls net (addrIP4 config))) := by
  have hw4 : config.withoutIP4.General.MulticastIP4 = "" := rfl
  have hw6 : config.withoutIP4.General.MulticastIP6 = config.General.MulticastIP6 := rfl
  have hpre := fun (ifs : List Interface) (st : List Conn × List NetCall) =>
    dialInterfaces_prefix config net [] ifs (attemptConns net (addrIP4 config))
      (attemptCalls net (addrIP4 config)) st
  refine ⟨rfl, ?_, ?_, ?_⟩
  · unfold DialMulticast
    simp only [hw4, hw6, if_pos h4, ne_eq, not_true_eq_false, if_false, dialAddr_eq,
      List.nil_append, dialInterfaces_withoutIP4]
    by_cases h6 : config.General.MulticastIP6 = ""
    · simp [h6, dialResult]
      split <;> simp
    · simp only [h6, not_false_eq_true, if_true]
      cases net.Interfaces with
      | error e => simp
      | ok netInterfaces =>
        have := hpre netInterfaces ([], [NetCall.Interfaces])
        simp only [List.append_nil] at this
        simp only [this, dialResult]
        split <;> split <;> simp
  · intro hnone
    unfold DialMulticast
    simp only [hw4, hw6, if_pos h4, ne_eq, not_true_eq_false, if_false, dialAddr_eq,
      List.nil_append, dialInterfaces_withoutIP4, hnone]
    by_cases h6 : config.General.MulticastIP6 = ""
    · simp [h6, dialResult]
    · simp only [h6, not_false_eq_true, if_true]
      cases net.Interfaces with
      | error e => simp
      | ok netInterfaces =>
        have := hpre netInterfaces ([], [NetCall.Interfaces])
        simp only [List.append_nil, hnone, List.nil_append] at this
        simp only [this, dialResult]
        split <;> rfl
  · intro h6 conn hconn
    unfold DialMulticast
    simp [h4, h6, dialAddr_eq, hconn, dialResult]

/-- Witness for C10: the scenario of the specification, `224.0.0.1`, port 54321
and no IPv6 address, on a network where the dial succeeds: exactly one endpoint
is opened, by one resolution of `224.0.0.1:54321` and one dial. -/
theorem DialMulticast_IP4_single_attempt_witness :
    configIP4.General.MulticastIP4 ≠ "" ∧
    DialMulticast configIP4 lanNet
      = (.ok { connections := [{ LocalAddr := "192.168.1.5:40000" }], started := false },
         [.ResolveUDPAddr "224.0.0.1:54321", .DialUDP { IP := "224.0.0.1", Port := 54321 }]) ∧
    DialMulticast configIP4 lanNet
      = (.ok { connections := [{ LocalAddr := "192.168.1.5:40000" }], started := false },
         attemptCalls lanNet (addrIP4 configIP4)) :=
  ⟨by decide, by decide,
    (DialMulticast_IP4_single_attempt configIP4 lanNet (by decide)).2.2.2 rfl _ (by decide)⟩

theorem dialInterfaces_eq (config : Config) (net : Net) (netInterfaces : List Interface)
    (st : List Conn × List NetCall) :
    dialInterfaces config net [] netInterfaces st
      = (st.1 ++ connsIP6 config net netInterfaces, st.2 ++ callsIP6 config net netInterfaces) := by
  induction netInterfaces generalizing st with
  | nil => simp [dialInterfaces, connsIP6, callsIP6]
  | cons netInterface rest ih =>
    simp only [dialInterfaces]
    by_cases hup : netInterface.Flags &&& FlagUp = 0
    · rw [if_pos hup, ih]
      simp [connsIP6, callsIP6, Interface.eligible, List.filter_cons, hup]
    · rw [if_neg hup]
      by_cases hmc : netInterface.Flags &&& FlagMulticast = 0
      · rw [if_pos hmc, ih]
        simp [connsIP6, callsIP6, Interface.eligible, List.filter_cons, hmc]
      · rw [if_neg hmc]
        have hlen : ¬ ((([] : List String).length > 0) ∧
            ¬ ([] : List String).contains netInterface.Name = true) := by simp
        rw [if_neg hlen, ih, dialAddr_eq]
        simp [connsIP6, callsIP6, Interface.eligible, List.filter_cons, hup, hmc,
          List.append_assoc]

theorem dialResult_fst (st : List Conn × List NetCall) :
    (dialResult st).1
      = (if st.1.length = 0 then .error (.leaf "Unable to dial any address")
        else .ok { connections := st.1, started := false }) := by
  unfold dialResult; split <;> rfl

theorem dialResult_snd (st : List Conn × List NetCall) : (dialResult st).2 = st.2 := by
  unfold dialResult; split <;> rfl

/-- C11. For a non-empty IPv6 multicast address and interfaces that can be
enumerated, the calls of `DialMulticast` are the IPv4 attempt (if an IPv4
address is set), the enumeration, and then exactly one attempt per enumerated
interface that is both up and multicast-capable, in enumeration order, each to
the target `[address%interfaceName]:port`; other interfaces are never dialed, and
an attempt that fails contributes no endpoint and nothing else. The opened
endpoints are returned in that order, after the IPv4 endpoint if any. This holds
for every value of the allow-list setting, the empty one included. -/
theorem DialMulticast_IP6_attempts (config : Config) (net : Net)
    (netInterfaces : List Interface)
    (h6 : config.General.MulticastIP6 ≠ "")
    (hifs : net.Interfaces = .ok netInterfaces) :
    (∀ name, addrIP6 config name
      = "[" ++ config.General.MulticastIP6 ++ "%" ++ name ++ "]:"
          ++ toString config.General.Port) ∧
    (DialMulticast config net).2
      = callsIP4 config net ++ NetCall.Interfaces :: callsIP6 config net netInterfaces ∧
    (DialMulticast config net).1
      = (if (connsIP4 config net ++ connsIP6 config net netInterfaces).length = 0 then
          .error (.leaf "Unable to dial any address")
        else .ok { connections := connsIP4 config net ++ connsIP6 config net netInterfaces,
                   started := false }) := by
  refine ⟨fun _ => rfl, ?_, ?_⟩
  · unfold DialMulticast
    simp only [h6, ne_eq, not_false_eq_true, if_true, hifs, dialInterfaces_eq, dialAddr_eq,
      callsIP4, dialResult_snd]
    by_cases h4 : config.General.MulticastIP4 = ""
    · simp [h4]
    · simp [h4]
  · unfold DialMulticast
    simp only [h6, ne_eq, not_false_eq_true, if_true, hifs, dialInterfaces_eq, dialAddr_eq,
      connsIP4, dialResult_fst]
    by_cases h4 : config.General.MulticastIP4 = ""
    · simp only [h4, not_true_eq_false, if_false, if_true]
    · simp only [h4, not_false_eq_true, if_true, if_false, List.nil_append]

/-- Witness for C11: the configuration of `main` on a host with `lo` (not
multicast-capable), `eth0` and `wlan0`: the IPv6 attempts are those for `eth0`
and `wlan0`, in that order, after the IPv4 attempt. -/
theorem DialMulticast_IP6_attempts_witness :
    callsIP6 configMain lanNet [ifLo, ifEth0, ifWlan0]
      = [.ResolveUDPAddr "[ff02::1%eth0]:54321",
         .DialUDP { IP := "ff02::1", Port := 54321, Zone := "eth0" },
         .ResolveUDPAddr "[ff02::1%wlan0]:54321",
         .DialUDP { IP := "ff02::1", Port := 54321, Zone := "wlan0" }] ∧
    (DialMulticast configMain lanNet).2
      = callsIP4 configMain lanNet
          ++ NetCall.Interfaces :: callsIP6 configMain lanNet [ifLo, ifEth0, ifWlan0] ∧
    (DialMulticast configMain lanNet).1
      = .ok { connections := [{ LocalAddr := "192.168.1.5:40000" },
                              { LocalAddr := "[fe80::1%eth0]:40000" },
                              { LocalAddr := "[fe80::1%wlan0]:40000" }],
              started := false } :=
  ⟨by decide,
   (DialMulticast_IP6_attempts configMain lanNet [ifLo, ifEth0, ifWlan0]
      (by decide) rfl).2.1,
   by decide⟩

/-! ## The connection multiplexer: `Close` -/

theorem wrapError_aggregateRev (c : Conn) (cause : GoError) (acc : List String) :
    some (wrapError c (aggregateRev acc) cause) = aggregateRev (closeEntry c cause :: acc) := by
  simp only [aggregateRev, wrapError, closeEntry]
  cases aggregateRev acc with
  | none => rfl
  | some agg => simp only [String.append_assoc]

theorem closeLoop_eq (cs : List Conn) (acc : List String) (closed : List Conn) :
    closeLoop cs (aggregateRev acc) closed
      = (aggregateRev ((closeEntries cs).reverse ++ acc), closed ++ cs) := by
  induction cs generalizing acc closed with
  | nil => simp [closeLoop, closeEntries]
  | cons c cs ih =>
    simp only [closeLoop]
    cases hc : c.close with
    | none =>
      simp only [ih]
      simp [closeEntries, List.filterMap_cons, hc]
    | some cause =>
      simp only [wrapError_aggregateRev, ih]
      simp [closeEntries, List.filterMap_cons, hc]

theorem intercalate_go_snoc (sep : String) (l : List String) (acc x : String) :
    String.intercalate.go acc sep (l ++ [x]) = String.intercalate.go acc sep l ++ sep ++ x := by
  induction l generalizing acc with
  | nil => simp [String.intercalate.go]
  | cons a l ih => simp [String.intercalate.go, ih]

theorem intercalate_snoc (sep : String) (l : List String) (a x : String) :
    sep.intercalate (a :: l ++ [x]) = sep.intercalate (a :: l) ++ sep ++ x := by
  simp only [String.intercalate, List.cons_append, intercalate_go_snoc]

theorem aggregateRev_Error (acc : List String) (err : GoError)
    (h : aggregateRev acc = some err) : err.Error = "; ".intercalate acc.reverse := by
  induction acc generalizing err with
  | nil => simp [aggregateRev] at h
  | cons entry earlier ih =>
    simp only [aggregateRev] at h
    cases hagg : aggregateRev earlier with
    | none =>
      rw [hagg] at h
      have he : earlier = [] := by
        cases earlier with
        | nil => rfl
        | cons e es =>
          simp only [aggregateRev] at hagg
          split at hagg <;> cases hagg
      simp only [Option.some.injEq] at h
      subst h he
      simp [GoError.Error, String.intercalate, String.intercalate.go]
    | some agg =>
      rw [hagg] at h
      simp only [Option.some.injEq] at h
      subst h
      have hne : earlier ≠ [] := by
        rintro rfl
        simp [aggregateRev] at hagg
      obtain ⟨a, l, hl⟩ : ∃ a l, earlier.reverse = a :: l := by
        cases hr : earlier.reverse with
        | nil => exact absurd (List.reverse_eq_nil_iff.mp hr) hne
        | cons a l => exact ⟨a, l, rfl⟩
      rw [List.reverse_cons, hl, intercalate_snoc, ← hl, ← ih agg hagg]
      simp [GoError.Error]

theorem aggregateRev_eq_none (acc : List String) : aggregateRev acc = none ↔ acc = [] := by
  cases acc with
  | nil => simp [aggregateRev]
  | cons e es =>
    simp only [aggregateRev]
    split <;> simp

/-- C12. `Close` calls `Close` on every endpoint exactly once, in list order,
whatever the earlier calls returned. Its result is the aggregate of the entries
`<local address> - <cause>` of the failing endpoints in endpoint order: nil
exactly when every endpoint closed successfully, otherwise an error with one
entry per failing endpoint, whose message is the entries joined by `; ` and
where each later entry wraps the aggregate of the earlier ones. -/
theorem Close_aggregates (this : ConnectionsStruct) :
    this.Close.2 = this.connections ∧
    this.Close.1 = aggregate (closeEntries this.connections) ∧
    (this.Close.1 = none ↔ ∀ c ∈ this.connections, c.close = none) ∧
    (closeEntries this.connections).length
      = (this.connections.filter (fun c => c.close.isSome)).length ∧
    (∀ err, this.Close.1 = some err →
      err.Error = "; ".intercalate (closeEntries this.connections)) ∧
    (∀ entries entry agg, aggregate entries = some agg →
      aggregate (entries ++ [entry]) = some (.wrap (agg.Error ++ "; " ++ entry) agg)) := by
  have hclose : this.Close
      = (aggregate (closeEntries this.connections), this.connections) := by
    have := closeLoop_eq this.connections [] []
    simp only [aggregateRev, List.append_nil, List.nil_append] at this
    exact this
  refine ⟨by rw [hclose], by rw [hclose], ?_, ?_, ?_, ?_⟩
  · rw [hclose]
    simp only [aggregate, aggregateRev_eq_none, List.reverse_eq_nil_iff, closeEntries,
      List.filterMap_eq_nil_iff, Option.map_eq_none']
  · simp only [closeEntries]
    induction this.connections with
    | nil => rfl
    | cons c cs ih =>
      cases hc : c.close with
      | none => simp [List.filterMap_cons, List.filter_cons, hc, ih]
      | some cause => simp [List.filterMap_cons, List.filter_cons, hc, ih]
  · intro err herr
    rw [hclose] at herr
    have := aggregateRev_Error _ err herr
    simpa using this
  · intro entries entry agg hagg
    simp only [aggregate] at hagg ⊢
    simp only [List.reverse_append, List.reverse_cons, List.reverse_nil, List.nil_append,
      List.singleton_append, aggregateRev, hagg]

theorem Close_example :
    ConnectionsStruct.Close { connections := [connCloseFails, connOk, connCloseFails6] }
      = (some (.wrap
          ("192.168.1.5:40000 - use of closed network connection; " ++
            "[fe80::1%eth0]:40001 - bad file descriptor")
          (.leaf "192.168.1.5:40000 - use of closed network connection")),
         [connCloseFails, connOk, connCloseFails6]) := by
  decide

/-! ## `ValidateConfig` -/

/-- C15. `ValidateConfig` returns an error if and only if both multicast
addresses are empty or the port is 0; for a configuration with at least one
non-empty multicast address and a non-zero port it returns nil. It only reads
the configuration: in the embedding it is a function of the configuration that
returns nothing but the error. -/
theorem ValidateConfig_error_iff (config : Config) :
    ((∃ err, ValidateConfig config = some err) ↔
      ((config.General.MulticastIP4 = "" ∧ config.General.MulticastIP6 = "") ∨
        config.General.Port = 0)) ∧
    (ValidateConfig config = none ↔
      ((config.General.MulticastIP4 ≠ "" ∨ config.General.MulticastIP6 ≠ "") ∧
        config.General.Port ≠ 0)) := by
  unfold ValidateConfig
  by_cases hboth : config.General.MulticastIP4 = "" ∧ config.General.MulticastIP6 = ""
  · rw [if_pos hboth]
    simp [hboth]
  · rw [if_neg hboth]
    have hor : config.General.MulticastIP4 ≠ "" ∨ config.General.MulticastIP6 ≠ "" := by
      by_contra hcon
      simp only [not_or, not_not] at hcon
      exact hboth hcon
    by_cases hport : config.General.Port = 0
    · rw [if_pos hport]
      simp [hport]
    · rw [if_neg hport]
      simp [hboth, hport, hor]

/-! ## The coder with one side only, and its `Close` -/

/-- C13. A coder built without a writer does not fail `Write` with an error
value: for every message the call ends in a nil-pointer panic. Likewise `Read`
on a coder built without a reader panics. `NewMessageCoder` builds such coders
without complaint. -/
theorem MessageCoder_one_sided_panics (lib : JsonLib) (message : Message)
    (gzipReader : GzipReader) (gzipWriter : GzipWriter) :
    NewMessageCoder (some (.ok gzipReader)) none
      = .ok { gzipReader := some gzipReader, gzipWriter := none } ∧
    MessageCoder.Write lib { gzipReader := some gzipReader, gzipWriter := none } message
      = .panic nilDereference ∧
    NewMessageCoder none (some gzipWriter)
      = .ok { gzipReader := none, gzipWriter := some gzipWriter } ∧
    MessageCoder.Read lib { gzipReader := none, gzipWriter := some gzipWriter }
      = .panic nilDereference :=
  ⟨rfl, rfl, rfl, rfl⟩

/-- C14. On a coder with both sides whose gzip reader fails to close, `Close`
returns the reader's error at once: `Close` is never called on the gzip writer,
which stays as it was. (With the reader closing without error the writer is
closed and its result returned; with neither side `Close` returns nil.) -/
theorem MessageCoder_Close_skips_writer (gzipReader : GzipReader) (gzipWriter : GzipWriter)
    (err : GoError) :
    MessageCoder.Close
        { gzipReader := some { gzipReader with closeErr := some err },
          gzipWriter := some { gzipWriter with closeCalled := false } }
      = (some err,
         { gzipReader := some { gzipReader with closeErr := some err, closeCalled := true },
           gzipWriter := some { gzipWriter with closeCalled := false } }) ∧
    MessageCoder.Close
        { gzipReader := some { gzipReader with closeErr := none },
          gzipWriter := some gzipWriter }
      = (gzipWriter.closeErr,
         { gzipReader := some { gzipReader with closeErr := none, closeCalled := true },
           gzipWriter := some { gzipWriter with closeCalled := true } }) ∧
    MessageCoder.Close {} = (none, {}) :=
  ⟨rfl, rfl, rfl⟩

/-! ## The lifecycle of the multiplexer: `Start` and `Stop` -/

theorem mapGet_mapSet_self (m : List (Nat × Nat)) (key value : Nat) :
    mapGet (mapSet m key value) key = some value := by
  induction m with
  | nil => simp [mapSet, mapGet]
  | cons e m ih =>
    obtain ⟨k, v⟩ := e
    by_cases hk : k = key
    · simp [mapSet, mapGet, hk]
    · simp [mapSet, mapGet, hk, ih]

theorem mapGet_mapSet_ne (m : List (Nat × Nat)) (key value other : Nat) (h : other ≠ key) :
    mapGet (mapSet m key value) other = mapGet m other := by
  induction m with
  | nil => simp [mapSet, mapGet, Ne.symm h]
  | cons e m ih =>
    obtain ⟨k, v⟩ := e
    by_cases hk : k = key
    · subst hk
      simp [mapSet, mapGet, Ne.symm h]
    · by_cases hko : k = other
      · subst hko
        simp [mapSet, mapGet, hk]
      · simp [mapSet, mapGet, hk, hko, ih]

theorem mapSet_new (m : List (Nat × Nat)) (key value : Nat) (h : ∀ e ∈ m, e.1 ≠ key) :
    mapSet m key value = m ++ [(key, value)] := by
  induction m with
  | nil => rfl
  | cons e m ih =>
    obtain ⟨k, v⟩ := e
    have hk : k ≠ key := h (k, v) (List.mem_cons_self _ _)
    simp [mapSet, hk, ih (fun e he => h e (List.mem_cons_of_mem _ he))]

theorem startLoop_tasks (cs : List Conn) (i fresh : Nat) (notify : List (Nat × Nat))
    (tasks : List PollTask) :
    (startLoop cs i fresh notify tasks).2
      = tasks ++ (List.range cs.length).map
          (fun j => ({ launched := i + j, notify := fresh + j } : PollTask)) := by
  induction cs generalizing i fresh notify tasks with
  | nil => simp [startLoop]
  | cons c cs ih =>
    simp only [startLoop, ih, List.length_cons, List.range_succ_eq_map, List.map_cons,
      List.map_map, List.append_assoc, List.singleton_append, Nat.add_zero]
    congr 2
    apply List.map_congr_left
    intro j _
    simp only [Function.comp, PollTask.mk.injEq]
    omega

theorem startLoop_get_lt (cs : List Conn) (i fresh : Nat) (notify : List (Nat × Nat))
    (tasks : List PollTask) (k : Nat) (hk : k < i) :
    mapGet (startLoop cs i fresh notify tasks).1 k = mapGet notify k := by
  induction cs generalizing i fresh notify tasks with
  | nil => rfl
  | cons c cs ih =>
    simp only [startLoop]
    rw [ih _ _ _ _ (by omega), mapGet_mapSet_ne _ _ _ _ (by omega)]

theorem startLoop_get (cs : List Conn) (i fresh : Nat) (notify : List (Nat × Nat))
    (tasks : List PollTask) (j : Nat) (hj : j < cs.length) :
    mapGet (startLoop cs i fresh notify tasks).1 (i + j) = some (fresh + j) := by
  induction cs generalizing i fresh notify tasks j with
  | nil => simp at hj
  | cons c cs ih =>
    simp only [startLoop]
    cases j with
    | zero =>
      rw [startLoop_get_lt _ _ _ _ _ _ (by omega)]
      simp only [Nat.add_zero, mapGet_mapSet_self]
    | succ j =>
      have := ih (i + 1) (fresh + 1) (mapSet notify i fresh)
        (tasks ++ [{ launched := i, notify := fresh }]) j
        (by simpa using hj)
      rw [show i + (j + 1) = i + 1 + j by omega, this]
      congr 1
      omega

theorem startLoop_fresh (cs : List Conn) (i fresh : Nat) (tasks : List PollTask) :
    (startLoop cs i (fresh + i) ((List.range i).map (fun j => (j, fresh + j))) tasks).1
      = (List.range (i + cs.length)).map (fun j => (j, fresh + j)) := by
  induction cs generalizing i tasks with
  | nil => simp [startLoop]
  | cons c cs ih =>
    simp only [startLoop, List.length_cons]
    rw [mapSet_new]
    · have := ih (i + 1) (tasks ++ [{ launched := i, notify := fresh + i }])
      rw [List.range_succ, List.map_append] at this
      simp only [List.map_cons, List.map_nil, Nat.add_assoc] at this
      rw [show i + (cs.length + 1) = i + (1 + cs.length) by omega]
      exact this
    · intro e he
      rw [List.mem_map] at he
      obtain ⟨j, hj, rfl⟩ := he
      exact Nat.ne_of_lt (List.mem_range.mp hj)

/-- C16. The lifecycle on the explicit state. `Start` on a multiplexer that is
not started sets `started`, keeps the endpoints, launches as many polling
goroutines as there are endpoints, one in the iteration of each endpoint and
each holding a channel of its own, and records that channel for the endpoint in
`notify` (on a multiplexer with an empty map the map gets exactly one entry per
endpoint). Which endpoint a goroutine reads from its variable `connection` is
not part of this state and is not stated here. `Start` on a started multiplexer
changes nothing and launches nothing, so a second `Start` is a no-op. `Stop` on
a multiplexer that is not started changes nothing and sends nothing; on a
started one it clears `started` and sends `"quit"` once on every recorded
channel; a second `Stop` sends nothing. -/
theorem Start_Stop_idempotent (this : ConnectionsStruct) (fresh fresh' : Nat) :
    (this.started = true → this.Start fresh = (this, [])) ∧
    (this.started = false →
      (this.Start fresh).1.started = true ∧
      (this.Start fresh).1.connections = this.connections ∧
      (this.Start fresh).2.length = this.connections.length ∧
      (this.Start fresh).2
        = (List.range this.connections.length).map
            (fun i => ({ launched := i, notify := fresh + i } : PollTask)) ∧
      (∀ i, i < this.connections.length →
        mapGet (this.Start fresh).1.notify i = some (fresh + i)) ∧
      (this.notify = [] →
        (this.Start fresh).1.notify
          = (List.range this.connections.length).map (fun i => (i, fresh + i)))) ∧
    (this.Start fresh).1.Start fresh' = ((this.Start fresh).1, []) ∧
    (this.started = false → this.Stop = (this, [])) ∧
    (this.started = true →
      this.Stop = ({ this with started := false }, this.notify.map (fun entry => entry.2))) ∧
    this.Stop.1.Stop = (this.Stop.1, []) := by
  refine ⟨?_, ?_, ?_, ?_, ?_, ?_⟩
  · intro h
    simp [ConnectionsStruct.Start, h]
  · intro h
    simp only [ConnectionsStruct.Start, h, Bool.false_eq_true, if_false]
    refine ⟨trivial, trivial, ?_, ?_, ?_, ?_⟩
    · rw [startLoop_tasks]
      simp
    · rw [startLoop_tasks]
      simp
    · intro i hi
      have := startLoop_get this.connections 0 fresh this.notify [] i hi
      simpa using this
    · intro hn
      have := startLoop_fresh this.connections 0 fresh []
      simpa [hn] using this
  · cases h : this.started <;> simp [ConnectionsStruct.Start, h]
  · intro h
    simp [ConnectionsStruct.Stop, h]
  · intro h
    simp [ConnectionsStruct.Stop, h]
  · cases h : this.started <;> simp [ConnectionsStruct.Stop, h]

theorem Start_Stop_example :
    (ConnectionsStruct.Start { connections := [connOk, connOk6] } 7)
      = ({ connections := [connOk, connOk6], started := true, notify := [(0, 7), (1, 8)] },
         [{ launched := 0, notify := 7 }, { launched := 1, notify := 8 }]) ∧
    ConnectionsStruct.Stop
        { connections := [connOk, connOk6], started := true, notify := [(0, 7), (1, 8)] }
      = ({ connections := [connOk, connOk6], started := false, notify := [(0, 7), (1, 8)] },
         [7, 8]) := by
  decide

theorem Start_tasks_connection (this : ConnectionsStruct) (fresh : Nat) (task : PollTask)
    (htask : task ∈ (this.Start fresh).2) :
    (∀ position, task.connection true position = task.launched) ∧
    task.connection false (this.connections.length - 1) = this.connections.length - 1 ∧
    task.launched < this.connections.length ∧
    mapGet (this.Start fresh).1.notify task.launched = some task.notify := by
  unfold ConnectionsStruct.Start at htask ⊢
  cases hs : this.started with
  | true => simp [hs] at htask
  | false =>
    simp only [hs, Bool.false_eq_true, if_false] at htask ⊢
    rw [startLoop_tasks] at htask
    simp only [List.nil_append, Nat.zero_add, List.mem_map, List.mem_range] at htask
    obtain ⟨i, hi, rfl⟩ := htask
    refine ⟨fun _ => rfl, rfl, hi, ?_⟩
    have := startLoop_get this.connections 0 fresh this.notify [] i hi
    simpa using this

theorem Start_tasks_connection_example :
    ((ConnectionsStruct.Start { connections := [connOk, connOk6] } 7).2.map
        (fun task => task.connection true 1)) = [0, 1] ∧
    ((ConnectionsStruct.Start { connections := [connOk, connOk6] } 7).2.map
        (fun task => task.connection false 1)) = [1, 1] := by
  decide

/-! ## The polling goroutine -/

theorem pollIteration_events (isDeadlineExceeded : GoError → Bool) (connection : Nat)
    (input : PollInput) :
    (pollIteration isDeadlineExceeded connection input.deadline input.pending
        input.readFrom).events = [] ∨
    ∃ event,
      (pollIteration isDeadlineExceeded connection input.deadline input.pending
        input.readFrom).events = [event] ∧
      (event.Error ≠ none →
        (pollIteration isDeadlineExceeded connection input.deadline input.pending
          input.readFrom).continues = false) := by
  unfold pollIteration
  simp only
  split
  · left; rfl
  · split
    · right; exact ⟨_, rfl, fun h => absurd rfl h⟩
    · split
      · right; exact ⟨_, rfl, fun _ => rfl⟩
      · left; rfl

theorem pollTask_error_last (isDeadlineExceeded : GoError → Bool) (connection : Nat)
    (inputs : List PollInput) (before : List ReadResult) (event : ReadResult)
    (after : List ReadResult)
    (h : pollTask isDeadlineExceeded connection inputs = before ++ event :: after)
    (herr : event.Error ≠ none) : after = [] := by
  induction inputs generalizing before with
  | nil => simp [pollTask] at h
  | cons input rest ih =>
    simp only [pollTask] at h
    rcases pollIteration_events isDeadlineExceeded connection input with h0 | ⟨ev, h1, hstop⟩
    · rw [h0, List.nil_append] at h
      split at h
      · exact ih before h
      · simp at h
    · rw [h1] at h
      cases before with
      | nil =>
        simp only [List.nil_append, List.singleton_append, List.cons.injEq] at h
        obtain ⟨hev, hafter⟩ := h
        subst hev
        rw [hstop herr] at hafter
        simpa using hafter.symm
      | cons b before =>
        simp only [List.cons_append, List.singleton_append, List.cons.injEq] at h
        obtain ⟨_, htail⟩ := h
        split at htail
        · exact ih before htail
        · simp at htail

/-- C19. One iteration of the polling goroutine of an endpoint, as a function
of the results of arming the deadline, looking at the cancel channel and
receiving. With the deadline armed and `"quit"` pending it terminates without a
receive and without an event. Otherwise, with the deadline armed, it receives:
on success it sends exactly one success event and goes on; on a deadline error
it sends nothing and goes on; on any other error it sends exactly one error
event and terminates. When arming the deadline fails, the same holds for that
error, without a receive. Hence in the events of a goroutine nothing follows an
error event. -/
theorem pollIteration_spec (isDeadlineExceeded : GoError → Bool) (connection : Nat) :
    (∀ readFrom, pollIteration isDeadlineExceeded connection none (some "quit") readFrom
      = { received := false, events := [], continues := false }) ∧
    (∀ pending, pending ≠ some "quit" →
      pollIteration isDeadlineExceeded connection none pending none
        = { received := true, events := [{ Connection := connection, Error := none }],
            continues := true }) ∧
    (∀ pending err, pending ≠ some "quit" → isDeadlineExceeded err = true →
      pollIteration isDeadlineExceeded connection none pending (some err)
        = { received := true, events := [], continues := true }) ∧
    (∀ pending err, pending ≠ some "quit" → isDeadlineExceeded err = false →
      pollIteration isDeadlineExceeded connection none pending (some err)
        = { received := true, events := [{ Connection := connection, Error := some err }],
            continues := false }) ∧
    (∀ pending readFrom err,
      pollIteration isDeadlineExceeded connection (some err) pending readFrom
        = (if isDeadlineExceeded err then { received := false, events := [], continues := true }
          else { received := false,
                 events := [{ Connection := connection, Error := some err }],
                 continues := false })) ∧
    (∀ inputs before event after,
      pollTask isDeadlineExceeded connection inputs = before ++ event :: after →
      event.Error ≠ none → after = []) := by
  have haction : ∀ pending : Option String, pending ≠ some "quit" →
      (match pending with
        | some message => message
        | none => "read") ≠ "quit" := by
    intro pending hp
    cases pending with
    | none => decide
    | some message => exact fun h => hp (congrArg some h)
  refine ⟨?_, ?_, ?_, ?_, ?_, ?_⟩
  · intro readFrom
    simp [pollIteration]
  · intro pending hp
    simp [pollIteration, haction pending hp]
  · intro pending err hp hd
    simp [pollIteration, haction pending hp, hd]
  · intro pending err hp hd
    simp [pollIteration, haction pending hp, hd]
  · intro pending readFrom err
    cases hd : isDeadlineExceeded err <;> simp [pollIteration, hd]
  · intro inputs before event after h herr
    exact pollTask_error_last isDeadlineExceeded connection inputs before event after h herr

theorem pollTask_example :
    pollTask timeoutOnly 0
      [{}, { readFrom := some (.leaf "i/o timeout") }, { readFrom := some errRefused }, {}]
      = [{ Connection := 0, Error := none }, { Connection := 0, Error := some errRefused }] ∧
    pollTask timeoutOnly 0 [{}, { pending := some "quit" }, {}]
      = [{ Connection := 0, Error := none }] := by
  decide

/-! ## `Stop` against the polling goroutines -/

theorem no_step_sysTerminated (isDeadlineExceeded : GoError → Bool) (s' : Sys) :
    ¬ Step isDeadlineExceeded sysTerminated s' := by
  intro h
  generalize hs : sysTerminated = s at h
  cases h with
  | armed i hi | armFailed i _ hi | received i hi | failed i _ hi =>
    subst hs
    cases i <;> simp [sysTerminated] at hi
  | quit i rest hi _ | read i hi _ | deliver i _ _ hi _ =>
    subst hs
    cases i <;> simp [sysTerminated] at hi
  | stopCalled hstop =>
    subst hs
    simp [sysTerminated] at hstop

theorem no_step_sysBlocked (isDeadlineExceeded : GoError → Bool) (s' : Sys) :
    ¬ Step isDeadlineExceeded sysBlocked s' := by
  intro h
  generalize hs : sysBlocked = s at h
  cases h with
  | armed i hi | armFailed i _ hi | received i hi | failed i _ hi =>
    subst hs
    cases i <;> simp [sysBlocked] at hi
  | quit i rest hi _ | read i hi _ =>
    subst hs
    cases i <;> simp [sysBlocked] at hi
  | deliver i _ _ _ hc =>
    subst hs
    simp [sysBlocked] at hc
  | stopCalled hstop =>
    subst hs
    simp [sysBlocked] at hstop

theorem reachable_stuck (isDeadlineExceeded : GoError → Bool) (s s' : Sys)
    (hstuck : ∀ t, ¬ Step isDeadlineExceeded s t)
    (h : Reachable isDeadlineExceeded s s') : s' = s := by
  induction h with
  | refl => rfl
  | tail _ hstep ih =>
    subst ih
    exact absurd hstep (hstuck _)

/-- C20. `Stop` does not complete from every reachable state of a started
multiplexer. A multiplexer with one endpoint reaches, by the steps of its
goroutine, a failing receive, the consumer taking the error event and the call
of `Stop`, a state in which the goroutine has terminated and `Stop` is sending
`"quit"` on its channel; from there no step is possible, so `Stop` never
returns. The same holds when the goroutine is handing an event to a consumer
that does not read. -/
theorem Stop_blocks_forever :
    Reachable timeoutOnly (Sys.started 1 true) sysTerminated ∧
    (∀ s', Reachable timeoutOnly sysTerminated s' →
      s' = sysTerminated ∧ s'.stopReturned = false) ∧
    Reachable timeoutOnly (Sys.started 1 false) sysBlocked ∧
    (∀ s', Reachable timeoutOnly sysBlocked s' →
      s' = sysBlocked ∧ s'.stopReturned = false) := by
  refine ⟨?_, ?_, ?_, ?_⟩
  · have h1 : Step timeoutOnly (Sys.started 1 true) { tasks := [.select] } :=
      Step.armed (Sys.started 1 true) 0 rfl
    have h2 : Step timeoutOnly { tasks := [.select] } { tasks := [.recv] } :=
      Step.read { tasks := [.select] } 0 rfl (by intro rest h; cases h)
    have h3 : Step timeoutOnly { tasks := [.recv] }
        { tasks := [.emit { Connection := 0, Error := some errRefused } false] } :=
      Step.failed { tasks := [.recv] } 0 errRefused rfl
    have h4 : Step timeoutOnly
        { tasks := [.emit { Connection := 0, Error := some errRefused } false] }
        { tasks := [.done], delivered := [{ Connection := 0, Error := some errRefused }] } :=
      Step.deliver { tasks := [.emit { Connection := 0, Error := some errRefused } false] }
        0 _ false rfl rfl
    have h5 : Step timeoutOnly
        { tasks := [.done], delivered := [{ Connection := 0, Error := some errRefused }] }
        sysTerminated :=
      Step.stopCalled
        { tasks := [.done], delivered := [{ Connection := 0, Error := some errRefused }] } rfl
    exact ((((Relation.ReflTransGen.single h1).tail h2).tail h3).tail h4).tail h5
  · intro s' h
    have := reachable_stuck timeoutOnly _ s' (no_step_sysTerminated timeoutOnly) h
    subst this
    exact ⟨rfl, by decide⟩
  · have h1 : Step timeoutOnly (Sys.started 1 false)
        { tasks := [.select], consumerReads := false } :=
      Step.armed (Sys.started 1 false) 0 rfl
    have h2 : Step timeoutOnly { tasks := [.select], consumerReads := false }
        { tasks := [.recv], consumerReads := false } :=
      Step.read { tasks := [.select], consumerReads := false } 0 rfl
        (by intro rest h; cases h)
    have h3 : Step timeoutOnly { tasks := [.recv], consumerReads := false }
        { tasks := [.emit { Connection := 0, Error := none } true], consumerReads := false } :=
      Step.received { tasks := [.recv], consumerReads := false } 0 rfl
    have h4 : Step timeoutOnly
        { tasks := [.emit { Connection := 0, Error := none } true], consumerReads := false }
        sysBlocked :=
      Step.stopCalled
        { tasks := [.emit { Connection := 0, Error := none } true], consumerReads := false } rfl
    exact (((Relation.ReflTransGen.single h1).tail h2).tail h3).tail h4
  · intro s' h
    have := reachable_stuck timeoutOnly _ s' (no_step_sysBlocked timeoutOnly) h
    subst this
    exact ⟨rfl, by decide⟩

/-! ## `SplitCamelCaseString` -/

theorem isUpperLetter_case (c : Char) (h : isUpperLetter c = true) :
    c.toUpper = c ∧ c.toLower ≠ c := by
  simp only [isUpperLetter, Bool.and_eq_true, decide_eq_true_eq] at h
  obtain ⟨h1, h2⟩ := h
  have hc : Char.ofNat c.toNat = c := Char.ofNat_toNat c
  generalize c.toNat = n at h1 h2 hc
  subst hc
  interval_cases n <;> decide

theorem not_isUpperLetter_case (c : Char) (h : isUpperLetter c = false) : c.toLower = c := by
  simp only [isUpperLetter, Bool.and_eq_false_iff, decide_eq_false_iff_not] at h
  unfold Char.toLower
  simp only
  rw [if_neg]
  rintro ⟨h1, h2⟩
  rcases h with h | h
  · exact h h1
  · exact h h2

theorem underscore_not_upper : isUpperLetter '_' = false := by decide

theorem splitRune_cut (c : Char) (acronym : Nat) (builder : List Char)
    (result : List (List Char)) (prev2 prev1 : Option Char)
    (h0 : acronym = 0 ↔ prev1.any isUpperLetter = false)
    (h2 : 1 < acronym ↔ (prev1.any isUpperLetter = true ∧ prev2.any isUpperLetter = true)) :
    splitRune c c.toUpper c.toLower acronym builder result
      = (if cutBefore actualAfterAcronym prev2 prev1 c then
          (nextAcronym c acronym, [], result ++ [builder])
        else (nextAcronym c acronym, builder, result)) := by
  by_cases hus : c = '_'
  · have hcut : cutBefore actualAfterAcronym prev2 prev1 c = true := by
      simp [cutBefore, hus]
    unfold splitRune nextAcronym
    rw [if_pos hus, hcut, if_pos rfl, if_pos hus]
  · have hbeq : (c == '_') = false := by simpa using hus
    cases hup : isUpperLetter c with
    | true =>
      obtain ⟨hU, hL⟩ := isUpperLetter_case c hup
      have hcond : c.toUpper ≠ c.toLower ∧ c = c.toUpper := by
        rw [hU]; exact ⟨fun h => hL h.symm, rfl⟩
      unfold splitRune nextAcronym
      rw [if_neg hus, if_pos hcond, if_neg hus]
      simp only [hup, if_true]
      by_cases ha : acronym = 0
      · have hp : prev1.any isUpperLetter = false := h0.mp ha
        have hcut : cutBefore actualAfterAcronym prev2 prev1 c = true := by
          simp only [cutBefore, hbeq, hup, hp, Bool.not_false, Bool.and_self, Bool.false_or,
            Bool.true_or]
        rw [if_pos ha, hcut, if_pos rfl]
      · have hp : prev1.any isUpperLetter = true := by
          cases hq : prev1.any isUpperLetter with
          | true => rfl
          | false => exact absurd (h0.mpr hq) ha
        have hcut : cutBefore actualAfterAcronym prev2 prev1 c = false := by
          simp only [cutBefore, hbeq, hup, hp, actualAfterAcronym, Bool.not_true, Bool.and_false,
            Bool.false_and, Bool.or_false]
        rw [if_neg ha, hcut, if_neg Bool.false_ne_true]
    | false =>
      have hL := not_isUpperLetter_case c hup
      have hcond : ¬ (c.toUpper ≠ c.toLower ∧ c = c.toUpper) := by
        rw [hL]
        rintro ⟨h1, h2⟩
        exact h1 h2.symm
      unfold splitRune nextAcronym
      rw [if_neg hus, if_neg hcond, if_pos hL.symm, if_neg hus]
      simp only [hup, Bool.false_eq_true, if_false]
      by_cases ha : 1 < acronym
      · obtain ⟨hp1, hp2⟩ := h2.mp ha
        have hcut : cutBefore actualAfterAcronym prev2 prev1 c = true := by
          simp only [cutBefore, hbeq, hup, hp1, hp2, actualAfterAcronym, Bool.not_false,
            Bool.and_self, Bool.false_and, Bool.false_or, Bool.or_true]
        rw [if_pos ha, hcut, if_pos rfl]
      · have hp' : (prev1.any isUpperLetter && prev2.any isUpperLetter) = false := by
          cases h1 : prev1.any isUpperLetter with
          | false => rfl
          | true =>
            cases h2' : prev2.any isUpperLetter with
            | false => rfl
            | true => exact absurd (h2.mpr ⟨h1, h2'⟩) ha
        have hcut : cutBefore actualAfterAcronym prev2 prev1 c = false := by
          simp only [cutBefore, hbeq, hup, actualAfterAcronym, Bool.not_false, Bool.false_and,
            Bool.false_or, Bool.true_and, Bool.and_assoc, hp']
        rw [if_neg ha, hcut, if_neg Bool.false_ne_true]

theorem nextAcronym_inv (c : Char) (acronym : Nat) (prev1 : Option Char)
    (h0 : acronym = 0 ↔ prev1.any isUpperLetter = false) :
    (nextAcronym c acronym = 0 ↔ (some c).any isUpperLetter = false) ∧
    (1 < nextAcronym c acronym ↔
      ((some c).any isUpperLetter = true ∧ prev1.any isUpperLetter = true)) := by
  by_cases hus : c = '_'
  · have hn : nextAcronym c acronym = 0 := by unfold nextAcronym; rw [if_pos hus]
    rw [hn, hus]
    simp [underscore_not_upper]
  · cases hup : isUpperLetter c with
    | true =>
      have hn : nextAcronym c acronym = acronym + 1 := by
        unfold nextAcronym; rw [if_neg hus, hup, if_pos rfl]
      rw [hn]
      simp only [Option.any_some, hup, Nat.add_eq_zero, one_ne_zero, and_false,
        Bool.true_eq_false, true_and]
      constructor
      · intro h
        cases hq : prev1.any isUpperLetter with
        | true => rfl
        | false =>
          have := h0.mpr hq
          omega
      · intro h
        have : acronym ≠ 0 := fun ha => by
          rw [h0.mp ha] at h
          cases h
        omega
    | false =>
      have hn : nextAcronym c acronym = 0 := by
        unfold nextAcronym; rw [if_neg hus, hup, if_neg Bool.false_ne_true]
      rw [hn]
      simp [hup]

theorem drop_eq_cons_get {α : Type} (l : List α) (i : Nat) (a : α) (t : List α)
    (h : l.drop i = a :: t) : l.get? i = some a ∧ l.drop (i + 1) = t := by
  induction l generalizing i with
  | nil => simp at h
  | cons x l ih =>
    cases i with
    | zero =>
      simp only [List.drop_zero, List.cons.injEq] at h
      simp [h.1, h.2]
    | succ i =>
      simp only [List.drop_succ_cons] at h
      simpa using ih i h

theorem splitLoop_words (uppers lowers rest : List Char) (i acronym : Nat)
    (builder : List Char) (result : List (List Char)) (prev2 prev1 : Option Char)
    (hu : uppers.drop i = rest.map Char.toUpper) (hl : lowers.drop i = rest.map Char.toLower)
    (hascii : ∀ c ∈ rest, c.utf8Size = 1)
    (h0 : acronym = 0 ↔ prev1.any isUpperLetter = false)
    (h2 : 1 < acronym ↔ (prev1.any isUpperLetter = true ∧ prev2.any isUpperLetter = true)) :
    splitLoop uppers lowers rest i acronym builder result
      = some (result ++
          wordsFrom actualAfterAcronym rest (decide (i = 0)) prev2 prev1 builder) := by
  induction rest generalizing i acronym builder result prev2 prev1 with
  | nil => simp [splitLoop, wordsFrom]
  | cons c rest ih =>
    simp only [List.map_cons] at hu hl
    obtain ⟨hgu, hdu⟩ := drop_eq_cons_get _ _ _ _ hu
    obtain ⟨hgl, hdl⟩ := drop_eq_cons_get _ _ _ _ hl
    have hsize : c.utf8Size = 1 := hascii c (List.mem_cons_self _ _)
    have hrest : ∀ d ∈ rest, d.utf8Size = 1 := fun d hd => hascii d (List.mem_cons_of_mem _ hd)
    obtain ⟨hn0, hn2⟩ := nextAcronym_inv c acronym prev1 h0
    have hfirst : decide (i + 1 = 0) = false := by simp
    simp only [splitLoop, hgu, hgl, hsize, splitRune_cut c acronym builder result prev2 prev1 h0 h2,
      wordsFrom]
    by_cases hcut : cutBefore actualAfterAcronym prev2 prev1 c = true
    · simp only [hcut, if_true]
      by_cases hus : c = '_' ∧ i > 0
      · have hkept : (c = '_' ∧ decide (i = 0) = false) := by
          refine ⟨hus.1, ?_⟩
          simp only [decide_eq_false_iff_not]
          omega
        rw [if_pos hus, if_pos hkept, ih (i + 1) _ _ _ prev1 (some c) hdu hdl hrest hn0 hn2,
          hfirst]
        simp
      · have hkept : ¬ (c = '_' ∧ decide (i = 0) = false) := by
          rintro ⟨h1, h2'⟩
          simp only [decide_eq_false_iff_not] at h2'
          exact hus ⟨h1, by omega⟩
        rw [if_neg hus, if_neg hkept, ih (i + 1) _ _ _ prev1 (some c) hdu hdl hrest hn0 hn2,
          hfirst]
        simp
    · have hcut' : cutBefore actualAfterAcronym prev2 prev1 c = false := by
        cases h : cutBefore actualAfterAcronym prev2 prev1 c with
        | true => exact absurd h hcut
        | false => rfl
      simp only [hcut', Bool.false_eq_true, if_false]
      by_cases hus : c = '_' ∧ i > 0
      · have hkept : (c = '_' ∧ decide (i = 0) = false) := by
          refine ⟨hus.1, ?_⟩
          simp only [decide_eq_false_iff_not]
          omega
        rw [if_pos hus, if_pos hkept, ih (i + 1) _ _ _ prev1 (some c) hdu hdl hrest hn0 hn2,
          hfirst]
        simp
      · have hkept : ¬ (c = '_' ∧ decide (i = 0) = false) := by
          rintro ⟨h1, h2'⟩
          simp only [decide_eq_false_iff_not] at h2'
          exact hus ⟨h1, by omega⟩
        rw [if_neg hus, if_neg hkept, ih (i + 1) _ _ _ prev1 (some c) hdu hdl hrest hn0 hn2,
          hfirst]

theorem wordsFrom_congr (f g : Char → Bool) (rest : List Char) (first : Bool)
    (prev2 prev1 : Option Char) (word : List Char)
    (h : ∀ c ∈ rest, c = '_' ∨ f c = g c) :
    wordsFrom f rest first prev2 prev1 word = wordsFrom g rest first prev2 prev1 word := by
  induction rest generalizing first prev2 prev1 word with
  | nil => rfl
  | cons c rest ih =>
    have hcut : cutBefore f prev2 prev1 c = cutBefore g prev2 prev1 c := by
      rcases h c (List.mem_cons_self _ _) with hc | hc
      · simp [cutBefore, hc]
      · simp [cutBefore, hc]
    have hrest : ∀ d ∈ rest, d = '_' ∨ f d = g d :=
      fun d hd => h d (List.mem_cons_of_mem _ hd)
    simp only [wordsFrom, hcut, ih _ _ _ _ hrest]

/-- Counterexample for C17: on the identifier `MulticastIP4` the code cuts
between the acronym `IP` and the digit, giving `Multicast`, `IP`, `4`, while the
rules of the claim, which cut after an acronym only before a lowercase letter,
give `Multicast`, `IP4`. -/
theorem SplitCamelCaseString_cuts_before_digit :
    SplitCamelCaseString asciiCase "MulticastIP4".toList
      = some ["Multicast".toList, "IP".toList, "4".toList] ∧
    splitWords claimedAfterAcronym "MulticastIP4".toList
      = ["Multicast".toList, "IP4".toList] := by
  decide

/-- C17, amended. On an identifier of one-byte characters with their ASCII
case forms `SplitCamelCaseString` returns the words of the specification with
the third rule widened: it cuts at every underscore (dropping it, except one at
position 0), before every uppercase letter not preceded by an uppercase letter,
and between a run of two or more uppercase letters and a directly following
character that is not an uppercase letter (a lowercase letter, but also a
digit); empty words are dropped. On identifiers of letters and underscores
these are the words of the claim's own rules, and the examples of the test all
hold. -/
theorem SplitCamelCaseString_words (unicode : CaseMap) (original : List Char)
    (hascii : ∀ c ∈ original, c.utf8Size = 1)
    (hcase : ∀ c ∈ original, unicode.ToUpper c = c.toUpper ∧ unicode.ToLower c = c.toLower) :
    SplitCamelCaseString unicode original = some (splitWords actualAfterAcronym original) ∧
    (∀ word ∈ splitWords actualAfterAcronym original, word ≠ []) ∧
    ((∀ c ∈ original, isUpperLetter c = true ∨ isLowerLetter c = true ∨ c = '_') →
      splitWords claimedAfterAcronym original = splitWords actualAfterAcronym original) ∧
    (∀ test ∈ splitTests,
      SplitCamelCaseString asciiCase test.1.toList = some (test.2.map String.toList)) := by
  refine ⟨?_, ?_, ?_, ?_⟩
  · have hu : original.map unicode.ToUpper = original.map Char.toUpper :=
      List.map_congr_left (fun c hc => (hcase c hc).1)
    have hl : original.map unicode.ToLower = original.map Char.toLower :=
      List.map_congr_left (fun c hc => (hcase c hc).2)
    have := splitLoop_words (original.map Char.toUpper) (original.map Char.toLower) original
      0 0 [] [] none none rfl rfl hascii (by simp) (by simp)
    simp only [SplitCamelCaseString, hu, hl, this, splitWords, List.nil_append, decide_True]
  · intro word hword
    simp only [splitWords, List.mem_filter, decide_eq_true_eq] at hword
    exact hword.2
  · intro hletters
    unfold splitWords
    rw [wordsFrom_congr claimedAfterAcronym actualAfterAcronym]
    intro c hc
    rcases hletters c hc with h | h | h
    · right
      simp only [claimedAfterAcronym, actualAfterAcronym, h, Bool.not_true]
      simp only [isUpperLetter, isLowerLetter, Bool.and_eq_true, decide_eq_true_eq,
        Bool.and_eq_false_iff, decide_eq_false_iff_not] at h ⊢
      omega
    · right
      simp only [claimedAfterAcronym, actualAfterAcronym, h]
      simp only [isUpperLetter, isLowerLetter, Bool.and_eq_true, decide_eq_true_eq,
        Bool.not_eq_true', Bool.and_eq_false_iff, decide_eq_false_iff_not,
        Bool.true_eq] at h ⊢
      omega
    · left; exact h
  · decide

/-- Witness for C17: the identifier `HelloWORLDagain` of the test, with the
ASCII case mapping. -/
theorem SplitCamelCaseString_words_witness :
    (∀ c ∈ "HelloWORLDagain".toList, c.utf8Size = 1) ∧
    SplitCamelCaseString asciiCase "HelloWORLDagain".toList
      = some (splitWords actualAfterAcronym "HelloWORLDagain".toList) ∧
    splitWords actualAfterAcronym "HelloWORLDagain".toList
      = ["Hello".toList, "WORLD".toList, "again".toList] :=
  ⟨by decide,
   (SplitCamelCaseString_words asciiCase "HelloWORLDagain".toList (by decide)
      (fun _ _ => ⟨rfl, rfl⟩)).1,
   by decide⟩

/-! ## `FixMultiLineString` -/

theorem TrimSpace_last (t : List Char) (c : Char) (h : (TrimSpace t).getLast? = some c) :
    isSpace c = false := by
  unfold TrimSpace at h
  rw [List.getLast?_reverse] at h
  cases hd : (t.dropWhile isSpace).reverse.dropWhile isSpace with
  | nil => rw [hd] at h; cases h
  | cons d l =>
    have hnot := List.head_dropWhile_not isSpace (t.dropWhile isSpace).reverse
      (by rw [hd]; simp)
    rw [hd] at h
    simp only [List.head?_cons, Option.some.injEq] at h
    subst h
    simpa [hd] using hnot

theorem commonPrefix_eq_left (a b : List Char) (h : a <+: b) : commonPrefix a b = a := by
  induction a generalizing b with
  | nil => cases b <;> rfl
  | cons x a ih =>
    obtain ⟨t, rfl⟩ := h
    simp [commonPrefix, ih (a ++ t) (List.prefix_append a t)]

theorem commonPrefix_eq_right (a b : List Char) (h : b <+: a) :
    commonPrefix a b = b := by
  induction b generalizing a with
  | nil => cases a <;> rfl
  | cons x b ih =>
    obtain ⟨t, rfl⟩ := h
    simp [commonPrefix, ih (b ++ t) (List.prefix_append b t)]

theorem marginLoop_begins (rest : List (List Char)) (margin : List Char) :
    marginLoop rest margin <+: margin ∧ ∀ indent ∈ rest, marginLoop rest margin <+: indent := by
  induction rest generalizing margin with
  | nil => exact ⟨List.prefix_refl _, fun _ h => by cases h⟩
  | cons indent rest ih =>
    unfold marginLoop
    by_cases h1 : margin.isPrefixOf indent = true
    · rw [if_pos h1]
      have hp : margin <+: indent := List.isPrefixOf_iff_prefix.mp h1
      refine ⟨(ih margin).1, fun x hx => ?_⟩
      rcases List.mem_cons.mp hx with rfl | hx
      · exact (ih margin).1.trans hp
      · exact (ih margin).2 x hx
    · rw [if_neg h1]
      by_cases h2 : indent.isPrefixOf margin = true
      · rw [if_pos h2]
        have hp : indent <+: margin := List.isPrefixOf_iff_prefix.mp h2
        refine ⟨(ih indent).1.trans hp, fun x hx => ?_⟩
        rcases List.mem_cons.mp hx with rfl | hx
        · exact (ih x).1
        · exact (ih indent).2 x hx
      · rw [if_neg h2]
        exact ⟨List.nil_prefix, fun _ _ => List.nil_prefix⟩

theorem marginLoop_common_or_nil (rest : List (List Char)) (margin : List Char) :
    marginLoop rest margin = rest.foldl commonPrefix margin ∨ marginLoop rest margin = [] := by
  induction rest generalizing margin with
  | nil => exact Or.inl rfl
  | cons indent rest ih =>
    unfold marginLoop
    by_cases h1 : margin.isPrefixOf indent = true
    · rw [if_pos h1, List.foldl_cons,
        commonPrefix_eq_left _ _ (List.isPrefixOf_iff_prefix.mp h1)]
      exact ih margin
    · rw [if_neg h1]
      by_cases h2 : indent.isPrefixOf margin = true
      · rw [if_pos h2, List.foldl_cons,
          commonPrefix_eq_right _ _ (List.isPrefixOf_iff_prefix.mp h2)]
        exact ih indent
      · rw [if_neg h2]
        exact Or.inr rfl

theorem marginLoop_common (rest : List (List Char)) (margin : List Char)
    (h : ∀ a ∈ margin :: rest, ∀ b ∈ margin :: rest,
      (a.isPrefixOf b || b.isPrefixOf a) = true) :
    marginLoop rest margin = rest.foldl commonPrefix margin := by
  induction rest generalizing margin with
  | nil => rfl
  | cons indent rest ih =>
    unfold marginLoop
    by_cases h1 : margin.isPrefixOf indent = true
    · rw [if_pos h1, List.foldl_cons,
        commonPrefix_eq_left _ _ (List.isPrefixOf_iff_prefix.mp h1)]
      apply ih
      intro a ha b hb
      apply h
      · rcases List.mem_cons.mp ha with rfl | ha
        · exact List.mem_cons_self _ _
        · exact List.mem_cons_of_mem _ (List.mem_cons_of_mem _ ha)
      · rcases List.mem_cons.mp hb with rfl | hb
        · exact List.mem_cons_self _ _
        · exact List.mem_cons_of_mem _ (List.mem_cons_of_mem _ hb)
    · rw [if_neg h1]
      by_cases h2 : indent.isPrefixOf margin = true
      · rw [if_pos h2, List.foldl_cons,
          commonPrefix_eq_right _ _ (List.isPrefixOf_iff_prefix.mp h2)]
        apply ih
        intro a ha b hb
        exact h a (List.mem_cons_of_mem _ ha) b (List.mem_cons_of_mem _ hb)
      · have := h margin (List.mem_cons_self _ _) indent
          (List.mem_cons_of_mem _ (List.mem_cons_self _ _))
        simp only [Bool.or_eq_true] at this
        rcases this with h | h
        · exact absurd h h1
        · exact absurd h h2

theorem marginOf_begins (indents : List (List Char)) :
    ∀ indent ∈ indents, marginOf indents <+: indent := by
  intro indent h
  cases indents with
  | nil => cases h
  | cons first rest =>
    rcases List.mem_cons.mp h with rfl | h
    · exact (marginLoop_begins rest indent).1
    · exact (marginLoop_begins rest first).2 indent h

theorem marginOf_common_or_nil (indents : List (List Char)) :
    marginOf indents = commonIndentation indents ∨ marginOf indents = [] := by
  cases indents with
  | nil => exact Or.inl rfl
  | cons first rest => exact marginLoop_common_or_nil rest first

theorem marginOf_common (indents : List (List Char))
    (h : ∀ a ∈ indents, ∀ b ∈ indents, (a.isPrefixOf b || b.isPrefixOf a) = true) :
    marginOf indents = commonIndentation indents := by
  cases indents with
  | nil => rfl
  | cons first rest => exact marginLoop_common rest first h

theorem filter_emptied (lines : List (List Char)) :
    (lines.map (fun line => if line.all isBlank then [] else line)).filter
        (fun line => line ≠ [])
      = lines.filter (fun line => !line.all isBlank) := by
  induction lines with
  | nil => rfl
  | cons line lines ih =>
    rw [List.map_cons]
    cases hb : line.all isBlank with
    | true =>
      rw [if_pos rfl, List.filter_cons_of_neg (by simp), List.filter_cons_of_neg (by simp [hb])]
      exact ih
    | false =>
      have hne : line ≠ [] := by
        rintro rfl
        cases hb
      rw [if_neg (by simp), List.filter_cons_of_pos (by simpa using hne),
        List.filter_cons_of_pos (by simp [hb]), ih]

theorem Dedent_eq_linesWithout (text : List Char) :
    Dedent text = linesWithout (marginOf ((contentLines text).map indentation)) text := by
  have hindents :
      ((((splitLines text).map (fun line => if line.all isBlank then [] else line)).filter
          (fun line => line ≠ [])).map (fun line => line.takeWhile isBlank))
        = (contentLines text).map indentation := by
    rw [filter_emptied]
    rfl
  unfold Dedent
  simp only
  rw [hindents]
  unfold linesWithout
  by_cases hm : marginOf ((contentLines text).map indentation) = []
  · rw [if_pos hm, hm]
    simp
  · rw [if_neg hm, List.map_map]
    congr 1
    apply List.map_congr_left
    intro line hline
    simp only [Function.comp]
    cases hb : line.all isBlank with
    | true =>
      simp only [if_true]
      cases hmm : marginOf ((contentLines text).map indentation) with
      | nil => exact absurd hmm hm
      | cons c m => rfl
    | false =>
      simp only [Bool.false_eq_true, if_false]
      have hmem : indentation line ∈ (contentLines text).map indentation := by
        apply List.mem_map_of_mem
        unfold contentLines
        rw [List.mem_filter]
        exact ⟨hline, by simp [hb]⟩
      have hp : marginOf ((contentLines text).map indentation) <+: line :=
        (marginOf_begins _ _ hmem).trans (List.takeWhile_prefix _)
      rw [if_pos (List.isPrefixOf_iff_prefix.mpr hp)]

theorem splitLines_mem (text : List Char) :
    ∀ line ∈ splitLines text, ∀ c ∈ line, c ∈ text := by
  induction text with
  | nil =>
    intro line h c hc
    simp [splitLines] at h
    subst h
    cases hc
  | cons d text ih =>
    intro line h c hc
    unfold splitLines at h
    by_cases hd : d = '\n'
    · rw [if_pos hd] at h
      rcases List.mem_cons.mp h with rfl | h
      · cases hc
      · exact List.mem_cons_of_mem _ (ih line h c hc)
    · rw [if_neg hd] at h
      cases hs : splitLines text with
      | nil =>
        rw [hs] at h
        simp only [List.mem_singleton] at h
        subst h
        simp only [List.mem_singleton] at hc
        subst hc
        exact List.mem_cons_self _ _
      | cons first lines =>
        rw [hs] at h
        simp only at h
        rcases List.mem_cons.mp h with rfl | h
        · rcases List.mem_cons.mp hc with rfl | hc
          · exact List.mem_cons_self _ _
          · exact List.mem_cons_of_mem _
              (ih first (by rw [hs]; exact List.mem_cons_self _ _) c hc)
        · exact List.mem_cons_of_mem _
            (ih line (by rw [hs]; exact List.mem_cons_of_mem _ h) c hc)

theorem spaces_comparable (a b : List Char) (ha : ∀ c ∈ a, c = ' ') (hb : ∀ c ∈ b, c = ' ') :
    (a.isPrefixOf b || b.isPrefixOf a) = true := by
  induction a generalizing b with
  | nil => simp
  | cons x a ih =>
    cases b with
    | nil => simp
    | cons y b =>
      have hx : x = ' ' := ha x (List.mem_cons_self _ _)
      have hy : y = ' ' := hb y (List.mem_cons_self _ _)
      subst hx hy
      have := ih b (fun c hc => ha c (List.mem_cons_of_mem _ hc))
        (fun c hc => hb c (List.mem_cons_of_mem _ hc))
      simpa [List.isPrefixOf] using this

theorem indentation_spaces (text line : List Char) (hline : line ∈ contentLines text)
    (htab : ∀ c ∈ text, c ≠ '\t') : ∀ c ∈ indentation line, c = ' ' := by
  intro c hc
  unfold indentation at hc
  have hblank : isBlank c = true := (List.mem_takeWhile_imp hc)
  have hmem : c ∈ line := (List.takeWhile_prefix isBlank).subset hc
  unfold contentLines at hline
  have hin : c ∈ text := splitLines_mem text line (List.mem_filter.mp hline).1 c hmem
  have := htab c hin
  simp only [isBlank, Bool.or_eq_true, beq_iff_eq] at hblank
  rcases hblank with h | h
  · exact h
  · exact absurd h this

theorem indentsComparable_of_no_tab (text : List Char) (htab : ∀ c ∈ text, c ≠ '\t') :
    indentsComparable text = true := by
  unfold indentsComparable
  rw [List.all_eq_true]
  intro a ha
  rw [List.all_eq_true]
  intro b hb
  exact spaces_comparable _ _ (indentation_spaces text a ha htab)
    (indentation_spaces text b hb htab)

theorem Dedent_eq_dedented (text : List Char) (h : indentsComparable text = true) :
    Dedent text = dedented text := by
  rw [Dedent_eq_linesWithout, marginOf_common]
  · rfl
  · intro a ha b hb
    obtain ⟨la, hla, rfl⟩ := List.mem_map.mp ha
    obtain ⟨lb, hlb, rfl⟩ := List.mem_map.mp hb
    unfold indentsComparable at h
    rw [List.all_eq_true] at h
    have := h la hla
    rw [List.all_eq_true] at this
    exact this lb hlb

theorem Dedent_dedented_or_unindented (text : List Char) :
    Dedent text = dedented text ∨ Dedent text = linesWithout [] text := by
  rw [Dedent_eq_linesWithout]
  rcases marginOf_common_or_nil ((contentLines text).map indentation) with h | h
  · left; rw [h]; rfl
  · right; rw [h]

/-- Counterexample for C18: a line of spaces between two lines is emptied,
although the lines have no common leading indentation, and the lines ` \ta` and
`  b`, whose common leading indentation is one space, keep it, so the second
line is returned with two spaces where the claim gives one. -/
theorem FixMultiLineString_not_indentationRemoved :
    FixMultiLineString Dedent "a\n \nb".toList = "a\n\nb".toList ∧
    indentationRemoved "a\n \nb".toList = "a\n \nb".toList ∧
    FixMultiLineString Dedent " \ta\n  b".toList = "a\n  b".toList ∧
    TrimSpace (indentationRemoved " \ta\n  b".toList) = "a\n b".toList ∧
    TrimSpace (dedented " \ta\n  b".toList) = "a\n b".toList ∧
    ¬ (∀ str, FixMultiLineString Dedent str = indentationRemoved str) ∧
    ¬ (∀ str, FixMultiLineString Dedent str = TrimSpace (indentationRemoved str)) ∧
    ¬ (∀ str, FixMultiLineString Dedent str = TrimSpace (dedented str)) := by
  refine ⟨by decide, by decide, by decide, by decide, by decide, ?_, ?_, ?_⟩
  · intro h
    exact absurd (h "a\n \nb".toList) (by decide)
  · intro h
    exact absurd (h "a\n \nb".toList) (by decide)
  · intro h
    exact absurd (h " \ta\n  b".toList) (by decide)

/-- C18, amended. `FixMultiLineString` returns what `dedent.Dedent` returns with
the surrounding white space removed, so the result begins and ends with no white
space character, whatever the library returns. With the algorithm of the
library: whenever, of any two lines that hold more than spaces and tabs, the
indentation of one begins the indentation of the other, in particular whenever
the string holds no tab, the result is the trimmed text of the input lines with
the lines of spaces and tabs only emptied and the common leading indentation
removed from the others; for every other string either that indentation or
nothing is removed. The string `Hello` is returned unchanged and the multi-line
literal of the test yields `Hello, world!`. -/
theorem FixMultiLineString_dedented (dedent : List Char → List Char) (str : List Char) :
    FixMultiLineString dedent str = TrimSpace (dedent str) ∧
    (∀ c, (FixMultiLineString dedent str).head? = some c → isSpace c = false) ∧
    (∀ c, (FixMultiLineString dedent str).getLast? = some c → isSpace c = false) ∧
    (indentsComparable str = true →
      FixMultiLineString Dedent str = TrimSpace (dedented str)) ∧
    ((∀ c ∈ str, c ≠ '\t') → FixMultiLineString Dedent str = TrimSpace (dedented str)) ∧
    (FixMultiLineString Dedent str = TrimSpace (dedented str) ∨
      FixMultiLineString Dedent str = TrimSpace (linesWithout [] str)) ∧
    FixMultiLineString Dedent "Hello".toList = "Hello".toList ∧
    Dedent helloLiteral = "\nHello, world!\n".toList ∧
    dedented helloLiteral = "\nHello, world!\n".toList ∧
    indentsComparable helloLiteral = true ∧
    FixMultiLineString Dedent helloLiteral = "Hello, world!".toList := by
  refine ⟨rfl, ?_, ?_, ?_, ?_, ?_, by decide, by decide, by decide, by decide, by decide⟩
  · intro c hc
    unfold FixMultiLineString at hc
    rcases TrimSpace_head (dedent str) with h | ⟨d, l, h, hd⟩
    · rw [h] at hc; cases hc
    · rw [h] at hc
      simp only [List.head?_cons, Option.some.injEq] at hc
      subst hc
      exact hd
  · intro c hc
    exact TrimSpace_last (dedent str) c hc
  · intro h
    unfold FixMultiLineString
    rw [Dedent_eq_dedented str h]
  · intro h
    unfold FixMultiLineString
    rw [Dedent_eq_dedented str (indentsComparable_of_no_tab str h)]
  · unfold FixMultiLineString
    rcases Dedent_dedented_or_unindented str with h | h
    · left; rw [h]
    · right; rw [h]

/-! ## `SplitCamelCaseString` on characters of several bytes -/

theorem splitLoop_panics_beyond (uppers lowers rest : List Char) (i acronym : Nat)
    (builder : List Char) (result : List (List Char)) (hne : rest ≠ [])
    (h : uppers.length < i + rest.length) :
    splitLoop uppers lowers rest i acronym builder result = none := by
  induction rest generalizing i acronym builder result with
  | nil => exact absurd rfl hne
  | cons c rest ih =>
    simp only [splitLoop]
    cases hu : uppers.get? i with
    | none => rfl
    | some runeUpper =>
      simp only
      cases hl : lowers.get? i with
      | none => rfl
      | some runeLower =>
        simp only
        have hi : i < uppers.length := by
          have := List.get?_eq_some.mp hu
          exact this.1
        have hpos : 0 < c.utf8Size := c.utf8Size_pos
        have hrest : rest ≠ [] := by
          rintro rfl
          simp only [List.length_cons, List.length_nil] at h
          omega
        have hlen : uppers.length < i + c.utf8Size + rest.length := by
          simp only [List.length_cons] at h
          omega
        split <;> exact ih _ _ _ _ hrest hlen

theorem splitLoop_panics_multibyte (uppers lowers before after : List Char) (c : Char)
    (i acronym : Nat) (builder : List Char) (result : List (List Char))
    (hc : 2 ≤ c.utf8Size) (hafter : after ≠ [])
    (h : uppers.length ≤ i + (before ++ c :: after).length) :
    splitLoop uppers lowers (before ++ c :: after) i acronym builder result = none := by
  induction before generalizing i acronym builder result with
  | nil =>
    simp only [List.nil_append, splitLoop]
    cases hu : uppers.get? i with
    | none => rfl
    | some runeUpper =>
      simp only
      cases hl : lowers.get? i with
      | none => rfl
      | some runeLower =>
        simp only
        have hlen : uppers.length < i + c.utf8Size + after.length := by
          simp only [List.nil_append, List.length_cons] at h
          omega
        split <;> exact splitLoop_panics_beyond _ _ _ _ _ _ _ hafter hlen
  | cons b before ih =>
    simp only [List.cons_append, splitLoop]
    cases hu : uppers.get? i with
    | none => rfl
    | some runeUpper =>
      simp only
      cases hl : lowers.get? i with
      | none => rfl
      | some runeLower =>
        simp only
        have hpos : 0 < b.utf8Size := b.utf8Size_pos
        have hlen : uppers.length ≤ i + b.utf8Size + (before ++ c :: after).length := by
          simp only [List.cons_append, List.length_cons] at h
          omega
        split <;> exact ih _ _ _ _ hlen

/-- C23. `SplitCamelCaseString` is not index-safe on characters of several
bytes: whenever the string has a character of two or more bytes that is not its
last character, the call ends in an index-out-of-range panic, whatever the case
mapping. The loop variable `i` of `range original` is the byte offset of the
rune, and it indexes the rune slices `uppers` and `lowers`. -/
theorem SplitCamelCaseString_panics_on_multibyte (unicode : CaseMap)
    (before after : List Char) (c : Char) (hc : 2 ≤ c.utf8Size) (hafter : after ≠ []) :
    SplitCamelCaseString unicode (before ++ c :: after) = none := by
  unfold SplitCamelCaseString
  rw [splitLoop_panics_multibyte _ _ before after c 0 0 [] [] hc hafter (by simp)]

/-- Witness for C23: the string `héllo`. -/
theorem SplitCamelCaseString_panics_on_multibyte_witness :
    2 ≤ (Char.ofNat 233).utf8Size ∧
    ['h'] ++ Char.ofNat 233 :: ['l', 'l', 'o'] = "héllo".toList ∧
    SplitCamelCaseString asciiCase (['h'] ++ Char.ofNat 233 :: ['l', 'l', 'o']) = none :=
  ⟨by decide, by decide,
   SplitCamelCaseString_panics_on_multibyte asciiCase ['h'] ['l', 'l', 'o'] (Char.ofNat 233)
     (by decide) (by decide)⟩

theorem SplitCamelCaseString_nonempty_words (unicode : CaseMap) (original : List Char)
    (words : List (List Char)) (h : SplitCamelCaseString unicode original = some words) :
    ∀ word ∈ words, word ≠ [] := by
  unfold SplitCamelCaseString at h
  split at h
  · cases h
  · simp only [Option.some.injEq] at h
    subst h
    intro word hword
    simp only [List.mem_filter, decide_eq_true_eq] at hword
    exact hword.2

/-! ## `App.Run` -/

theorem argumentsLoop_eq (rest : List String) (i : Nat) (arguments : List String) :
    argumentsLoop rest i arguments (2 + i)
      = (arguments ++ rest.takeWhile (fun arg => !isFlag arg),
         2 + i + (rest.takeWhile (fun arg => !isFlag arg)).length) := by
  induction rest generalizing i arguments with
  | nil => simp [argumentsLoop]
  | cons arg rest ih =>
    simp only [argumentsLoop]
    cases h : isFlag arg with
    | true => simp [List.takeWhile_cons, h]
    | false =>
      have := ih (i + 1) (arguments ++ [arg])
      rw [show 2 + (i + 1) = 3 + i by omega] at this
      simp only [Bool.false_eq_true, if_false, this, List.takeWhile_cons, h, Bool.not_false,
        if_true, List.append_assoc, List.singleton_append, List.length_cons, Prod.mk.injEq,
        true_and]
      omega

/-- C22. For an argument list `program :: command :: rest` whose command is
registered, on an app without arguments, `Run` returns with `Program()` the
first and `Command()` the second element, `Arguments()` the longest prefix of
`rest` none of whose elements starts with `-`, and the flags the remaining
suffix: arguments followed by flags are `rest`, the flag index is 2 plus the
number of arguments and does not exceed the length of the list. The error is
that of the command's `Run` on the app so set up. -/
theorem Run_splits_arguments (run : String → AppStruct → Option GoError) (this : AppStruct)
    (program command : String) (rest : List String)
    (hfresh : this.arguments = []) (hreg : command ∈ this.commands) :
    ∃ r, AppStruct.Run run this (program :: command :: rest) = .returned r ∧
      r.app.program = program ∧ r.app.command = command ∧
      r.app.commands = this.commands ∧
      r.app.arguments = rest.takeWhile (fun arg => !isFlag arg) ∧
      r.flags = rest.dropWhile (fun arg => !isFlag arg) ∧
      (∀ arg ∈ r.app.arguments, isFlag arg = false) ∧
      (∀ arg, r.flags.head? = some arg → isFlag arg = true) ∧
      r.app.arguments ++ r.flags = rest ∧
      r.flagIndex = some (2 + r.app.arguments.length) ∧
      2 + r.app.arguments.length ≤ (program :: command :: rest).length ∧
      r.err = run command r.app := by
  have hloop := argumentsLoop_eq rest 0 []
  simp only [Nat.add_zero, List.nil_append] at hloop
  have hle : (rest.takeWhile (fun arg => !isFlag arg)).length ≤ rest.length :=
    (List.takeWhile_sublist _).length_le
  have hdrop : (program :: command :: rest).drop
      (2 + (rest.takeWhile (fun arg => !isFlag arg)).length)
      = rest.dropWhile (fun arg => !isFlag arg) := by
    rw [Nat.add_comm]
    simp only [List.drop_succ_cons]
    have h := List.takeWhile_append_dropWhile (fun arg => !isFlag arg) rest
    have hd := List.drop_left (rest.takeWhile (fun arg => !isFlag arg))
      (rest.dropWhile (fun arg => !isFlag arg))
    rw [h] at hd
    exact hd
  have hcontains : this.commands.contains command = true := by
    simpa using hreg
  refine ⟨{ app := { this with program := program, command := command,
                               arguments := rest.takeWhile (fun arg => !isFlag arg) },
            err := run command { this with program := program, command := command,
                                           arguments := rest.takeWhile (fun arg => !isFlag arg) },
            flagIndex := some (2 + (rest.takeWhile (fun arg => !isFlag arg)).length),
            flags := (program :: command :: rest).drop
              (2 + (rest.takeWhile (fun arg => !isFlag arg)).length) }, ?_, ?_⟩
  · simp only [AppStruct.Run, hcontains, not_true_eq_false, if_false, List.drop_succ_cons,
      List.drop_zero, hfresh, hloop, List.length_cons]
    rw [if_neg (by omega)]
  · refine ⟨rfl, rfl, rfl, rfl, ?_, ?_, ?_, ?_, rfl, ?_, rfl⟩
    · exact hdrop
    · intro arg harg
      have := List.mem_takeWhile_imp harg
      simpa using this
    · intro arg harg
      simp only [hdrop] at harg
      have := List.head?_dropWhile_not (fun arg => !isFlag arg) rest
      rw [harg] at this
      simpa using this
    · simp only [hdrop]
      exact List.takeWhile_append_dropWhile _ rest
    · simp only [List.length_cons]
      omega

/-- Witness for C22: `fmd help advertise -v now` on the app `NewApp` makes. -/
theorem Run_splits_arguments_witness :
    ∃ r, AppStruct.Run (fun _ _ => none) NewApp ["fmd", "help", "advertise", "-v", "now"]
        = .returned r ∧
      r.app.program = "fmd" ∧ r.app.command = "help" ∧
      r.app.commands = NewApp.commands ∧
      r.app.arguments = ["advertise", "-v", "now"].takeWhile (fun arg => !isFlag arg) ∧
      r.flags = ["advertise", "-v", "now"].dropWhile (fun arg => !isFlag arg) ∧
      (∀ arg ∈ r.app.arguments, isFlag arg = false) ∧
      (∀ arg, r.flags.head? = some arg → isFlag arg = true) ∧
      r.app.arguments ++ r.flags = ["advertise", "-v", "now"] ∧
      r.flagIndex = some (2 + r.app.arguments.length) ∧
      2 + r.app.arguments.length ≤ ["fmd", "help", "advertise", "-v", "now"].length ∧
      r.err = (fun _ _ => none) "help" r.app :=
  Run_splits_arguments (fun _ _ => none) NewApp "fmd" "help" ["advertise", "-v", "now"] rfl
    (by decide)

theorem Run_example :
    AppStruct.Run (fun _ _ => none) NewApp ["fmd", "help", "advertise", "-v", "now"]
      = .returned
          { app := { commands := ["help"], program := "fmd", command := "help",
                     arguments := ["advertise"] },
            err := none, flagIndex := some 3, flags := ["-v", "now"] } := by
  decide

/-! ## The coder on messages with several variants -/

theorem decodeMembers_last (lib : JsonLib) (name : String) (value stream : List Char)
    (m0 m1 : Message) (fuel : Nat)
    (hname : ∀ c ∈ name.toList, c ≠ '"' ∧ c ≠ '\\' ∧ ¬ c.toNat < 0x20)
    (hdec : decodeField lib name.toList (TrimSpace value ++ '}' :: stream) m0
      = some (m1, '}' :: stream)) :
    decodeMembers lib (fuel + 1)
      ('"' :: (name.toList ++ '"' :: ':' :: (TrimSpace value ++ '}' :: stream))) m0
      = some (m1, stream) := by
  have hskip := skipSpace_TrimSpace_append value '}' stream (by decide)
  have hcolon : skipSpace (':' :: (TrimSpace value ++ '}' :: stream))
      = ':' :: (TrimSpace value ++ '}' :: stream) := by
    simp [skipSpace, List.dropWhile, isJsonSpace]
  have hbrace : skipSpace ('}' :: stream) = '}' :: stream := by
    simp [skipSpace, List.dropWhile, isJsonSpace]
  simp only [decodeMembers, scanKey_append _ _ hname, hcolon, hskip, hdec, hbrace]

theorem decodeMembers_more (lib : JsonLib) (name : String) (value next : List Char)
    (m0 m1 : Message) (fuel : Nat)
    (hname : ∀ c ∈ name.toList, c ≠ '"' ∧ c ≠ '\\' ∧ ¬ c.toNat < 0x20)
    (hdec : decodeField lib name.toList (TrimSpace value ++ ',' :: '"' :: next) m0
      = some (m1, ',' :: '"' :: next)) :
    decodeMembers lib (fuel + 1)
      ('"' :: (name.toList ++ '"' :: ':' :: (TrimSpace value ++ ',' :: '"' :: next))) m0
      = decodeMembers lib fuel ('"' :: next) m1 := by
  have hskip := skipSpace_TrimSpace_append value ',' ('"' :: next) (by decide)
  have hcolon : skipSpace (':' :: (TrimSpace value ++ ',' :: '"' :: next))
      = ':' :: (TrimSpace value ++ ',' :: '"' :: next) := by
    simp [skipSpace, List.dropWhile, isJsonSpace]
  have hcomma : skipSpace (',' :: '"' :: next) = ',' :: '"' :: next := by
    simp [skipSpace, List.dropWhile, isJsonSpace]
  have hquote : skipSpace ('"' :: next) = '"' :: next := by
    simp [skipSpace, List.dropWhile, isJsonSpace]
  simp only [decodeMembers, scanKey_append _ _ hname, hcolon, hskip, hdec, hcomma, hquote]

theorem Read_object (lib : JsonLib) (members : List Char) (r : Option (Message × List Char))
    (h : ∀ fuel, decodeMembers lib (fuel + 3) ('"' :: members) Message.zero = r)
    (hlen : 2 ≤ members.length) :
    MessageCoderStruct.Read lib ('{' :: '"' :: members) = r := by
  have h1 : ∀ l : List Char, skipSpace ('{' :: l) = '{' :: l := by
    intro l; simp [skipSpace, List.dropWhile, isJsonSpace]
  have h2 : ∀ l : List Char, skipSpace ('"' :: l) = '"' :: l := by
    intro l; simp [skipSpace, List.dropWhile, isJsonSpace]
  simp only [MessageCoderStruct.Read, h1, h2, List.length_cons]
  obtain ⟨n, hn⟩ : ∃ n, members.length + 1 = n + 3 := ⟨members.length - 2, by omega⟩
  show decodeMembers lib ('"' :: members).length ('"' :: members) Message.zero = r
  rw [List.length_cons, hn]
  exact h n

theorem Write_eq_sparseObject (lib : JsonLib) (message : Message) :
    MessageCoderStruct.Write lib message = sparseObject lib message := by
  obtain ⟨cr, da, di⟩ := message
  rcases cr with _ | a <;> rcases da with _ | b <;> rcases di with _ | c <;>
    simp only [MessageCoderStruct.Write, sparseObject, sparseMembers, Message.fields,
      Option.map] <;>
    (try (generalize lib.encodeClientRequest a = ea; cases ea)) <;>
    (try (generalize lib.encodeDeviceAdvertisement b = eb; cases eb)) <;>
    (try (generalize lib.encodeDeviceInformation c = ec; cases ec)) <;>
    simp [writeFields, memberTexts, commaJoin]

theorem roundTrips_spec {α : Type} [DecidableEq α] (encode : α → Except GoError (List Char))
    (decode : Option α → List Char → Option (Option α × List Char))
    (v : α) (tail : List Char) (h : roundTrips encode decode v tail = true) :
    ∃ t, encode v = .ok t ∧ decode none (TrimSpace t ++ tail) = some (some v, tail) := by
  unfold roundTrips at h
  cases he : encode v with
  | error e => rw [he] at h; cases h
  | ok t =>
    rw [he] at h
    exact ⟨t, rfl, eq_of_beq h⟩

theorem decodeField_ClientRequest (lib : JsonLib) (text tail : List Char) (m : Message)
    (v : ClientRequestMessage)
    (h : lib.decodeClientRequest m.ClientRequest text = some (some v, tail)) :
    decodeField lib "ClientRequest".toList text m
      = some ({ m with ClientRequest := some v }, tail) := by
  simp [decodeField, keyMatches, h]

theorem decodeField_DeviceAdvertisement (lib : JsonLib) (text tail : List Char) (m : Message)
    (v : DeviceAdvertisementMessage)
    (h : lib.decodeDeviceAdvertisement m.DeviceAdvertisement text = some (some v, tail)) :
    decodeField lib "DeviceAdvertisement".toList text m
      = some ({ m with DeviceAdvertisement := some v }, tail) := by
  simp [decodeField, keyMatches, h]

theorem decodeField_DeviceInformation (lib : JsonLib) (text tail : List Char) (m : Message)
    (v : DeviceInformationMessage)
    (h : lib.decodeDeviceInformation m.DeviceInformation text = some (some v, tail)) :
    decodeField lib "DeviceInformation".toList text m
      = some ({ m with DeviceInformation := some v }, tail) := by
  simp [decodeField, keyMatches, h]

/-- C21. The one-variant convention is not enforced. For every message, with
none, one, two or three variants populated, whose populated payloads the JSON
library returns as encoded where they stand in the object, `Write` produces the
sparse object: one member per populated variant, keyed by its name, separated by
commas, in field order; and `Read` on that text followed by the rest of the
stream yields the very same message, so the same variants populated, and leaves
the rest of the stream. The message without a variant is written as the empty
object of two braces. -/
theorem Write_Read_variants (lib : JsonLib) (message : Message) (stream : List Char)
    (hlib : lib.roundTripsIn message stream = true) :
    ∃ text, MessageCoderStruct.Write lib message = .ok text ∧
      sparseObject lib message = .ok text ∧
      (sparseMembers lib message).map Prod.fst = message.populatedNames ∧
      MessageCoderStruct.Read lib (text ++ stream) = some (message, stream) ∧
      (message = Message.zero → text = ['{', '}']) := by
  obtain ⟨cr, da, di⟩ := message
  rcases cr with _ | a <;> rcases da with _ | b <;> rcases di with _ | c
  · exact ⟨['{', '}'], rfl, rfl, rfl, rfl, fun _ => rfl⟩
  · simp only [JsonLib.roundTripsIn, Bool.and_eq_true, and_true, true_and] at hlib
    have r3 := hlib
    obtain ⟨tc, hc, h3⟩ := roundTrips_spec _ _ _ _ r3
    simp only [hc, memberTextOf, closing, commaJoin, List.singleton_append,
      List.cons_append, List.nil_append, List.append_assoc] at h3
    have hsparse : ∃ text, sparseObject lib ⟨none, none, some c⟩ = .ok text := by
      simp only [sparseObject, sparseMembers, memberTexts, hc, commaJoin,
        List.singleton_append, List.cons_append, List.nil_append, List.append_assoc]
      exact ⟨_, rfl⟩
    obtain ⟨text, htext⟩ := hsparse
    refine ⟨text, by rw [Write_eq_sparseObject, htext], htext,
      by simp [sparseMembers, Message.populatedNames], ?_, fun h => by cases h⟩
    simp only [sparseObject, sparseMembers, memberTexts, hc, commaJoin,
      List.singleton_append, List.cons_append, List.nil_append, List.append_assoc,
      Except.ok.injEq] at htext
    subst htext
    simp only [List.singleton_append, List.cons_append, List.nil_append, List.append_assoc]
    apply Read_object
    · intro fuel
      rw [decodeMembers_last lib "DeviceInformation" _ _ Message.zero _ _ (by decide)
          (decodeField_DeviceInformation lib _ _ _ c h3)]
      all_goals rfl
    · simp only [List.length_append, List.length_cons]
      omega
  · simp only [JsonLib.roundTripsIn, Bool.and_eq_true, and_true, true_and] at hlib
    have r2 := hlib
    obtain ⟨tb, hb, h2⟩ := roundTrips_spec _ _ _ _ r2
    simp only [hb, memberTextOf, closing, commaJoin, List.singleton_append,
      List.cons_append, List.nil_append, List.append_assoc] at h2
    have hsparse : ∃ text, sparseObject lib ⟨none, some b, none⟩ = .ok text := by
      simp only [sparseObject, sparseMembers, memberTexts, hb, commaJoin,
        List.singleton_append, List.cons_append, List.nil_append, List.append_assoc]
      exact ⟨_, rfl⟩
    obtain ⟨text, htext⟩ := hsparse
    refine ⟨text, by rw [Write_eq_sparseObject, htext], htext,
      by simp [sparseMembers, Message.populatedNames], ?_, fun h => by cases h⟩
    simp only [sparseObject, sparseMembers, memberTexts, hb, commaJoin,
      List.singleton_append, List.cons_append, List.nil_append, List.append_assoc,
      Except.ok.injEq] at htext
    subst htext
    simp only [List.singleton_append, List.cons_append, List.nil_append, List.append_assoc]
    apply Read_object
    · intro fuel
      rw [decodeMembers_last lib "DeviceAdvertisement" _ _ Message.zero _ _ (by decide)
          (decodeField_DeviceAdvertisement lib _ _ _ b h2)]
      all_goals rfl
    · simp only [List.length_append, List.length_cons]
      omega
  · simp only [JsonLib.roundTripsIn, Bool.and_eq_true, and_true, true_and] at hlib
    obtain ⟨r2, r3⟩ := hlib
    obtain ⟨tc, hc, h3⟩ := roundTrips_spec _ _ _ _ r3
    obtain ⟨tb, hb, h2⟩ := roundTrips_spec _ _ _ _ r2
    simp only [hb, hc, memberTextOf, closing, commaJoin, List.singleton_append,
      List.cons_append, List.nil_append, List.append_assoc] at h2 h3
    have hsparse : ∃ text, sparseObject lib ⟨none, some b, some c⟩ = .ok text := by
      simp only [sparseObject, sparseMembers, memberTexts, hb, hc, commaJoin,
        List.singleton_append, List.cons_append, List.nil_append, List.append_assoc]
      exact ⟨_, rfl⟩
    obtain ⟨text, htext⟩ := hsparse
    refine ⟨text, by rw [Write_eq_sparseObject, htext], htext,
      by simp [sparseMembers, Message.populatedNames], ?_, fun h => by cases h⟩
    simp only [sparseObject, sparseMembers, memberTexts, hb, hc, commaJoin,
      List.singleton_append, List.cons_append, List.nil_append, List.append_assoc,
      Except.ok.injEq] at htext
    subst htext
    simp only [List.singleton_append, List.cons_append, List.nil_append, List.append_assoc]
    apply Read_object
    · intro fuel
      rw [decodeMembers_more lib "DeviceAdvertisement" _ _ Message.zero _ _ (by decide)
          (decodeField_DeviceAdvertisement lib _ _ _ b h2),
        decodeMembers_last lib "DeviceInformation" _ _ _ _ _ (by decide)
          (decodeField_DeviceInformation lib _ _ _ c h3)]
      all_goals rfl
    · simp only [List.length_append, List.length_cons]
      omega
  · simp only [JsonLib.roundTripsIn, Bool.and_eq_true, and_true, true_and] at hlib
    have r1 := hlib
    obtain ⟨ta, ha, h1⟩ := roundTrips_spec _ _ _ _ r1
    simp only [ha, memberTextOf, closing, commaJoin, List.singleton_append,
      List.cons_append, List.nil_append, List.append_assoc] at h1
    have hsparse : ∃ text, sparseObject lib ⟨some a, none, none⟩ = .ok text := by
      simp only [sparseObject, sparseMembers, memberTexts, ha, commaJoin,
        List.singleton_append, List.cons_append, List.nil_append, List.append_assoc]
      exact ⟨_, rfl⟩
    obtain ⟨text, htext⟩ := hsparse
    refine ⟨text, by rw [Write_eq_sparseObject, htext], htext,
      by simp [sparseMembers, Message.populatedNames], ?_, fun h => by cases h⟩
    simp only [sparseObject, sparseMembers, memberTexts, ha, commaJoin,
      List.singleton_append, List.cons_append, List.nil_append, List.append_assoc,
      Except.ok.injEq] at htext
    subst htext
    simp only [List.singleton_append, List.cons_append, List.nil_append, List.append_assoc]
    apply Read_object
    · intro fuel
      rw [decodeMembers_last lib "ClientRequest" _ _ Message.zero _ _ (by decide)
          (decodeField_ClientRequest lib _ _ _ a h1)]
      all_goals rfl
    · simp only [List.length_append, List.length_cons]
      omega
  · simp only [JsonLib.roundTripsIn, Bool.and_eq_true, and_true, true_and] at hlib
    obtain ⟨r1, r3⟩ := hlib
    obtain ⟨tc, hc, h3⟩ := roundTrips_spec _ _ _ _ r3
    obtain ⟨ta, ha, h1⟩ := roundTrips_spec _ _ _ _ r1
    simp only [ha, hc, memberTextOf, closing, commaJoin, List.singleton_append,
      List.cons_append, List.nil_append, List.append_assoc] at h1 h3
    have hsparse : ∃ text, sparseObject lib ⟨some a, none, some c⟩ = .ok text := by
      simp only [sparseObject, sparseMembers, memberTexts, ha, hc, commaJoin,
        List.singleton_append, List.cons_append, List.nil_append, List.append_assoc]
      exact ⟨_, rfl⟩
    obtain ⟨text, htext⟩ := hsparse
    refine ⟨text, by rw [Write_eq_sparseObject, htext], htext,
      by simp [sparseMembers, Message.populatedNames], ?_, fun h => by cases h⟩
    simp only [sparseObject, sparseMembers, memberTexts, ha, hc, commaJoin,
      List.singleton_append, List.cons_append, List.nil_append, List.append_assoc,
      Except.ok.injEq] at htext
    subst htext
    simp only [List.singleton_append, List.cons_append, List.nil_append, List.append_assoc]
    apply Read_object
    · intro fuel
      rw [decodeMembers_more lib "ClientRequest" _ _ Message.zero _ _ (by decide)
          (decodeField_ClientRequest lib _ _ _ a h1),
        decodeMembers_last lib "DeviceInformation" _ _ _ _ _ (by decide)
          (decodeField_DeviceInformation lib _ _ _ c h3)]
      all_goals rfl
    · simp only [List.length_append, List.length_cons]
      omega
  · simp only [JsonLib.roundTripsIn, Bool.and_eq_true, and_true, true_and] at hlib
    obtain ⟨r1, r2⟩ := hlib
    obtain ⟨tb, hb, h2⟩ := roundTrips_spec _ _ _ _ r2
    obtain ⟨ta, ha, h1⟩ := roundTrips_spec _ _ _ _ r1
    simp only [ha, hb, memberTextOf, closing, commaJoin, List.singleton_append,
      List.cons_append, List.nil_append, List.append_assoc] at h1 h2
    have hsparse : ∃ text, sparseObject lib ⟨some a, some b, none⟩ = .ok text := by
      simp only [sparseObject, sparseMembers, memberTexts, ha, hb, commaJoin,
        List.singleton_append, List.cons_append, List.nil_append, List.append_assoc]
      exact ⟨_, rfl⟩
    obtain ⟨text, htext⟩ := hsparse
    refine ⟨text, by rw [Write_eq_sparseObject, htext], htext,
      by simp [sparseMembers, Message.populatedNames], ?_, fun h => by cases h⟩
    simp only [sparseObject, sparseMembers, memberTexts, ha, hb, commaJoin,
      List.singleton_append, List.cons_append, List.nil_append, List.append_assoc,
      Except.ok.injEq] at htext
    subst htext
    simp only [List.singleton_append, List.cons_append, List.nil_append, List.append_assoc]
    apply Read_object
    · intro fuel
      rw [decodeMembers_more lib "ClientRequest" _ _ Message.zero _ _ (by decide)
          (decodeField_ClientRequest lib _ _ _ a h1),
        decodeMembers_last lib "DeviceAdvertisement" _ _ _ _ _ (by decide)
          (decodeField_DeviceAdvertisement lib _ _ _ b h2)]
      all_goals rfl
    · simp only [List.length_append, List.length_cons]
      omega
  · simp only [JsonLib.roundTripsIn, Bool.and_eq_true, and_true, true_and] at hlib
    obtain ⟨⟨r1, r2⟩, r3⟩ := hlib
    obtain ⟨tc, hc, h3⟩ := roundTrips_spec _ _ _ _ r3
    obtain ⟨tb, hb, h2⟩ := roundTrips_spec _ _ _ _ r2
    obtain ⟨ta, ha, h1⟩ := roundTrips_spec _ _ _ _ r1
    simp only [ha, hb, hc, memberTextOf, closing, commaJoin, List.singleton_append,
      List.cons_append, List.nil_append, List.append_assoc] at h1 h2 h3
    have hsparse : ∃ text, sparseObject lib ⟨some a, some b, some c⟩ = .ok text := by
      simp only [sparseObject, sparseMembers, memberTexts, ha, hb, hc, commaJoin,
        List.singleton_append, List.cons_append, List.nil_append, List.append_assoc]
      exact ⟨_, rfl⟩
    obtain ⟨text, htext⟩ := hsparse
    refine ⟨text, by rw [Write_eq_sparseObject, htext], htext,
      by simp [sparseMembers, Message.populatedNames], ?_, fun h => by cases h⟩
    simp only [sparseObject, sparseMembers, memberTexts, ha, hb, hc, commaJoin,
      List.singleton_append, List.cons_append, List.nil_append, List.append_assoc,
      Except.ok.injEq] at htext
    subst htext
    simp only [List.singleton_append, List.cons_append, List.nil_append, List.append_assoc]
    apply Read_object
    · intro fuel
      rw [decodeMembers_more lib "ClientRequest" _ _ Message.zero _ _ (by decide)
          (decodeField_ClientRequest lib _ _ _ a h1),
        decodeMembers_more lib "DeviceAdvertisement" _ _ _ _ _ (by decide)
          (decodeField_DeviceAdvertisement lib _ _ _ b h2),
        decodeMembers_last lib "DeviceInformation" _ _ _ _ _ (by decide)
          (decodeField_DeviceInformation lib _ _ _ c h3)]
    · simp only [List.length_append, List.length_cons]
      omega

set_option maxRecDepth 100000 in
/-- Witness for C21: a message with all three variants populated, with the
plain JSON fragment as the library, followed on the stream by another object. -/
theorem Write_Read_variants_witness :
    plainJson.roundTripsIn threeVariants ['{', '}'] = true ∧
    threeVariants.populated = 3 ∧
    ∃ text, MessageCoderStruct.Write plainJson threeVariants = .ok text ∧
      sparseObject plainJson threeVariants = .ok text ∧
      (sparseMembers plainJson threeVariants).map Prod.fst = threeVariants.populatedNames ∧
      MessageCoderStruct.Read plainJson (text ++ ['{', '}'])
        = some (threeVariants, ['{', '}']) ∧
      (threeVariants = Message.zero → text = ['{', '}']) :=
  ⟨by decide, by decide, Write_Read_variants plainJson threeVariants ['{', '}'] (by decide)⟩

set_option maxRecDepth 100000 in
theorem Write_variants_example :
    MessageCoderStruct.Write plainJson twoVariants
      = .ok ("\x7b\"ClientRequest\":\x7b\"Request\":\"identify\"," ++
          "\"Parameters\":[\"blink\",\"3\"]\x7d,\"DeviceInformation\":\x7b\"Group\":\"lab\"," ++
          "\"DeviceName\":\"desk1\",\"HostName\":\"desk1\",\"OperatingSystem\":\"linux\"," ++
          "\"NetworkInterfaces\":[]\x7d\x7d").toList ∧
    threeVariants.populatedNames = ["ClientRequest", "DeviceAdvertisement", "DeviceInformation"] ∧
    (MessageCoderStruct.Write plainJson twoVariants).toOption.bind
        (fun text => MessageCoderStruct.Read plainJson text)
      = some (twoVariants, []) := by
  decide

end Fmd
